import Mathlib

/-! # protoc-gen-jsonschema: the converter of `internal/converter/types.go`

A shallow embedding of `convertField`, `convertMessageType` and
`formatDescription`, and theorems about the JSON Schema nodes they build.

Conventions of the embedding.

* Go pointers that the code dereferences with `*p` are `Option` values and a
  dereference of `nil` is the outcome `Outcome.crashed`; fields that the code reads
  only through the generated getters hold what the getter returns.
* `convertField` and `convertMessageType` call each other without a bound in Go.
  Here `convertMessageType` takes a recursion budget (`fuel`); `Outcome.outOfFuel`
  says that the budget did not suffice.  A call that is `outOfFuel` for every
  budget is a call that never returns.
* Logger calls are dropped, except for the arguments they evaluate.
-/

namespace ProtocGenJsonschema

/-! ## Outcomes of a call -/

/-- What a call does: it returns, it crashes the process (a nil dereference), or
the recursion budget of the embedding is used up. -/
inductive Outcome (α : Type) where
  | returned (a : α)
  | crashed
  | outOfFuel

/-- Go `error` values built by the converter. -/
inductive Error where
  /-- an error handed back by `proto.GetExtension` other than `ErrMissingExtension` -/
  | extension (detail : String)
  /-- the result of `fmt.Errorf`, with its formatted text -/
  | errorf (text : String)
  deriving DecidableEq

/-! ## The descriptor model (`descriptor` and `validate` packages) -/

/-- Go `descriptor.FieldDescriptorProto_Type`, an `int32` enum. -/
abbrev FieldType := Int

abbrev TYPE_DOUBLE : FieldType := 1
abbrev TYPE_FLOAT : FieldType := 2
abbrev TYPE_INT64 : FieldType := 3
abbrev TYPE_UINT64 : FieldType := 4
abbrev TYPE_INT32 : FieldType := 5
abbrev TYPE_FIXED64 : FieldType := 6
abbrev TYPE_FIXED32 : FieldType := 7
abbrev TYPE_BOOL : FieldType := 8
abbrev TYPE_STRING : FieldType := 9
abbrev TYPE_GROUP : FieldType := 10
abbrev TYPE_MESSAGE : FieldType := 11
abbrev TYPE_BYTES : FieldType := 12
abbrev TYPE_UINT32 : FieldType := 13
abbrev TYPE_ENUM : FieldType := 14
abbrev TYPE_SFIXED32 : FieldType := 15
abbrev TYPE_SFIXED64 : FieldType := 16
abbrev TYPE_SINT32 : FieldType := 17
abbrev TYPE_SINT64 : FieldType := 18

/-- Go `descriptor.FieldDescriptorProto_Label`, an `int32` enum. -/
abbrev FieldLabel := Int

abbrev LABEL_OPTIONAL : FieldLabel := 1
abbrev LABEL_REQUIRED : FieldLabel := 2
abbrev LABEL_REPEATED : FieldLabel := 3

/-- The names `FieldDescriptorProto_Type.String()` prints; a value outside the enum
prints as its decimal number. -/
def FieldType.name (t : FieldType) : String :=
  if t = TYPE_DOUBLE then "TYPE_DOUBLE"
  else if t = TYPE_FLOAT then "TYPE_FLOAT"
  else if t = TYPE_INT64 then "TYPE_INT64"
  else if t = TYPE_UINT64 then "TYPE_UINT64"
  else if t = TYPE_INT32 then "TYPE_INT32"
  else if t = TYPE_FIXED64 then "TYPE_FIXED64"
  else if t = TYPE_FIXED32 then "TYPE_FIXED32"
  else if t = TYPE_BOOL then "TYPE_BOOL"
  else if t = TYPE_STRING then "TYPE_STRING"
  else if t = TYPE_GROUP then "TYPE_GROUP"
  else if t = TYPE_MESSAGE then "TYPE_MESSAGE"
  else if t = TYPE_BYTES then "TYPE_BYTES"
  else if t = TYPE_UINT32 then "TYPE_UINT32"
  else if t = TYPE_ENUM then "TYPE_ENUM"
  else if t = TYPE_SFIXED32 then "TYPE_SFIXED32"
  else if t = TYPE_SFIXED64 then "TYPE_SFIXED64"
  else if t = TYPE_SINT32 then "TYPE_SINT32"
  else if t = TYPE_SINT64 then "TYPE_SINT64"
  else toString t

/-- Go `validate.MessageRules`: `required` is the `*bool` field `Required`. -/
structure MessageRules where
  required : Option Bool := none

/-- The `well_known` oneof of `validate.StringRules`: at most one flag is present. -/
inductive WellKnown where
  | email (b : Bool)
  | hostname (b : Bool)
  | ip (b : Bool)
  | ipv4 (b : Bool)
  | ipv6 (b : Bool)
  | uri (b : Bool)
  | uriRef (b : Bool)
  | address (b : Bool)
  | uuid (b : Bool)

/-- Go `validate.StringRules`.  The scalar fields hold what the getters (`GetConst`,
`GetLen`, ...) return, the zero value when unset; the lengths are `uint64`;
`in_` and `notIn` are slices, `none` being the nil slice. -/
structure StringRules where
  const : String := ""
  len : Nat := 0
  minLen : Nat := 0
  maxLen : Nat := 0
  pattern : String := ""
  prefix_ : String := ""
  suffix : String := ""
  in_ : Option (List String) := none
  notIn : Option (List String) := none
  wellKnown : Option WellKnown := none

def StringRules.getEmail (r : StringRules) : Bool :=
  match r.wellKnown with | some (.email b) => b | _ => false
def StringRules.getHostname (r : StringRules) : Bool :=
  match r.wellKnown with | some (.hostname b) => b | _ => false
def StringRules.getIp (r : StringRules) : Bool :=
  match r.wellKnown with | some (.ip b) => b | _ => false
def StringRules.getIpv4 (r : StringRules) : Bool :=
  match r.wellKnown with | some (.ipv4 b) => b | _ => false
def StringRules.getIpv6 (r : StringRules) : Bool :=
  match r.wellKnown with | some (.ipv6 b) => b | _ => false
def StringRules.getUri (r : StringRules) : Bool :=
  match r.wellKnown with | some (.uri b) => b | _ => false
def StringRules.getUriRef (r : StringRules) : Bool :=
  match r.wellKnown with | some (.uriRef b) => b | _ => false
def StringRules.getAddress (r : StringRules) : Bool :=
  match r.wellKnown with | some (.address b) => b | _ => false
def StringRules.getUuid (r : StringRules) : Bool :=
  match r.wellKnown with | some (.uuid b) => b | _ => false

/-- Go `validate.FieldRules`: `message` is the field `Message`; `string_` is what
`GetString_()` returns, the string rules when the `type` oneof holds them and
`none` for rules of any other kind. -/
structure FieldRules where
  message : Option MessageRules := none
  string_ : Option StringRules := none

/-- What `proto.GetExtension(desc.Options, validate.E_Rules)` yields on the options
of a field. -/
inductive RulesExtension where
  /-- the case `err == proto.ErrMissingExtension` -/
  | missing
  /-- any other error -/
  | failed (err : Error)
  /-- a value that is a `*validate.FieldRules` -/
  | rules (r : FieldRules)
  /-- a value of another dynamic type: the type assertion fails -/
  | otherValue

/-- Go `descriptor.FieldDescriptorProto`, read through `GetName`, `GetJsonName`,
`GetType`, `GetLabel`, `GetTypeName`; `options` is `none` for a nil `Options`. -/
structure FieldDescriptorProto where
  name : String := ""
  jsonName : String := ""
  type : FieldType := TYPE_DOUBLE
  label : FieldLabel := LABEL_OPTIONAL
  typeName : String := ""
  options : Option RulesExtension := none

/-- Go `descriptor.EnumValueDescriptorProto`: `Name` is a `*string`, `Number` a `*int32`. -/
structure EnumValueDescriptorProto where
  name : Option String := none
  number : Option Int := none

/-- Go `descriptor.EnumDescriptorProto`. -/
structure EnumDescriptorProto where
  name : Option String := none
  value : List EnumValueDescriptorProto := []

/-- Go `descriptor.MessageOptions`, read through `GetMapEntry`. -/
structure MessageOptions where
  mapEntry : Bool := false

/-- Go `descriptor.DescriptorProto`: `name` is the `*string` field `Name`. -/
structure DescriptorProto where
  name : Option String := none
  field : List FieldDescriptorProto := []
  nestedType : List DescriptorProto := []
  enumType : List EnumDescriptorProto := []
  options : Option MessageOptions := none

/-- Go `msg.GetName()`. -/
def DescriptorProto.getName (d : DescriptorProto) : String := d.name.getD ""

/-- Go `msg.Options.GetMapEntry()`, false on nil options. -/
def DescriptorProto.getMapEntry (d : DescriptorProto) : Bool :=
  match d.options with
  | some o => o.mapEntry
  | none => false

/-- Go `descriptor.SourceCodeInfo_Location`, read through its getters. -/
structure SourceCodeInfo_Location where
  leadingDetachedComments : List String := []
  leadingComments : String := ""
  trailingComments : String := ""

/-! ## The schema model (`jsonschema.Type`) -/

/-- A `json.RawMessage`: nil, the bytes of a literal, or the bytes `json.Marshal`
gives for a value. -/
inductive RawMessage (α : Type) where
  | empty
  | literal (s : String)
  | marshal (a : α)

/-- A member of `Enum []interface{}`: a string, or one of the pointers
`enumValue.Name` and `enumValue.Number` that the enum case appends. -/
inductive EnumEntry where
  | str (s : String)
  | namePtr (p : Option String)
  | numberPtr (p : Option Int)
  deriving DecidableEq

/-- Go `jsonschema.Type`, the fields the converter writes.  `type = ""` is the unset
primitive type; `properties` is the Go map, kept as an association list with one
entry a key. -/
structure SchemaType where
  version : String
  type : String
  items : Option SchemaType
  properties : List (String × SchemaType)
  required : List String
  additionalProperties : RawMessage SchemaType
  oneOf : List SchemaType
  not_ : Option SchemaType
  enum : List EnumEntry
  minLength : Int
  maxLength : Int
  pattern : String
  format : String
  description : String

/-- The zero value `jsonschema.Type{}`. -/
def SchemaType.zero : SchemaType :=
  { version := "", type := "", items := none, properties := [], required := [],
    additionalProperties := RawMessage.empty, oneOf := [], not_ := none, enum := [],
    minLength := 0, maxLength := 0, pattern := "", format := "", description := "" }

/-- The literal `jsonschema.Type{Type: t}`. -/
def SchemaType.ofType (t : String) : SchemaType := { SchemaType.zero with type := t }

/-- The literal `jsonschema.Type{Type: t, Format: f}`. -/
def SchemaType.ofTypeFormat (t f : String) : SchemaType := { SchemaType.zero with type := t, format := f }

/-- Go `m[key] = v` on the properties map. -/
def setProperty : List (String × SchemaType) → String → SchemaType → List (String × SchemaType)
  | [], key, v => [(key, v)]
  | (k, w) :: rest, key, v =>
    if k = key then (k, v) :: rest else (k, w) :: setProperty rest key v

/-- Go `v, ok := m[key]` on the properties map. -/
def getProperty : List (String × SchemaType) → String → Option SchemaType
  | [], _ => none
  | (k, w) :: rest, key => if k = key then some w else getProperty rest key

/-! ## The converter -/

/-- The `Converter` as the functions of `types.go` read it: the three flags, the
source-comment index (`c.sourceInfo.GetField`, `c.sourceInfo.GetMessage`) and
`c.lookupType(curPkg, ·)` for the package in scope; `convertField` and
`convertMessageType` pass `curPkg` along unchanged.  The index and `lookupType` are
declared outside `types.go`: they are parameters here, and every theorem holds for
all of them. -/
structure Converter where
  AllowNullValues : Bool := false
  DisallowAdditionalProperties : Bool := false
  DisallowBigIntsAsStrings : Bool := false
  sourceInfoGetField : FieldDescriptorProto → Option SourceCodeInfo_Location := fun _ => none
  sourceInfoGetMessage : DescriptorProto → Option SourceCodeInfo_Location := fun _ => none
  lookupType : String → Option DescriptorProto := fun _ => none

/-! ### `formatDescription` -/

/-- Go `unicode.IsSpace`. -/
def isSpace (ch : Char) : Bool :=
  ch = '\t' || ch = '\n' || ch = '\x0b' || ch = '\x0c' || ch = '\r' || ch = ' '
    || ch.toNat = 0x85 || ch.toNat = 0xA0 || ch.toNat = 0x1680
    || (0x2000 ≤ ch.toNat && ch.toNat ≤ 0x200A)
    || ch.toNat = 0x2028 || ch.toNat = 0x2029 || ch.toNat = 0x202F || ch.toNat = 0x205F
    || ch.toNat = 0x3000

/-- Go `strings.TrimSpace`. -/
def trimSpace (s : String) : String :=
  String.mk ((s.data.dropWhile isSpace).reverse.dropWhile isSpace).reverse

/-- Go `formatDescription`. -/
def formatDescription (sl : SourceCodeInfo_Location) : String :=
  let lines := (sl.leadingDetachedComments.map trimSpace).filter (fun s => s ≠ "")
  let lines := if trimSpace sl.leadingComments ≠ "" then lines ++ [trimSpace sl.leadingComments] else lines
  let lines := if trimSpace sl.trailingComments ≠ "" then lines ++ [trimSpace sl.trailingComments] else lines
  String.intercalate "\n\n" lines

/-! ### `convertField` -/

/-- What `convertField` returns: the node pointer (`none` is nil), the required
flag, the error (`none` is nil). -/
abbrev FieldResult := Option SchemaType × Bool × Option Error

/-- What `convertMessageType` returns: the node and the error (`none` is nil). -/
abbrev MessageResult := SchemaType × Option Error

/-- Go `int(u)` for a `uint64` on a 64-bit platform. -/
def intOfUint64 (u : Nat) : Int :=
  if u % 2 ^ 64 < 2 ^ 63 then ((u % 2 ^ 64 : Nat) : Int) else ((u % 2 ^ 64 : Nat) : Int) - 2 ^ 64

/-- Go `strings.HasSuffix s suffix`. -/
def hasSuffix (s suffix : String) : Bool := suffix.data.isSuffixOf s.data

/-- Lines 66-76 of `convertField`: the validation rules of the field, or the error
of `proto.GetExtension`. -/
def getValidationRules (desc : FieldDescriptorProto) : Except Error (Option FieldRules) :=
  match desc.options with
  | none => .ok none
  | some .missing => .ok none
  | some (.failed err) => .error err
  | some (.rules rule) => .ok (some rule)
  | some .otherValue => .ok none

/-- Lines 78-80 of `convertField`: the required flag. -/
def requiredFlag (validationRules : Option FieldRules) : Bool :=
  match validationRules with
  | some rules =>
    match rules.message with
    | some m =>
      match m.required with
      | some b => b
      | none => false
    | none => false
  | none => false

/-- The statement `if cond { js = f(js) }`. -/
def onlyIf (cond : Prop) [Decidable cond] (f : SchemaType → SchemaType) (js : SchemaType) : SchemaType :=
  if cond then f js else js

/-- The statement `if values != nil { js = f(values, js) }` on a slice. -/
def onlyIfNotNil (values : Option (List String)) (f : List String → SchemaType → SchemaType)
    (js : SchemaType) : SchemaType :=
  match values with
  | some vs => f vs js
  | none => js

/-- Lines 142-217 of `convertField`: the string rules applied one after another to
the node, in the order of the source. -/
def applyStringRules (stringRules : StringRules) (js : SchemaType) : SchemaType :=
  js
  |> onlyIf (stringRules.const ≠ "") (fun js => { js with enum := [EnumEntry.str stringRules.const] })
  |> onlyIf (stringRules.minLen ≠ 0) (fun js => { js with minLength := intOfUint64 stringRules.minLen })
  |> onlyIf (stringRules.maxLen ≠ 0) (fun js => { js with maxLength := intOfUint64 stringRules.maxLen })
  |> onlyIf (stringRules.len > 0) (fun js =>
      { js with minLength := intOfUint64 stringRules.len, maxLength := intOfUint64 stringRules.len })
  |> onlyIf (stringRules.pattern ≠ "") (fun js => { js with pattern := stringRules.pattern })
  |> onlyIf (stringRules.prefix_ ≠ "") (fun js => { js with pattern := "^" ++ stringRules.prefix_ ++ ".*" })
  |> onlyIf (stringRules.suffix ≠ "") (fun js => { js with pattern := ".*" ++ stringRules.suffix ++ "$" })
  |> onlyIfNotNil stringRules.in_ (fun values js => { js with enum := values.map EnumEntry.str })
  |> onlyIfNotNil stringRules.notIn (fun values js =>
      { js with not_ := some { SchemaType.zero with enum := values.map EnumEntry.str } })
  |> onlyIf (stringRules.getEmail = true) (fun js => { js with format := "email" })
  |> onlyIf (stringRules.getAddress = true) (fun js =>
      { js with type := "", oneOf := [SchemaType.ofTypeFormat "string" "ipv4",
                                      SchemaType.ofTypeFormat "string" "ipv6",
                                      SchemaType.ofTypeFormat "string" "hostname"] })
  |> onlyIf (stringRules.getHostname = true) (fun js => { js with format := "hostname" })
  |> onlyIf (stringRules.getIp = true) (fun js =>
      { js with type := "", oneOf := [SchemaType.ofTypeFormat "string" "ipv4",
                                      SchemaType.ofTypeFormat "string" "ipv6"] })
  |> onlyIf (stringRules.getIpv4 = true) (fun js => { js with format := "ipv4" })
  |> onlyIf (stringRules.getIpv6 = true) (fun js => { js with format := "ipv6" })
  |> onlyIf (stringRules.getUri = true) (fun js => { js with format := "uri" })
  |> onlyIf (stringRules.getUriRef = true) (fun js => { js with format := "uri-reference" })
  |> onlyIf (stringRules.getUuid = true) (fun js => { js with format := "uuid" })

/-- Lines 232-242 of `convertField`: the loop over the values of one enum.  Each
round dereferences `*msg.Name` and `*enumDescriptor.Name`. -/
def enumValueLoop (typeName : String) (msgName enumName : Option String) :
    List EnumValueDescriptorProto → List EnumEntry → Outcome (List EnumEntry)
  | [], acc => .returned acc
  | enumValue :: rest, acc =>
    match msgName, enumName with
    | some m, some e =>
      let fullFieldName := "." ++ m ++ "." ++ e
      let acc := if hasSuffix typeName fullFieldName then
          acc ++ [EnumEntry.namePtr enumValue.name, EnumEntry.numberPtr enumValue.number]
        else acc
      enumValueLoop typeName msgName enumName rest acc
    | _, _ => .crashed

/-- Lines 229-243 of `convertField`: the loop over the enums of the message. -/
def enumLoop (typeName : String) (msgName : Option String) :
    List EnumDescriptorProto → List EnumEntry → Outcome (List EnumEntry)
  | [], acc => .returned acc
  | enumDescriptor :: rest, acc =>
    match enumValueLoop typeName msgName enumDescriptor.name enumDescriptor.value acc with
    | .returned acc => enumLoop typeName msgName rest acc
    | .crashed => .crashed
    | .outOfFuel => .outOfFuel

/-- Lines 93-267 of `convertField`: the switch over the kind.  `Except.error` is
the early return of the default case. -/
def switchType (c : Converter) (desc : FieldDescriptorProto) (msg : DescriptorProto)
    (validationRules : Option FieldRules) (js : SchemaType) : Outcome (Except Error SchemaType) :=
  if desc.type = TYPE_DOUBLE ∨ desc.type = TYPE_FLOAT then
    if c.AllowNullValues then
      .returned (.ok { js with oneOf := [SchemaType.ofType "null", SchemaType.ofType "number"] })
    else
      .returned (.ok { js with type := "number" })
  else if desc.type = TYPE_INT32 ∨ desc.type = TYPE_UINT32 ∨ desc.type = TYPE_FIXED32
      ∨ desc.type = TYPE_SFIXED32 ∨ desc.type = TYPE_SINT32 then
    if c.AllowNullValues then
      .returned (.ok { js with oneOf := [SchemaType.ofType "null", SchemaType.ofType "integer"] })
    else
      .returned (.ok { js with type := "integer" })
  else if desc.type = TYPE_INT64 ∨ desc.type = TYPE_UINT64 ∨ desc.type = TYPE_FIXED64
      ∨ desc.type = TYPE_SFIXED64 ∨ desc.type = TYPE_SINT64 then
    let js := { js with oneOf := js.oneOf ++ [SchemaType.ofType "integer"] }
    let js := if ¬ c.DisallowBigIntsAsStrings then
        { js with oneOf := js.oneOf ++ [SchemaType.ofType "string"] } else js
    let js := if c.AllowNullValues then
        { js with oneOf := js.oneOf ++ [SchemaType.ofType "null"] } else js
    .returned (.ok js)
  else if desc.type = TYPE_STRING ∨ desc.type = TYPE_BYTES then
    if c.AllowNullValues then
      .returned (.ok { js with oneOf := [SchemaType.ofType "null", SchemaType.ofType "string"] })
    else
      let js := { js with type := "string" }
      match validationRules.bind (fun r => r.string_) with
      | some stringRules => .returned (.ok (applyStringRules stringRules js))
      | none => .returned (.ok js)
  else if desc.type = TYPE_ENUM then
    let js := { js with oneOf := js.oneOf ++ [SchemaType.ofType "string"] }
    let js := { js with oneOf := js.oneOf ++ [SchemaType.ofType "integer"] }
    let js := if c.AllowNullValues then
        { js with oneOf := js.oneOf ++ [SchemaType.ofType "null"] } else js
    match enumLoop desc.typeName msg.name msg.enumType js.enum with
    | .returned values => .returned (.ok { js with enum := values })
    | .crashed => .crashed
    | .outOfFuel => .outOfFuel
  else if desc.type = TYPE_BOOL then
    if c.AllowNullValues then
      .returned (.ok { js with oneOf := [SchemaType.ofType "null", SchemaType.ofType "boolean"] })
    else
      .returned (.ok { js with type := "boolean" })
  else if desc.type = TYPE_GROUP ∨ desc.type = TYPE_MESSAGE then
    let js := { js with type := "object" }
    let js := if desc.label = LABEL_OPTIONAL then
        { js with additionalProperties := RawMessage.literal "true" } else js
    let js := if desc.label = LABEL_REQUIRED then
        { js with additionalProperties := RawMessage.literal "false" } else js
    .returned (.ok js)
  else
    .returned (.error (Error.errorf ("unrecognized field type: " ++ FieldType.name desc.type)))

/-- Lines 270-293 of `convertField`: the array of a repeated field whose base type
is not `object`. -/
def repeatedPrimitive (c : Converter) (js : SchemaType) : SchemaType :=
  let items := SchemaType.zero
  let (js, items) :=
    if js.enum.length > 0 then
      ({ js with enum := [] }, { items with enum := js.enum, oneOf := [] })
    else
      (js, { items with type := js.type, oneOf := js.oneOf })
  let js := { js with items := some items }
  if c.AllowNullValues then
    { js with oneOf := [SchemaType.ofType "null", SchemaType.ofType "array"] }
  else
    { js with type := "array", oneOf := [] }

/-- Lines 341-348 of `convertField`: the null wrapping of an object or array node. -/
def wrapNull (c : Converter) (js : SchemaType) : SchemaType :=
  if c.AllowNullValues then
    { js with oneOf := [SchemaType.ofType "null", SchemaType.ofType js.type], type := "" }
  else js

/-- Lines 296-349 of `convertField`: the node of a field whose base type is `object`.
`convertMessage` is the recursive call `c.convertMessageType(curPkg, ·)`.
`json.Marshal` of a schema node cannot fail (the node holds strings, integers,
slices, string-keyed maps and valid raw JSON only), so its error return is left out. -/
def convertObject (c : Converter) (convertMessage : DescriptorProto → Outcome MessageResult)
    (desc : FieldDescriptorProto) (msg : DescriptorProto) (required : Bool) (js : SchemaType) :
    Outcome FieldResult :=
  match c.lookupType desc.typeName with
  | none =>
    .returned (none, required, some (Error.errorf ("no such message type named " ++ desc.typeName)))
  | some recordType =>
    match convertMessage recordType with
    | .crashed => .crashed
    | .outOfFuel => .outOfFuel
    | .returned (_, some err) => .returned (none, required, some err)
    | .returned (recursedJSONSchemaType, none) =>
      if recordType.getMapEntry then
        match msg.name with
        | none => .crashed
        | some _ =>
          match getProperty recursedJSONSchemaType.properties "value" with
          | none =>
            .returned (none, required, some (Error.errorf "Unable to find 'value' property of MAP type"))
          | some value =>
            let js := { js with additionalProperties := RawMessage.marshal value }
            .returned (some (wrapNull c js), required, none)
      else if desc.label = LABEL_REPEATED then
        let js := { js with items := some recursedJSONSchemaType }
        let js := { js with type := "array" }
        .returned (some (wrapNull c js), required, none)
      else
        let js := { js with properties := recursedJSONSchemaType.properties }
        .returned (some (wrapNull c js), required, none)

/-- Lines 83-90 of `convertField`: the fresh node with its description. -/
def fieldNode (c : Converter) (desc : FieldDescriptorProto) : SchemaType :=
  let js := { SchemaType.zero with properties := [] }
  match c.sourceInfoGetField desc with
  | some src => { js with description := formatDescription src }
  | none => js

/-- Go `convertField`, with the recursive call to `convertMessageType` as the
argument `convertMessage`. -/
def convertFieldBody (c : Converter) (convertMessage : DescriptorProto → Outcome MessageResult)
    (desc : FieldDescriptorProto) (msg : DescriptorProto) : Outcome FieldResult :=
  match getValidationRules desc with
  | .error err => .returned (none, false, some err)
  | .ok validationRules =>
    let required := requiredFlag validationRules
    match switchType c desc msg validationRules (fieldNode c desc) with
    | .crashed => .crashed
    | .outOfFuel => .outOfFuel
    | .returned (.error err) => .returned (none, required, some err)
    | .returned (.ok js) =>
      if desc.label = LABEL_REPEATED ∧ js.type ≠ "object" then
        .returned (some (repeatedPrimitive c js), required, none)
      else if js.type = "object" then
        convertObject c convertMessage desc msg required js
      else
        .returned (some js, required, none)

/-- Lines 385-397 of `convertMessageType`: the loop over the fields.  The logger
call of line 387 reads `recursedJSONSchemaType.Type` before the error is looked at:
on a nil node it dereferences nil. -/
def convertFields (convert : FieldDescriptorProto → Outcome FieldResult) :
    List FieldDescriptorProto → SchemaType → Outcome MessageResult
  | [], js => .returned (js, none)
  | fieldDesc :: rest, js =>
    match convert fieldDesc with
    | .crashed => .crashed
    | .outOfFuel => .outOfFuel
    | .returned (none, _, _) => .crashed
    | .returned (some _, _, some err) => .returned (js, some err)
    | .returned (some recursedJSONSchemaType, required, none) =>
      let js := { js with properties := setProperty js.properties fieldDesc.jsonName recursedJSONSchemaType }
      let js := if required then { js with required := js.required ++ [fieldDesc.jsonName] } else js
      convertFields convert rest js

/-- Lines 357-382 of `convertMessageType`: the node before the fields are added. -/
def messageNode (c : Converter) (msg : DescriptorProto) : SchemaType :=
  let js := { SchemaType.zero with
    properties := [], version := "http://json-schema.org/draft-07/schema#" }
  let js := match c.sourceInfoGetMessage msg with
    | some src => { js with description := formatDescription src }
    | none => js
  let js := if c.AllowNullValues then
      { js with oneOf := [SchemaType.ofType "null", SchemaType.ofType "object"] }
    else { js with type := "object" }
  if c.DisallowAdditionalProperties then
    { js with additionalProperties := RawMessage.literal "false" }
  else
    { js with additionalProperties := RawMessage.literal "true" }

/-- Go `convertMessageType`, with a budget for the depth of the recursion through
`convertField`. -/
def convertMessageType (c : Converter) : Nat → DescriptorProto → Outcome MessageResult
  | 0, _ => .outOfFuel
  | fuel + 1, msg =>
    convertFields (fun fieldDesc => convertFieldBody c (fun d => convertMessageType c fuel d) fieldDesc msg)
      msg.field (messageNode c msg)

/-- Go `convertField`; the messages it recurses into are converted with budget `fuel`. -/
def convertField (c : Converter) (fuel : Nat) (desc : FieldDescriptorProto) (msg : DescriptorProto) :
    Outcome FieldResult :=
  convertFieldBody c (fun d => convertMessageType c fuel d) desc msg

/-! ### `relativelyLookupNestedType` -/

/-- The pieces of a character list between its dots: the first piece, then the others. -/
def splitDot : List Char → List Char × List (List Char)
  | [] => ([], [])
  | ch :: rest =>
    if ch = '.' then ([], (splitDot rest).1 :: (splitDot rest).2)
    else (ch :: (splitDot rest).1, (splitDot rest).2)

/-- Go `strings.Split(s, ".")`: the substrings of `s` between the dots, in order; a
string without a dot (the empty one included) gives one component. -/
def stringsSplit (s : String) : List String :=
  String.mk (splitDot s.data).1 :: (splitDot s.data).2.map String.mk

/-- The inner loop of `relativelyLookupNestedType`: the first entry of
`desc.GetNestedType()` whose `GetName()` is the component. -/
def findNested : List DescriptorProto → String → Option DescriptorProto
  | [], _ => none
  | nested :: rest, component =>
    if nested.getName = component then some nested else findNested rest component

/-- The loop labelled `componentLoop`: `desc` moves to the nested type found for each
component; a component that is not found returns `nil, false`. -/
def componentLoop : List String → DescriptorProto → Option DescriptorProto × Bool
  | [], desc => (some desc, true)
  | component :: rest, desc =>
    match findNested desc.nestedType component with
    | some nested => componentLoop rest nested
    | none => (none, false)

/-- Go `relativelyLookupNestedType`; the log line is not modelled. -/
def relativelyLookupNestedType (desc : DescriptorProto) (name : String) :
    Option DescriptorProto × Bool :=
  componentLoop (stringsSplit name) desc

/-! ### `registerType` -/

/-- Go `v, ok := m[key]` on a map with string keys. -/
def mapGet {α : Type} : List (String × α) → String → Option α
  | [], _ => none
  | (k, w) :: rest, key => if k = key then some w else mapGet rest key

/-- Go `m[key] = v` on a map with string keys. -/
def mapSet {α : Type} : List (String × α) → String → α → List (String × α)
  | [], key, v => [(key, v)]
  | (k, w) :: rest, key, v =>
    if k = key then (k, v) :: rest else (k, w) :: mapSet rest key v

/-- Modelled from the spec: the struct `ProtoPackage` is declared outside `types.go`;
its four fields are the ones the literals of `types.go` set (the PackageNode of the
spec: qualified name, parent link, children by segment, types by local name).  A
`*ProtoPackage` is the address of the node in the registry. -/
structure ProtoPackage where
  name : String
  parent : Option Nat
  children : List (String × Nat)
  types : List (String × DescriptorProto)

/-- The package nodes allocated so far, by address. -/
abbrev Registry := List ProtoPackage

/-- Go `globalPkg`: the root node is the first one allocated. -/
def globalPkg : Nat := 0

/-- The registry at start-up: the literal of `globalPkg` alone. -/
def initialRegistry : Registry :=
  [{ name := "", parent := none, children := [], types := [] }]

/-- The branch `if !ok` of `registerType`: a new node is allocated after the others
and stored in `pkg.children[node]`. -/
def addChild (reg : Registry) (pkg : Nat) (p : ProtoPackage) (node : String) : Registry :=
  (reg ++ [({ name := p.name ++ "." ++ node, parent := some pkg, children := [], types := [] } :
    ProtoPackage)]).set pkg { p with children := mapSet p.children node reg.length }

/-- The loop of `registerType` over the segments of the package name, from node `pkg`;
it returns the registry and the node reached.  A pointer that is not a node of the
registry stands for a nil pointer: following it crashes. -/
def registerLoop : List String → Registry → Nat → Outcome (Registry × Nat)
  | [], reg, pkg => .returned (reg, pkg)
  | node :: rest, reg, pkg =>
    if pkg = globalPkg ∧ node = "" then registerLoop rest reg pkg
    else
      match reg[pkg]? with
      | none => .crashed
      | some p =>
        match mapGet p.children node with
        | some child => registerLoop rest reg child
        | none => registerLoop rest (addChild reg pkg p node) reg.length

/-- The last statement of `registerType`: `pkg.types[msg.GetName()] = msg`. -/
def storeType (reg : Registry) (pkg : Nat) (msg : DescriptorProto) : Outcome Registry :=
  match reg[pkg]? with
  | none => .crashed
  | some p => .returned (reg.set pkg { p with types := mapSet p.types msg.getName msg })

/-- Go `registerType`, on the registry that `globalPkg` roots. -/
def registerType (reg : Registry) (pkgName : Option String) (msg : DescriptorProto) :
    Outcome Registry :=
  match pkgName with
  | none => storeType reg globalPkg msg
  | some n =>
    match registerLoop (stringsSplit n) reg globalPkg with
    | .returned (reg1, pkg) => storeType reg1 pkg msg
    | .crashed => .crashed
    | .outOfFuel => .outOfFuel

/-! ## Predicates of the statements -/

/-- The validation rules of the field set the message-level required flag to true. -/
def markedRequired (desc : FieldDescriptorProto) : Bool :=
  match desc.options with
  | some (RulesExtension.rules r) =>
    match r.message with
    | some m => m.required == some true
    | none => false
  | _ => false

/-- The field is of kind message or group. -/
def isMessageKind (desc : FieldDescriptorProto) : Prop :=
  desc.type = TYPE_GROUP ∨ desc.type = TYPE_MESSAGE

/-- The field is of one of the five 64-bit integer kinds. -/
def is64BitKind (desc : FieldDescriptorProto) : Prop :=
  desc.type = TYPE_INT64 ∨ desc.type = TYPE_UINT64 ∨ desc.type = TYPE_FIXED64
    ∨ desc.type = TYPE_SFIXED64 ∨ desc.type = TYPE_SINT64

/-- Reading the validation rules of the field gives no error. -/
def optionsParse (desc : FieldDescriptorProto) : Prop :=
  ∀ err, desc.options ≠ some (RulesExtension.failed err)

/-- Message `A` has a message-typed field whose declared type resolves to `B`. -/
def refersTo (c : Converter) (A B : DescriptorProto) : Prop :=
  ∃ f ∈ A.field, isMessageKind f ∧ c.lookupType f.typeName = some B

/-- The node was produced by a successful `convertField` or `convertMessageType`. -/
def Produced (c : Converter) (t : SchemaType) : Prop :=
  (∃ fuel desc msg req, convertField c fuel desc msg = .returned (some t, req, none)) ∨
  (∃ fuel msg, convertMessageType c fuel msg = .returned (t, none))

mutual
/-- The predicate `p` holds at the node and at every node below it: the items, the
properties, the `oneOf` alternatives, the `not` schema and a schema marshalled into
`additionalProperties`. -/
def SchemaType.allNodes (p : SchemaType → Bool) : SchemaType → Bool
  | SchemaType.mk version type items properties required additionalProperties oneOf not_ enum
      minLength maxLength pattern format description =>
    p (SchemaType.mk version type items properties required additionalProperties oneOf not_ enum
      minLength maxLength pattern format description)
    && allNodesOption p items && allNodesProperties p properties && allNodesList p oneOf
    && allNodesOption p not_ && allNodesRaw p additionalProperties
/-- The check `allNodes` on an optional node. -/
def allNodesOption (p : SchemaType → Bool) : Option SchemaType → Bool
  | none => true
  | some t => SchemaType.allNodes p t
/-- The check `allNodes` on the values of a properties map. -/
def allNodesProperties (p : SchemaType → Bool) : List (String × SchemaType) → Bool
  | [] => true
  | (_, t) :: rest => SchemaType.allNodes p t && allNodesProperties p rest
/-- The check `allNodes` on a list of alternatives. -/
def allNodesList (p : SchemaType → Bool) : List SchemaType → Bool
  | [] => true
  | t :: rest => SchemaType.allNodes p t && allNodesList p rest
/-- The check `allNodes` on a raw message that is a marshalled node. -/
def allNodesRaw (p : SchemaType → Bool) : RawMessage SchemaType → Bool
  | RawMessage.empty => true
  | RawMessage.literal _ => true
  | RawMessage.marshal t => SchemaType.allNodes p t
end

/-- The primitive type of the node is unset whenever its `oneOf` list is non-empty. -/
def typeUnsetWhenOneOf (t : SchemaType) : Bool := t.oneOf.isEmpty || t.type == ""

/-- No member of the `oneOf` list of the node carries a `oneOf` list itself. -/
def oneOfNotNested (t : SchemaType) : Bool := t.oneOf.all (fun a => a.oneOf.isEmpty)

/-- The number of `oneOf` alternatives of the node that have type `null`. -/
def nullAlternatives (t : SchemaType) : Nat := t.oneOf.countP (fun a => a.type == "null")


/-- The string constraint bundle of the field: its string rules, or the zero values
the getters return when it has none. -/
def stringConstraints (desc : FieldDescriptorProto) : StringRules :=
  match desc.options with
  | some (RulesExtension.rules r) => r.string_.getD {}
  | _ => {}

/-- The closed set of scalar and enum kinds that the switch handles besides message
and group. -/
def scalarKinds : List FieldType :=
  [TYPE_DOUBLE, TYPE_FLOAT, TYPE_INT32, TYPE_UINT32, TYPE_FIXED32, TYPE_SFIXED32, TYPE_SINT32,
   TYPE_INT64, TYPE_UINT64, TYPE_FIXED64, TYPE_SFIXED64, TYPE_SINT64, TYPE_STRING, TYPE_BYTES,
   TYPE_ENUM, TYPE_BOOL]

/-- The message and each of its enums carry a name. -/
def namesPresent (msg : DescriptorProto) : Prop :=
  msg.name ≠ none ∧ ∀ e ∈ msg.enumType, e.name ≠ none

/-- The description as the specification words it: the detached leading comments, the
leading comment and the trailing comment, in this order, each trimmed, the empty ones
dropped, joined by a blank line. -/
def formatDescriptionSpec (sl : SourceCodeInfo_Location) : String :=
  String.intercalate "\n\n"
    (((sl.leadingDetachedComments ++ [sl.leadingComments, sl.trailingComments]).map trimSpace).filter
      (fun s => s ≠ ""))

/-- The comment is empty or holds whitespace only. -/
def whitespaceOnly (s : String) : Bool := s.data.all isSpace

/-- The entry `n` is the first one of `l`, in declaration order, named `component`. -/
def FirstNamed (l : List DescriptorProto) (component : String) (n : DescriptorProto) : Prop :=
  ∃ before after, l = before ++ n :: after ∧ n.getName = component ∧
    ∀ b ∈ before, b.getName ≠ component

/-- The components can be followed one after another through nested-type lists from
`d` to `e`, taking at each step the first nested type named as the component. -/
inductive Walk : DescriptorProto → List String → DescriptorProto → Prop
  | done (d : DescriptorProto) : Walk d [] d
  | step (d n e : DescriptorProto) (component : String) (rest : List String) :
      FirstNamed d.nestedType component n → Walk n rest e → Walk d (component :: rest) e

/-- The registries the program can be in: the initial one and what `registerType`
returns on such a registry. -/
inductive Reachable : Registry → Prop
  | initial : Reachable initialRegistry
  | register (reg : Registry) (pkgName : Option String) (msg : DescriptorProto)
      (reg1 : Registry) :
      Reachable reg → registerType reg pkgName msg = .returned reg1 → Reachable reg1

/-- Following segments through the children maps from node `a`. -/
def followSegments (reg : Registry) : List String → Nat → Option Nat
  | [], a => some a
  | seg :: rest, a =>
    match reg[a]? with
    | none => none
    | some p =>
      match mapGet p.children seg with
      | none => none
      | some child => followSegments reg rest child

/-- The dot-separated segments of a package name without the empty leading ones; an
absent name has none. -/
def packageSegments (pkgName : Option String) : List String :=
  match pkgName with
  | none => []
  | some n => (stringsSplit n).dropWhile (fun seg => seg = "")

/-- The invariant of the registry: the root has an empty name and no parent; no key
of a children map contains a dot; a child is named after its parent and its key, and
its parent link is the node holding it. -/
def RegistryInvariant (reg : Registry) : Prop :=
  (∃ root : ProtoPackage, reg[globalPkg]? = some root ∧ root.name = "" ∧ root.parent = none) ∧
  (∀ (a : Nat) (p : ProtoPackage) (key : String) (child : Nat),
    reg[a]? = some p → (key, child) ∈ p.children → '.' ∉ key.data) ∧
  (∀ (a : Nat) (p : ProtoPackage) (key : String) (child : Nat),
    reg[a]? = some p → (key, child) ∈ p.children →
    ∃ q : ProtoPackage, reg[child]? = some q ∧ q.name = p.name ++ "." ++ key ∧ q.parent = some a)

/-- Every edge of the children maps of `reg` is an edge of `reg2`. -/
def Extends (reg reg2 : Registry) : Prop :=
  ∀ (a : Nat) (p : ProtoPackage) (key : String) (c : Nat),
    reg[a]? = some p → mapGet p.children key = some c →
    ∃ p2 : ProtoPackage, reg2[a]? = some p2 ∧ mapGet p2.children key = some c

/-- The alternatives of the base type of a scalar or enum kind when null values are
allowed, in the order the switch lists them. -/
def nullableAlternatives (c : Converter) (ty : FieldType) : List SchemaType :=
  if ty = TYPE_DOUBLE ∨ ty = TYPE_FLOAT then
    [SchemaType.ofType "null", SchemaType.ofType "number"]
  else if ty = TYPE_INT32 ∨ ty = TYPE_UINT32 ∨ ty = TYPE_FIXED32 ∨ ty = TYPE_SFIXED32
      ∨ ty = TYPE_SINT32 then
    [SchemaType.ofType "null", SchemaType.ofType "integer"]
  else if ty = TYPE_INT64 ∨ ty = TYPE_UINT64 ∨ ty = TYPE_FIXED64 ∨ ty = TYPE_SFIXED64
      ∨ ty = TYPE_SINT64 then
    if c.DisallowBigIntsAsStrings then [SchemaType.ofType "integer", SchemaType.ofType "null"]
    else [SchemaType.ofType "integer", SchemaType.ofType "string", SchemaType.ofType "null"]
  else if ty = TYPE_STRING ∨ ty = TYPE_BYTES then
    [SchemaType.ofType "null", SchemaType.ofType "string"]
  else if ty = TYPE_ENUM then
    [SchemaType.ofType "string", SchemaType.ofType "integer", SchemaType.ofType "null"]
  else if ty = TYPE_BOOL then
    [SchemaType.ofType "null", SchemaType.ofType "boolean"]
  else []

/-! ## Shapes used in the proofs -/

/-- What the string rules leave alone and what they may set. -/
structure StringRulesFrame (js out : SchemaType) : Prop where
  items : out.items = js.items
  properties : out.properties = js.properties
  additionalProperties : out.additionalProperties = js.additionalProperties
  required : out.required = js.required
  typeOneOf : (out.type = js.type ∧ out.oneOf = js.oneOf) ∨
    (out.type = "" ∧ ∀ a ∈ out.oneOf, ∃ f, a = SchemaType.ofTypeFormat "string" f)
  not_ : out.not_ = js.not_ ∨ ∃ vs, out.not_ = some { SchemaType.zero with enum := vs }

/-- What every node that leaves the switch looks like. -/
structure BaseNode (c : Converter) (js0 : SchemaType) : Prop where
  items : js0.items = none
  properties : js0.properties = []
  not_ : js0.not_ = none ∨ ∃ vs, js0.not_ = some { SchemaType.zero with enum := vs }
  additionalProperties : ∀ t, js0.additionalProperties ≠ RawMessage.marshal t
  alternatives : ∀ a ∈ js0.oneOf, ∃ s f, a = SchemaType.ofTypeFormat s f
  typeUnset : js0.oneOf ≠ [] → js0.type = ""
  nullable : c.AllowNullValues = true →
    (js0.type = "object" ∧ js0.oneOf = []) ∨ (js0.type = "" ∧ nullAlternatives js0 = 1)

/-- The local shape of every node the converter builds: no alternatives, or an unset
type and alternatives without alternatives of their own. -/
def LocallyFine (x : SchemaType) : Prop :=
  x.oneOf = [] ∨ (x.type = "" ∧ ∀ a ∈ x.oneOf, a.oneOf = [])

/-! ## Inputs of the examples -/

/-- The default configuration: all flags off, no comments, an empty registry. -/
def defaultConverter : Converter := {}

/-- A field whose validation rules set the message-level required flag to `b`. -/
def requiredRules (b : Bool) : Option RulesExtension :=
  some (RulesExtension.rules { message := some { required := some b } })

/-- A message with five scalar fields; `id` and `score` are marked required. -/
def accountMessage : DescriptorProto :=
  { name := some "Account",
    field := [
      { name := "id", jsonName := "id", type := TYPE_STRING, options := requiredRules true },
      { name := "age", jsonName := "age", type := TYPE_INT32 },
      { name := "active", jsonName := "active", type := TYPE_BOOL, options := requiredRules false },
      { name := "nick", jsonName := "nick", type := TYPE_STRING,
        options := some (RulesExtension.rules { string_ := some { minLen := 2 } }) },
      { name := "score", jsonName := "score", type := TYPE_DOUBLE, options := requiredRules true }],
    nestedType := [] }

/-- A message-typed field whose type name is not in the registry. -/
def unresolvedField : FieldDescriptorProto :=
  { name := "owner", jsonName := "owner", type := TYPE_MESSAGE, typeName := ".pkg.Missing" }

/-- A message whose only field is `unresolvedField`. -/
def unresolvedMessage : DescriptorProto :=
  { name := some "Holder", field := [unresolvedField], nestedType := [] }

/-- A message with one field of its own type, `message Tree { Tree child = 1; }`. -/
def treeMessage : DescriptorProto :=
  { name := some "Tree",
    field := [{ name := "child", jsonName := "child", type := TYPE_MESSAGE, typeName := ".pkg.Tree" }],
    nestedType := [] }

/-- A converter whose registry resolves `.pkg.Tree` to `treeMessage`. -/
def treeConverter : Converter :=
  { lookupType := fun name => if name = ".pkg.Tree" then some treeMessage else none }

/-- The message `message Item { string sku = 1; int64 qty = 2; }` -/
def itemMessage : DescriptorProto :=
  { name := some "Item",
    field := [
      { name := "sku", jsonName := "sku", type := TYPE_STRING },
      { name := "qty", jsonName := "qty", type := TYPE_INT64 }],
    nestedType := [] }

/-- The entry message protoc synthesises for `map<string, int32> counts`. -/
def countsEntry : DescriptorProto :=
  { name := some "CountsEntry",
    field := [
      { name := "key", jsonName := "key", type := TYPE_STRING },
      { name := "value", jsonName := "value", type := TYPE_INT32 }],
    nestedType := [],
    options := some { mapEntry := true } }

/-- The field `Item item = 1 [(validate.rules).message.required = true];`. -/
def itemField : FieldDescriptorProto :=
  { name := "item", jsonName := "item", type := TYPE_MESSAGE, label := LABEL_OPTIONAL,
    typeName := ".shop.Item", options := requiredRules true }

/-- The field `repeated string tags = 2;`. -/
def tagsField : FieldDescriptorProto :=
  { name := "tags", jsonName := "tags", type := TYPE_STRING, label := LABEL_REPEATED }

/-- The field `map<string, int32> counts = 3;`. -/
def countsField : FieldDescriptorProto :=
  { name := "counts", jsonName := "counts", type := TYPE_MESSAGE, label := LABEL_REPEATED,
    typeName := ".shop.Order.CountsEntry" }

/-- The field `repeated Item extras = 4;`. -/
def extrasField : FieldDescriptorProto :=
  { name := "extras", jsonName := "extras", type := TYPE_MESSAGE, label := LABEL_REPEATED,
    typeName := ".shop.Item" }

/-- The message `message Order` with the four fields above. -/
def orderMessage : DescriptorProto :=
  { name := some "Order",
    field := [itemField, tagsField, countsField, extrasField],
    nestedType := [countsEntry] }

/-- The registry of package `shop`. -/
def shopLookup (name : String) : Option DescriptorProto :=
  if name = ".shop.Item" then some itemMessage
  else if name = ".shop.Order.CountsEntry" then some countsEntry
  else if name = ".shop.Order" then some orderMessage
  else none

/-- A converter over the registry of package `shop` with the given flags. -/
def shopConverter (allowNull disallowAdditional : Bool) : Converter :=
  { AllowNullValues := allowNull, DisallowAdditionalProperties := disallowAdditional,
    lookupType := shopLookup }

/-- The field `int64 total = 1;` with no options. -/
def totalField : FieldDescriptorProto :=
  { name := "total", jsonName := "total", type := TYPE_INT64 }

/-- The field `int64 total = 1;` whose options hold a rules extension that
`proto.GetExtension` cannot decode. -/
def brokenOptionsField : FieldDescriptorProto :=
  { name := "total", jsonName := "total", type := TYPE_INT64,
    options := some (RulesExtension.failed (Error.extension "proto: bad wiretype for extension")) }

/-- A message whose only field is `brokenOptionsField`. -/
def invoiceMessage : DescriptorProto :=
  { name := some "Invoice", field := [brokenOptionsField], nestedType := [] }

/-- The field `repeated string colors = 1 [(validate.rules).string = {in: ["RED", "GREEN"]}];`. -/
def colorsField : FieldDescriptorProto :=
  { name := "colors", jsonName := "colors", type := TYPE_STRING, label := LABEL_REPEATED,
    options := some (RulesExtension.rules { string_ := some { in_ := some ["RED", "GREEN"] } }) }

/-- A message whose only field is `colorsField`. -/
def paletteMessage : DescriptorProto :=
  { name := some "Palette", field := [colorsField], nestedType := [] }

/-- The proto2 field `required Item item = 1 [(validate.rules).message.required = true];`. -/
def requiredItemField : FieldDescriptorProto :=
  { name := "item", jsonName := "item", type := TYPE_MESSAGE, label := LABEL_REQUIRED,
    typeName := ".shop.Item", options := requiredRules true }

/-- The message `message Cart` with the field `requiredItemField`. -/
def cartMessage : DescriptorProto :=
  { name := some "Cart", field := [requiredItemField], nestedType := [] }

/-- The message `message Address { string street = 1 [(validate.rules).message.required = true];
string city = 2; }`. -/
def addressMessage : DescriptorProto :=
  { name := some "Address",
    field := [
      { name := "street", jsonName := "street", type := TYPE_STRING, options := requiredRules true },
      { name := "city", jsonName := "city", type := TYPE_STRING }],
    nestedType := [] }

/-- The field `Address home = 1;`. -/
def homeField : FieldDescriptorProto :=
  { name := "home", jsonName := "home", type := TYPE_MESSAGE, label := LABEL_OPTIONAL,
    typeName := ".geo.Address" }

/-- The message `message Person { Address home = 1; }`. -/
def personMessage : DescriptorProto :=
  { name := some "Person", field := [homeField], nestedType := [] }

/-- A converter whose registry resolves `.geo.Address` to `addressMessage`. -/
def geoConverter (allowNull : Bool) : Converter :=
  { AllowNullValues := allowNull,
    lookupType := fun name => if name = ".geo.Address" then some addressMessage else none }

/-- The field `string code = 1 [(validate.rules).string = {pattern: "[a-z]+", prefix: "ab"}];`. -/
def codeField : FieldDescriptorProto :=
  { name := "code", jsonName := "code", type := TYPE_STRING,
    options := some (RulesExtension.rules
      { string_ := some { pattern := "[a-z]+", prefix_ := "ab" } }) }

/-- The field `string pin = 2 [(validate.rules).string = {len: 4, min_len: 1, max_len: 9}];`. -/
def pinField : FieldDescriptorProto :=
  { name := "pin", jsonName := "pin", type := TYPE_STRING,
    options := some (RulesExtension.rules
      { string_ := some { len := 4, minLen := 1, maxLen := 9 } }) }

/-- The field `string blob = 3 [(validate.rules).string.len = 9223372036854775808];`,
an exact length of `2 ^ 63`. -/
def hugeLenField : FieldDescriptorProto :=
  { name := "blob", jsonName := "blob", type := TYPE_STRING,
    options := some (RulesExtension.rules
      { string_ := some { len := 9223372036854775808 } }) }

/-- A message with the three string fields above. -/
def loginMessage : DescriptorProto :=
  { name := some "Login", field := [codeField, pinField, hugeLenField], nestedType := [] }

/-- The default configuration with `AllowNullValues` enabled. -/
def nullConverter : Converter := { AllowNullValues := true }

/-- The field `repeated string aliases = 4 [(validate.rules).string.min_len = 3];`. -/
def aliasesField : FieldDescriptorProto :=
  { name := "aliases", jsonName := "aliases", type := TYPE_STRING, label := LABEL_REPEATED,
    options := some (RulesExtension.rules { string_ := some { minLen := 3 } }) }

/-- The field `repeated double prices = 5;`. -/
def pricesField : FieldDescriptorProto :=
  { name := "prices", jsonName := "prices", type := TYPE_DOUBLE, label := LABEL_REPEATED }

/-- The field `Status status = 1;` of an enum type. -/
def statusField : FieldDescriptorProto :=
  { name := "status", jsonName := "status", type := TYPE_ENUM, typeName := ".jobs.Job.Status" }

/-- The enum `enum Status { ACTIVE = 0; }`. -/
def statusEnum : EnumDescriptorProto :=
  { name := some "Status", value := [{ name := some "ACTIVE", number := some 0 }] }

/-- The message `message Job { enum Status { ACTIVE = 0; } Status status = 1; }`. -/
def jobMessage : DescriptorProto :=
  { name := some "Job", field := [statusField], nestedType := [], enumType := [statusEnum] }

/-- The message `jobMessage` with the `Name` pointer nil. -/
def namelessJobMessage : DescriptorProto :=
  { name := none, field := [statusField], nestedType := [], enumType := [statusEnum] }

/-- A field of the raw kind 42, outside the enum `FieldDescriptorProto_Type`. -/
def unknownKindField : FieldDescriptorProto :=
  { name := "x", jsonName := "x", type := 42 }

/-- A leaf message `Line`. -/
def lineMessage : DescriptorProto :=
  { name := some "Line", field := [], nestedType := [], enumType := [], options := none }

/-- A second message named `Line`, declared after the first, with a nested `Line`. -/
def shadowLineMessage : DescriptorProto :=
  { name := some "Line", field := [], nestedType := [lineMessage], enumType := [], options := none }

/-- A message `Body` holding `Line`. -/
def bodyMessage : DescriptorProto :=
  { name := some "Body", field := [], nestedType := [lineMessage, shadowLineMessage],
    enumType := [], options := none }

/-- A message `Letter` holding `Body`. -/
def letterMessage : DescriptorProto :=
  { name := some "Letter", field := [], nestedType := [bodyMessage], enumType := [], options := none }

/-- The registry after `Letter` is registered in package `mail.v1`. -/
def mailRegistry : Registry :=
  [{ name := "", parent := none, children := [("mail", 1)], types := [] },
   { name := ".mail", parent := some 0, children := [("v1", 2)], types := [] },
   { name := ".mail.v1", parent := some 1, children := [], types := [("Letter", letterMessage)] }]

/-! ## Lemmas on the field loop -/

theorem convertFields_required {convert : FieldDescriptorProto → Outcome FieldResult}
    (q : FieldDescriptorProto → Bool)
    (hq : ∀ f r req, convert f = .returned (some r, req, none) → req = q f) :
    ∀ (fs : List FieldDescriptorProto) (js t : SchemaType),
      convertFields convert fs js = .returned (t, none) →
      t.required = js.required ++ (fs.filter q).map (fun f => f.jsonName) := by
  intro fs
  induction fs with
  | nil =>
    intro js t h
    simp only [convertFields, Outcome.returned.injEq, Prod.mk.injEq, and_true] at h
    simp [h]
  | cons f rest ih =>
    intro js t h
    cases hc : convert f with
    | crashed => simp [convertFields, hc] at h
    | outOfFuel => simp [convertFields, hc] at h
    | returned a =>
      obtain ⟨n, req, e⟩ := a
      cases n with
      | none => simp [convertFields, hc] at h
      | some r =>
        cases e with
        | some err => simp [convertFields, hc] at h
        | none =>
          have hreq := hq f r req hc
          simp only [convertFields, hc] at h
          have := ih _ _ h
          rw [this]
          cases hqf : q f <;> simp [hqf, hreq]


theorem requiredFlag_eq_markedRequired {desc : FieldDescriptorProto} {vr : Option FieldRules}
    (h : getValidationRules desc = .ok vr) : requiredFlag vr = markedRequired desc := by
  unfold getValidationRules at h
  unfold markedRequired requiredFlag
  cases ho : desc.options with
  | none => rw [ho] at h; cases h; rfl
  | some ext =>
    rw [ho] at h
    cases ext with
    | missing => cases h; rfl
    | failed err => cases h
    | otherValue => cases h; rfl
    | rules r =>
      cases h
      cases hm : r.message with
      | none => simp [hm]
      | some m =>
        cases hr : m.required with
        | none => simp [hm, hr]
        | some b => cases b <;> simp [hm, hr]

/-- Inversion of a successful object branch of `convertField`. -/
theorem convertObject_ok {c : Converter} {cm : DescriptorProto → Outcome MessageResult}
    {desc : FieldDescriptorProto} {msg : DescriptorProto} {required : Bool} {js t : SchemaType}
    {req : Bool} {e : Option Error}
    (h : convertObject c cm desc msg required js = .returned (some t, req, e)) :
    e = none ∧ req = required ∧ ∃ recordType recursed,
      c.lookupType desc.typeName = some recordType ∧ cm recordType = .returned (recursed, none) ∧
      ((recordType.getMapEntry = true ∧ msg.name ≠ none ∧
          ∃ value, getProperty recursed.properties "value" = some value ∧
            t = wrapNull c { js with additionalProperties := RawMessage.marshal value }) ∨
       (recordType.getMapEntry = false ∧ desc.label = LABEL_REPEATED ∧
          t = wrapNull c { { js with items := some recursed } with type := "array" }) ∨
       (recordType.getMapEntry = false ∧ desc.label ≠ LABEL_REPEATED ∧
          t = wrapNull c { js with properties := recursed.properties })) := by
  unfold convertObject at h
  cases hl : c.lookupType desc.typeName with
  | none => simp [hl] at h
  | some recordType =>
    simp only [hl] at h
    cases hc : cm recordType with
    | crashed => simp [hc] at h
    | outOfFuel => simp [hc] at h
    | returned x =>
      obtain ⟨recursed, err⟩ := x
      cases err with
      | some err => simp [hc] at h
      | none =>
        simp only [hc] at h
        cases hme : recordType.getMapEntry with
        | true =>
          simp only [hme, if_true] at h
          cases hn : msg.name with
          | none => simp [hn] at h
          | some nm =>
            simp only [hn] at h
            cases hg : getProperty recursed.properties "value" with
            | none => simp [hg] at h
            | some value =>
              simp only [hg, Outcome.returned.injEq, Prod.mk.injEq, Option.some.injEq] at h
              obtain ⟨ht, hr, he⟩ := h
              exact ⟨he.symm, hr.symm, recordType, recursed, rfl, hc,
                Or.inl ⟨hme, by simp [hn], value, hg, ht.symm⟩⟩
        | false =>
          simp only [hme, Bool.false_eq_true, if_false] at h
          by_cases hlab : desc.label = LABEL_REPEATED
          · rw [if_pos hlab] at h
            simp only [Outcome.returned.injEq, Prod.mk.injEq, Option.some.injEq] at h
            obtain ⟨ht, hr, he⟩ := h
            exact ⟨he.symm, hr.symm, recordType, recursed, rfl, hc,
              Or.inr (Or.inl ⟨hme, hlab, ht.symm⟩)⟩
          · rw [if_neg hlab] at h
            simp only [Outcome.returned.injEq, Prod.mk.injEq, Option.some.injEq] at h
            obtain ⟨ht, hr, he⟩ := h
            exact ⟨he.symm, hr.symm, recordType, recursed, rfl, hc,
              Or.inr (Or.inr ⟨hme, hlab, ht.symm⟩)⟩

/-- Inversion of a successful `convertField`. -/
theorem convertFieldBody_ok {c : Converter} {cm : DescriptorProto → Outcome MessageResult}
    {desc : FieldDescriptorProto} {msg : DescriptorProto} {t : SchemaType} {req : Bool} {e : Option Error}
    (h : convertFieldBody c cm desc msg = .returned (some t, req, e)) :
    e = none ∧ ∃ vr js0, getValidationRules desc = .ok vr ∧ req = requiredFlag vr ∧
      switchType c desc msg vr (fieldNode c desc) = .returned (.ok js0) ∧
      ((desc.label = LABEL_REPEATED ∧ js0.type ≠ "object" ∧ t = repeatedPrimitive c js0) ∨
       (js0.type = "object" ∧ convertObject c cm desc msg req js0 = .returned (some t, req, none)) ∨
       (desc.label ≠ LABEL_REPEATED ∧ js0.type ≠ "object" ∧ t = js0)) := by
  unfold convertFieldBody at h
  cases hv : getValidationRules desc with
  | error err => simp [hv] at h
  | ok vr =>
    simp only [hv] at h
    cases hs : switchType c desc msg vr (fieldNode c desc) with
    | crashed => simp [hs] at h
    | outOfFuel => simp [hs] at h
    | returned x =>
      cases x with
      | error err => simp [hs] at h
      | ok js0 =>
        simp only [hs] at h
        by_cases h1 : desc.label = LABEL_REPEATED ∧ js0.type ≠ "object"
        · rw [if_pos h1] at h
          simp only [Outcome.returned.injEq, Prod.mk.injEq, Option.some.injEq] at h
          obtain ⟨ht, hr, he⟩ := h
          exact ⟨he.symm, vr, js0, rfl, hr.symm, hs, Or.inl ⟨h1.1, h1.2, ht.symm⟩⟩
        · rw [if_neg h1] at h
          by_cases h2 : js0.type = "object"
          · rw [if_pos h2] at h
            obtain ⟨he, hr, _⟩ := convertObject_ok h
            subst he; subst hr
            exact ⟨rfl, vr, js0, rfl, rfl, hs, Or.inr (Or.inl ⟨h2, h⟩)⟩
          · rw [if_neg h2] at h
            simp only [Outcome.returned.injEq, Prod.mk.injEq, Option.some.injEq] at h
            obtain ⟨ht, hr, he⟩ := h
            refine ⟨he.symm, vr, js0, rfl, hr.symm, hs, Or.inr (Or.inr ⟨?_, h2, ht.symm⟩)⟩
            intro hl; exact h1 ⟨hl, h2⟩

theorem convertFieldBody_required {c : Converter} {cm : DescriptorProto → Outcome MessageResult}
    {desc : FieldDescriptorProto} {msg : DescriptorProto} {t : SchemaType} {req : Bool}
    (h : convertFieldBody c cm desc msg = .returned (some t, req, none)) :
    req = markedRequired desc := by
  obtain ⟨_, vr, js0, hv, hr, _⟩ := convertFieldBody_ok h
  rw [hr, requiredFlag_eq_markedRequired hv]

/-- A node that `convertField` returns comes with a nil error. -/
theorem convertFieldBody_node_no_error {c : Converter} {cm : DescriptorProto → Outcome MessageResult}
    {desc : FieldDescriptorProto} {msg : DescriptorProto} {t : SchemaType} {req : Bool} {err : Error} :
    convertFieldBody c cm desc msg ≠ .returned (some t, req, some err) := by
  intro h
  have := (convertFieldBody_ok h).1
  cases this

/-- The field loop never returns an error when the field converter never returns a
node together with an error. -/
theorem convertFields_no_error {convert : FieldDescriptorProto → Outcome FieldResult}
    (hc : ∀ f t req err, convert f ≠ .returned (some t, req, some err)) :
    ∀ (fs : List FieldDescriptorProto) (js t : SchemaType) (e : Error),
      convertFields convert fs js ≠ .returned (t, some e) := by
  intro fs
  induction fs with
  | nil => intro js t e h; simp [convertFields] at h
  | cons f rest ih =>
    intro js t e h
    cases hf : convert f with
    | crashed => simp [convertFields, hf] at h
    | outOfFuel => simp [convertFields, hf] at h
    | returned a =>
      obtain ⟨n, req, e'⟩ := a
      cases n with
      | none => simp [convertFields, hf] at h
      | some r =>
        cases e' with
        | some err => exact hc f r req err hf
        | none =>
          simp only [convertFields, hf] at h
          exact ih _ _ _ h

/-- The error return of `convertMessageType` (line 390) is never reached: a failing
field leaves a nil node, which line 387 dereferences first. -/
theorem convertMessageType_no_error (c : Converter) (fuel : Nat) (msg : DescriptorProto)
    (t : SchemaType) (e : Error) : convertMessageType c fuel msg ≠ .returned (t, some e) := by
  cases fuel with
  | zero => simp [convertMessageType]
  | succ n =>
    simp only [convertMessageType]
    exact convertFields_no_error (fun f t req err => convertFieldBody_node_no_error) _ _ _ _

/-- The required list of a converted message. -/
theorem convertMessageType_required {c : Converter} {fuel : Nat} {msg : DescriptorProto}
    {t : SchemaType} (h : convertMessageType c fuel msg = .returned (t, none)) :
    t.required = (msg.field.filter markedRequired).map (fun f => f.jsonName) := by
  cases fuel with
  | zero => simp [convertMessageType] at h
  | succ n =>
    simp only [convertMessageType] at h
    have := convertFields_required markedRequired
      (fun f r req hf => convertFieldBody_required hf) _ _ _ h
    rw [this]
    have h0 : (messageNode c msg).required = [] := by
      unfold messageNode
      cases c.sourceInfoGetMessage msg <;> cases c.AllowNullValues <;>
        cases c.DisallowAdditionalProperties <;> rfl
    rw [h0, List.nil_append]

/-- C1: when `convertMessageType` succeeds, the required list of the result is the
list of the JSON names of the fields whose validation rules set the message-level
required flag to true, in declaration order; every listed name belongs to a field
that carries rules with message rules whose required flag is true. -/
theorem C1_required_is_marked_fields (c : Converter) (fuel : Nat) (msg : DescriptorProto)
    (t : SchemaType) (h : convertMessageType c fuel msg = .returned (t, none)) :
    t.required = (msg.field.filter markedRequired).map (fun f => f.jsonName) ∧
    ∀ n ∈ t.required, ∃ f ∈ msg.field, f.jsonName = n ∧
      ∃ r m, f.options = some (RulesExtension.rules r) ∧ r.message = some m ∧
        m.required = some true := by
  have hreq := convertMessageType_required h
  refine ⟨hreq, ?_⟩
  intro n hn
  rw [hreq, List.mem_map] at hn
  obtain ⟨f, hf, hfn⟩ := hn
  rw [List.mem_filter] at hf
  refine ⟨f, hf.1, hfn, ?_⟩
  have hm := hf.2
  unfold markedRequired at hm
  cases ho : f.options with
  | none => simp [ho] at hm
  | some ext =>
    cases ext with
    | missing => simp [ho] at hm
    | failed err => simp [ho] at hm
    | otherValue => simp [ho] at hm
    | rules r =>
      cases hmsg : r.message with
      | none => simp [ho, hmsg] at hm
      | some m =>
        simp only [ho, hmsg, beq_iff_eq] at hm
        exact ⟨r, m, rfl, hmsg, hm⟩

/-- C1 at `accountMessage`: of its five fields only `id` and `score` are listed. -/
theorem C1_required_is_marked_fields_witness :
    ∃ t, convertMessageType defaultConverter 1 accountMessage = .returned (t, none) ∧
      t.required = ["id", "score"] :=
  ⟨_, rfl, (C1_required_is_marked_fields defaultConverter 1 accountMessage _ rfl).1.trans rfl⟩

/-- C2 at `unresolvedMessage`: `convertField` fails on the field with the
unresolved-type error and a nil node, and `convertMessageType`, whatever its budget,
crashes on the nil node instead of returning that error. -/
theorem C2_failing_field_crashes :
    convertField defaultConverter 0 unresolvedField unresolvedMessage
        = .returned (none, false, some (Error.errorf "no such message type named .pkg.Missing")) ∧
    (∀ fuel, convertMessageType defaultConverter (fuel + 1) unresolvedMessage = .crashed) ∧
    ¬ ∃ fuel t e, convertMessageType defaultConverter fuel unresolvedMessage = .returned (t, some e) :=
  ⟨rfl, fun _ => rfl, fun ⟨fuel, t, e, h⟩ => convertMessageType_no_error _ fuel _ t e h⟩

/-! ## Message-typed fields and cycles -/

/-- The switch on a field of kind message or group: the type becomes `object`,
`additionalProperties` follows the label, nothing else changes. -/
theorem switchType_message (c : Converter) (desc : FieldDescriptorProto) (msg : DescriptorProto)
    (vr : Option FieldRules) (js : SchemaType) (hk : isMessageKind desc) :
    ∃ ap, switchType c desc msg vr js
        = .returned (.ok { js with type := "object", additionalProperties := ap }) ∧
      (desc.label = LABEL_OPTIONAL → ap = RawMessage.literal "true") ∧
      (desc.label = LABEL_REQUIRED → ap = RawMessage.literal "false") ∧
      (desc.label ≠ LABEL_OPTIONAL → desc.label ≠ LABEL_REQUIRED → ap = js.additionalProperties) := by
  unfold switchType
  rcases hk with hk | hk <;> rw [hk] <;>
  · by_cases h1 : desc.label = LABEL_OPTIONAL
    · refine ⟨RawMessage.literal "true", ?_, fun _ => rfl, ?_, fun h => absurd h1 h⟩
      · simp [h1]
      · intro h2; rw [h1] at h2; exact absurd h2 (by decide)
    · by_cases h2 : desc.label = LABEL_REQUIRED
      · refine ⟨RawMessage.literal "false", ?_, fun h => absurd h h1, fun _ => rfl, fun _ h => absurd h2 h⟩
        simp [h1, h2]
      · refine ⟨js.additionalProperties, ?_, fun h => absurd h h1, fun h => absurd h h2, fun _ _ => rfl⟩
        simp [h1, h2]

/-- Every field of a message whose loop returns without error was converted. -/
theorem convertFields_all_converted {convert : FieldDescriptorProto → Outcome FieldResult} :
    ∀ (fs : List FieldDescriptorProto) (js t : SchemaType),
      convertFields convert fs js = .returned (t, none) →
      ∀ f ∈ fs, ∃ r req, convert f = .returned (some r, req, none) := by
  intro fs
  induction fs with
  | nil => intro js t _ f hf; cases hf
  | cons g rest ih =>
    intro js t h f hf
    cases hg : convert g with
    | crashed => simp [convertFields, hg] at h
    | outOfFuel => simp [convertFields, hg] at h
    | returned a =>
      obtain ⟨n, req, e⟩ := a
      cases n with
      | none => simp [convertFields, hg] at h
      | some r =>
        cases e with
        | some err => simp [convertFields, hg] at h
        | none =>
          simp only [convertFields, hg] at h
          rcases List.mem_cons.mp hf with hfg | hfr
          · subst hfg; exact ⟨r, req, hg⟩
          · exact ih _ _ h f hfr

/-- A successful `convertField` on a message-typed field has converted the message
the type name resolves to. -/
theorem convertFieldBody_message_recursed {c : Converter}
    {cm : DescriptorProto → Outcome MessageResult} {desc : FieldDescriptorProto}
    {msg : DescriptorProto} {t : SchemaType} {req : Bool} {B : DescriptorProto}
    (hk : isMessageKind desc) (hl : c.lookupType desc.typeName = some B)
    (h : convertFieldBody c cm desc msg = .returned (some t, req, none)) :
    ∃ recursed, cm B = .returned (recursed, none) := by
  obtain ⟨_, vr, js0, _, _, hs, hcase⟩ := convertFieldBody_ok h
  obtain ⟨ap, hsw, _⟩ := switchType_message c desc msg vr (fieldNode c desc) hk
  rw [hsw] at hs
  simp only [Outcome.returned.injEq, Except.ok.injEq] at hs
  have hty : js0.type = "object" := by rw [← hs]
  rcases hcase with ⟨_, hne, _⟩ | ⟨_, hobj⟩ | ⟨_, hne, _⟩
  · exact absurd hty hne
  · obtain ⟨_, _, recordType, recursed, hl', hcm, _⟩ := convertObject_ok hobj
    rw [hl] at hl'
    cases hl'
    exact ⟨recursed, hcm⟩
  · exact absurd hty hne

/-- When `A` refers to `B`, a conversion of `A` that returns with budget `n + 1` has
seen the conversion of `B` return with budget `n`. -/
theorem returned_of_refersTo {c : Converter} {A B : DescriptorProto} (hAB : refersTo c A B)
    {n : Nat} {r : MessageResult} (h : convertMessageType c (n + 1) A = .returned r) :
    ∃ r', convertMessageType c n B = .returned r' := by
  obtain ⟨t, e⟩ := r
  cases e with
  | some err => exact absurd h (convertMessageType_no_error c (n + 1) A t err)
  | none =>
    obtain ⟨f, hf, hk, hl⟩ := hAB
    simp only [convertMessageType] at h
    obtain ⟨r, req, hconv⟩ := convertFields_all_converted _ _ _ h f hf
    obtain ⟨recursed, hrec⟩ := convertFieldBody_message_recursed hk hl hconv
    exact ⟨_, hrec⟩

/-- No message of a set in which every message refers to a message of the set is
ever converted: at no budget does `convertMessageType` return. -/
theorem never_returns_of_closed {c : Converter} (S : DescriptorProto → Prop)
    (hS : ∀ M, S M → ∃ M', S M' ∧ refersTo c M M') :
    ∀ (fuel : Nat) (M : DescriptorProto), S M → ∀ r, convertMessageType c fuel M ≠ .returned r := by
  intro fuel
  induction fuel with
  | zero => intro M _ r h; simp [convertMessageType] at h
  | succ n ih =>
    intro M hM r h
    obtain ⟨M', hM', href⟩ := hS M hM
    obtain ⟨r', hr'⟩ := returned_of_refersTo href h
    exact ih M' hM' r' hr'

/-- C3, as amended: for a message `A` with a message-typed field whose declared type
resolves to `A` itself, directly or through another message `B`, `convertMessageType`
on `A` returns at no recursion budget, neither a schema nor an error: the converter
has no cycle detection and the recursion does not end. -/
theorem C3_cyclic_message_never_returns (c : Converter) (A : DescriptorProto)
    (h : refersTo c A A ∨ ∃ B, refersTo c A B ∧ refersTo c B A) :
    ∀ (fuel : Nat) (r : MessageResult), convertMessageType c fuel A ≠ .returned r := by
  intro fuel r
  rcases h with h | ⟨B, hAB, hBA⟩
  · exact never_returns_of_closed (fun M => M = A)
      (fun M hM => ⟨A, rfl, by rw [hM]; exact h⟩) fuel A rfl r
  · refine never_returns_of_closed (fun M => M = A ∨ M = B) ?_ fuel A (Or.inl rfl) r
    intro M hM
    rcases hM with hM | hM
    · exact ⟨B, Or.inr rfl, by rw [hM]; exact hAB⟩
    · exact ⟨A, Or.inl rfl, by rw [hM]; exact hBA⟩

/-- The message `treeMessage` refers to itself in the registry of `treeConverter`. -/
theorem treeMessage_refersTo_self : refersTo treeConverter treeMessage treeMessage :=
  ⟨_, List.mem_singleton.mpr rfl, Or.inr rfl, rfl⟩

/-- C3 at `treeMessage`, which refers to itself: no budget makes the conversion return. -/
theorem C3_cyclic_message_never_returns_witness :
    refersTo treeConverter treeMessage treeMessage ∧
    ∀ (fuel : Nat) (r : MessageResult), convertMessageType treeConverter fuel treeMessage ≠ .returned r :=
  ⟨treeMessage_refersTo_self,
    C3_cyclic_message_never_returns treeConverter treeMessage (Or.inl treeMessage_refersTo_self)⟩

/-- A message-typed field whose referenced message runs out of budget runs out of
budget itself. -/
theorem convertFieldBody_message_outOfFuel {c : Converter}
    {cm : DescriptorProto → Outcome MessageResult} {desc : FieldDescriptorProto}
    {msg : DescriptorProto} (vr : Option FieldRules) {B : DescriptorProto}
    (hk : isMessageKind desc) (hv : getValidationRules desc = .ok vr)
    (hl : c.lookupType desc.typeName = some B) (hcm : cm B = .outOfFuel) :
    convertFieldBody c cm desc msg = .outOfFuel := by
  obtain ⟨ap, hsw, _⟩ := switchType_message c desc msg vr (fieldNode c desc) hk
  unfold convertFieldBody
  simp [hv, hsw, convertObject, hl, hcm]

/-- C3 fails as stated: on the self-referential `treeMessage` the conversion uses up
every recursion budget, so it never returns a cyclic-type error. -/
theorem C3_self_reference_recurses_forever :
    ¬ ∃ fuel, convertMessageType treeConverter fuel treeMessage ≠ .outOfFuel := by
  rintro ⟨fuel, h⟩
  apply h
  clear h
  induction fuel with
  | zero => rfl
  | succ n ih =>
    have hf : convertFieldBody treeConverter (fun d => convertMessageType treeConverter n d)
        { name := "child", jsonName := "child", type := TYPE_MESSAGE, typeName := ".pkg.Tree" }
        treeMessage = .outOfFuel :=
      convertFieldBody_message_outOfFuel none (Or.inr rfl) rfl rfl ih
    simp only [convertMessageType, treeMessage, convertFields] at hf ⊢
    rw [hf]

/-! ## The base node built by the switch -/

theorem StringRulesFrame.onlyIf {js x : SchemaType} {cond : Prop} [Decidable cond]
    {f : SchemaType → SchemaType} (hf : ∀ y, StringRulesFrame js y → StringRulesFrame js (f y))
    (hx : StringRulesFrame js x) : StringRulesFrame js (onlyIf cond f x) := by
  unfold ProtocGenJsonschema.onlyIf
  split
  · exact hf x hx
  · exact hx

theorem StringRulesFrame.onlyIfNotNil {js x : SchemaType} {values : Option (List String)}
    {f : List String → SchemaType → SchemaType}
    (hf : ∀ vs y, StringRulesFrame js y → StringRulesFrame js (f vs y))
    (hx : StringRulesFrame js x) : StringRulesFrame js (onlyIfNotNil values f x) := by
  unfold ProtocGenJsonschema.onlyIfNotNil
  cases values with
  | none => exact hx
  | some vs => exact hf vs x hx

theorem applyStringRules_frame (sr : StringRules) (js : SchemaType) :
    StringRulesFrame js (applyStringRules sr js) := by
  have h0 : StringRulesFrame js js :=
    ⟨rfl, rfl, rfl, rfl, Or.inl ⟨rfl, rfl⟩, Or.inl rfl⟩
  unfold applyStringRules
  refine StringRulesFrame.onlyIf (fun y hy => ⟨hy.1, hy.2, hy.3, hy.4, hy.5, hy.6⟩) ?_
  refine StringRulesFrame.onlyIf (fun y hy => ⟨hy.1, hy.2, hy.3, hy.4, hy.5, hy.6⟩) ?_
  refine StringRulesFrame.onlyIf (fun y hy => ⟨hy.1, hy.2, hy.3, hy.4, hy.5, hy.6⟩) ?_
  refine StringRulesFrame.onlyIf (fun y hy => ⟨hy.1, hy.2, hy.3, hy.4, hy.5, hy.6⟩) ?_
  refine StringRulesFrame.onlyIf (fun y hy => ⟨hy.1, hy.2, hy.3, hy.4, hy.5, hy.6⟩) ?_
  refine StringRulesFrame.onlyIf
    (fun y hy => ⟨hy.1, hy.2, hy.3, hy.4, Or.inr ⟨rfl, by simp⟩, hy.6⟩) ?_
  refine StringRulesFrame.onlyIf (fun y hy => ⟨hy.1, hy.2, hy.3, hy.4, hy.5, hy.6⟩) ?_
  refine StringRulesFrame.onlyIf
    (fun y hy => ⟨hy.1, hy.2, hy.3, hy.4, Or.inr ⟨rfl, by simp⟩, hy.6⟩) ?_
  refine StringRulesFrame.onlyIf (fun y hy => ⟨hy.1, hy.2, hy.3, hy.4, hy.5, hy.6⟩) ?_
  refine StringRulesFrame.onlyIfNotNil
    (fun vs y hy => ⟨hy.1, hy.2, hy.3, hy.4, hy.5, Or.inr ⟨_, rfl⟩⟩) ?_
  refine StringRulesFrame.onlyIfNotNil (fun vs y hy => ⟨hy.1, hy.2, hy.3, hy.4, hy.5, hy.6⟩) ?_
  refine StringRulesFrame.onlyIf (fun y hy => ⟨hy.1, hy.2, hy.3, hy.4, hy.5, hy.6⟩) ?_
  refine StringRulesFrame.onlyIf (fun y hy => ⟨hy.1, hy.2, hy.3, hy.4, hy.5, hy.6⟩) ?_
  refine StringRulesFrame.onlyIf (fun y hy => ⟨hy.1, hy.2, hy.3, hy.4, hy.5, hy.6⟩) ?_
  refine StringRulesFrame.onlyIf (fun y hy => ⟨hy.1, hy.2, hy.3, hy.4, hy.5, hy.6⟩) ?_
  refine StringRulesFrame.onlyIf (fun y hy => ⟨hy.1, hy.2, hy.3, hy.4, hy.5, hy.6⟩) ?_
  refine StringRulesFrame.onlyIf (fun y hy => ⟨hy.1, hy.2, hy.3, hy.4, hy.5, hy.6⟩) ?_
  refine StringRulesFrame.onlyIf (fun y hy => ⟨hy.1, hy.2, hy.3, hy.4, hy.5, hy.6⟩) ?_
  exact h0

theorem fieldNode_eq (c : Converter) (desc : FieldDescriptorProto) :
    ∃ d, fieldNode c desc = { SchemaType.zero with description := d } := by
  unfold fieldNode
  cases c.sourceInfoGetField desc with
  | none => exact ⟨"", rfl⟩
  | some src => exact ⟨formatDescription src, rfl⟩

theorem BaseNode.plain {c : Converter} (hN : c.AllowNullValues = false) (d s : String) :
    BaseNode c { SchemaType.zero with description := d, type := s } :=
  ⟨rfl, rfl, Or.inl rfl, fun _ h => (by cases h), fun _ ha => (by cases ha),
    fun h => absurd rfl h, fun h => (by rw [hN] at h; cases h)⟩

theorem BaseNode.alternatives_only {c : Converter} (d : String) (l : List SchemaType)
    (e : List EnumEntry) (hl : ∀ a ∈ l, ∃ s f, a = SchemaType.ofTypeFormat s f)
    (hnull : c.AllowNullValues = true → l.countP (fun a => a.type == "null") = 1) :
    BaseNode c { SchemaType.zero with description := d, oneOf := l, enum := e } :=
  ⟨rfl, rfl, Or.inl rfl, fun _ h => (by cases h), hl, fun _ => rfl, fun h => Or.inr ⟨rfl, hnull h⟩⟩

theorem BaseNode.object {c : Converter} (d : String) (ap : RawMessage SchemaType)
    (hap : ∀ t, ap ≠ RawMessage.marshal t) :
    BaseNode c { SchemaType.zero with description := d, type := "object", additionalProperties := ap } :=
  ⟨rfl, rfl, Or.inl rfl, hap, fun _ ha => (by cases ha), fun h => absurd rfl h,
    fun _ => Or.inl ⟨rfl, rfl⟩⟩

theorem ofType_alternatives (l : List String) :
    ∀ a ∈ l.map SchemaType.ofType, ∃ s f, a = SchemaType.ofTypeFormat s f := by
  intro a ha
  obtain ⟨s, _, rfl⟩ := List.mem_map.mp ha
  exact ⟨s, "", rfl⟩

theorem switchType_base {c : Converter} {desc : FieldDescriptorProto} {msg : DescriptorProto}
    {vr : Option FieldRules} {js0 : SchemaType}
    (h : switchType c desc msg vr (fieldNode c desc) = .returned (.ok js0)) : BaseNode c js0 := by
  obtain ⟨d, hd⟩ := fieldNode_eq c desc
  rw [hd] at h
  unfold switchType at h
  by_cases h1 : desc.type = TYPE_DOUBLE ∨ desc.type = TYPE_FLOAT
  · rw [if_pos h1] at h
    cases hN : c.AllowNullValues <;> rw [hN] at h <;>
      simp only [Bool.false_eq_true, if_false, if_true, Outcome.returned.injEq, Except.ok.injEq] at h <;>
      subst h
    · exact BaseNode.plain hN d "number"
    · exact BaseNode.alternatives_only d _ [] (ofType_alternatives ["null", "number"]) (fun _ => rfl)
  rw [if_neg h1] at h
  by_cases h2 : desc.type = TYPE_INT32 ∨ desc.type = TYPE_UINT32 ∨ desc.type = TYPE_FIXED32
      ∨ desc.type = TYPE_SFIXED32 ∨ desc.type = TYPE_SINT32
  · rw [if_pos h2] at h
    cases hN : c.AllowNullValues <;> rw [hN] at h <;>
      simp only [Bool.false_eq_true, if_false, if_true, Outcome.returned.injEq, Except.ok.injEq] at h <;>
      subst h
    · exact BaseNode.plain hN d "integer"
    · exact BaseNode.alternatives_only d _ [] (ofType_alternatives ["null", "integer"]) (fun _ => rfl)
  rw [if_neg h2] at h
  by_cases h3 : desc.type = TYPE_INT64 ∨ desc.type = TYPE_UINT64 ∨ desc.type = TYPE_FIXED64
      ∨ desc.type = TYPE_SFIXED64 ∨ desc.type = TYPE_SINT64
  · rw [if_pos h3] at h
    cases hN : c.AllowNullValues <;> cases hD : c.DisallowBigIntsAsStrings <;> rw [hN, hD] at h <;>
      simp only [Bool.false_eq_true, if_false, if_true, not_true_eq_false, not_false_eq_true,
        Outcome.returned.injEq, Except.ok.injEq] at h <;>
      subst h
    · exact BaseNode.alternatives_only d _ [] (ofType_alternatives ["integer", "string"])
        (fun h => by rw [hN] at h; cases h)
    · exact BaseNode.alternatives_only d _ [] (ofType_alternatives ["integer"])
        (fun h => by rw [hN] at h; cases h)
    · exact BaseNode.alternatives_only d _ [] (ofType_alternatives ["integer", "string", "null"])
        (fun _ => rfl)
    · exact BaseNode.alternatives_only d _ [] (ofType_alternatives ["integer", "null"]) (fun _ => rfl)
  rw [if_neg h3] at h
  by_cases h4 : desc.type = TYPE_STRING ∨ desc.type = TYPE_BYTES
  · rw [if_pos h4] at h
    cases hN : c.AllowNullValues <;> rw [hN] at h <;>
      simp only [Bool.false_eq_true, if_false, if_true] at h
    · cases hsr : vr.bind (fun r => r.string_) with
      | none =>
        rw [hsr] at h
        simp only [Outcome.returned.injEq, Except.ok.injEq] at h
        subst h
        exact BaseNode.plain hN d "string"
      | some sr =>
        rw [hsr] at h
        simp only [Outcome.returned.injEq, Except.ok.injEq] at h
        subst h
        have hf := applyStringRules_frame sr
          { SchemaType.zero with description := d, type := "string" }
        refine ⟨hf.items, hf.properties, hf.not_, ?_, ?_, ?_, fun h => by rw [hN] at h; cases h⟩
        · intro t ht; rw [hf.additionalProperties] at ht; cases ht
        · rcases hf.typeOneOf with ⟨_, ho⟩ | ⟨_, ho⟩
          · intro a ha; rw [ho] at ha; cases ha
          · intro a ha; obtain ⟨f, hf'⟩ := ho a ha; exact ⟨_, f, hf'⟩
        · rcases hf.typeOneOf with ⟨_, ho⟩ | ⟨ht, _⟩
          · intro hne; exact absurd ho hne
          · intro _; exact ht
    · simp only [Outcome.returned.injEq, Except.ok.injEq] at h
      subst h
      exact BaseNode.alternatives_only d _ [] (ofType_alternatives ["null", "string"]) (fun _ => rfl)
  rw [if_neg h4] at h
  by_cases h5 : desc.type = TYPE_ENUM
  · rw [if_pos h5] at h
    cases hN : c.AllowNullValues <;> rw [hN] at h <;>
      simp only [Bool.false_eq_true, if_false, if_true] at h
    · cases he : enumLoop desc.typeName msg.name msg.enumType [] with
      | crashed => simp [SchemaType.zero, he] at h
      | outOfFuel => simp [SchemaType.zero, he] at h
      | returned values =>
        simp only [SchemaType.zero, he, Outcome.returned.injEq, Except.ok.injEq] at h
        subst h
        exact BaseNode.alternatives_only d _ values (ofType_alternatives ["string", "integer"])
          (fun h => by rw [hN] at h; cases h)
    · cases he : enumLoop desc.typeName msg.name msg.enumType [] with
      | crashed => simp [SchemaType.zero, he] at h
      | outOfFuel => simp [SchemaType.zero, he] at h
      | returned values =>
        simp only [SchemaType.zero, he, Outcome.returned.injEq, Except.ok.injEq] at h
        subst h
        exact BaseNode.alternatives_only d _ values (ofType_alternatives ["string", "integer", "null"])
          (fun _ => rfl)
  rw [if_neg h5] at h
  by_cases h6 : desc.type = TYPE_BOOL
  · rw [if_pos h6] at h
    cases hN : c.AllowNullValues <;> rw [hN] at h <;>
      simp only [Bool.false_eq_true, if_false, if_true, Outcome.returned.injEq, Except.ok.injEq] at h <;>
      subst h
    · exact BaseNode.plain hN d "boolean"
    · exact BaseNode.alternatives_only d _ [] (ofType_alternatives ["null", "boolean"]) (fun _ => rfl)
  rw [if_neg h6] at h
  by_cases h7 : desc.type = TYPE_GROUP ∨ desc.type = TYPE_MESSAGE
  · obtain ⟨ap, hsw, hopt, hreq, hother⟩ :=
      switchType_message c desc msg vr { SchemaType.zero with description := d } h7
    unfold switchType at hsw
    rw [if_neg h1, if_neg h2, if_neg h3, if_neg h4, if_neg h5, if_neg h6] at hsw
    rw [hsw] at h
    simp only [Outcome.returned.injEq, Except.ok.injEq] at h
    subst h
    refine BaseNode.object d ap ?_
    intro t ht
    by_cases ho : desc.label = LABEL_OPTIONAL
    · rw [hopt ho] at ht; cases ht
    · by_cases hr : desc.label = LABEL_REQUIRED
      · rw [hreq hr] at ht; cases ht
      · rw [hother ho hr] at ht; cases ht
  · rw [if_neg h7] at h
    simp at h

/-! ## Predicates that hold at every node -/

theorem typeUnsetWhenOneOf_of_locallyFine (x : SchemaType) (h : LocallyFine x) :
    typeUnsetWhenOneOf x = true := by
  unfold typeUnsetWhenOneOf
  rcases h with h | ⟨h, _⟩
  · simp [h]
  · simp [h]

theorem oneOfNotNested_of_locallyFine (x : SchemaType) (h : LocallyFine x) :
    oneOfNotNested x = true := by
  unfold oneOfNotNested
  rcases h with h | ⟨_, h⟩
  · simp [h]
  · simp only [List.all_eq_true, List.isEmpty_iff]
    exact h

theorem allNodes_unfold (p : SchemaType → Bool) (t : SchemaType) :
    t.allNodes p = (p t && allNodesOption p t.items && allNodesProperties p t.properties
      && allNodesList p t.oneOf && allNodesOption p t.not_ && allNodesRaw p t.additionalProperties) := by
  cases t
  simp only [SchemaType.allNodes]

theorem allNodes_intro {p : SchemaType → Bool} {t : SchemaType} (h1 : p t = true)
    (h2 : allNodesOption p t.items = true) (h3 : allNodesProperties p t.properties = true)
    (h4 : allNodesList p t.oneOf = true) (h5 : allNodesOption p t.not_ = true)
    (h6 : allNodesRaw p t.additionalProperties = true) : t.allNodes p = true := by
  rw [allNodes_unfold, h1, h2, h3, h4, h5, h6]
  rfl

theorem allNodes_properties {p : SchemaType → Bool} {t : SchemaType} (h : t.allNodes p = true) :
    allNodesProperties p t.properties = true := by
  rw [allNodes_unfold] at h
  simp only [Bool.and_eq_true] at h
  exact h.1.1.1.2

theorem allNodesList_of_forall {p : SchemaType → Bool} :
    ∀ (l : List SchemaType), (∀ a ∈ l, a.allNodes p = true) → allNodesList p l = true
  | [], _ => by simp only [allNodesList]
  | a :: rest, h => by
    simp only [allNodesList, Bool.and_eq_true]
    exact ⟨h a (List.mem_cons_self _ _),
      allNodesList_of_forall rest (fun b hb => h b (List.mem_cons_of_mem _ hb))⟩

theorem allNodesProperties_setProperty {p : SchemaType → Bool} {key : String} {v : SchemaType}
    (hv : v.allNodes p = true) :
    ∀ (props : List (String × SchemaType)), allNodesProperties p props = true →
      allNodesProperties p (setProperty props key v) = true
  | [], _ => by simp only [setProperty, allNodesProperties, hv, Bool.and_self]
  | (k, w) :: rest, h => by
    simp only [allNodesProperties, Bool.and_eq_true] at h
    unfold setProperty
    split
    · simp only [allNodesProperties, Bool.and_eq_true]; exact ⟨hv, h.2⟩
    · simp only [allNodesProperties, Bool.and_eq_true]
      exact ⟨h.1, allNodesProperties_setProperty hv rest h.2⟩

theorem allNodesProperties_getProperty {p : SchemaType → Bool} {key : String} {v : SchemaType} :
    ∀ (props : List (String × SchemaType)), allNodesProperties p props = true →
      getProperty props key = some v → v.allNodes p = true
  | [], _, hg => by simp [getProperty] at hg
  | (k, w) :: rest, h, hg => by
    simp only [allNodesProperties, Bool.and_eq_true] at h
    unfold getProperty at hg
    split at hg
    · cases hg; exact h.1
    · exact allNodesProperties_getProperty rest h.2 hg

theorem allNodes_leaf {p : SchemaType → Bool} (hp : ∀ x, LocallyFine x → p x = true)
    (s f : String) : (SchemaType.ofTypeFormat s f).allNodes p = true :=
  allNodes_intro (hp _ (Or.inl rfl)) rfl rfl rfl rfl rfl

theorem allNodes_enumOnly {p : SchemaType → Bool} (hp : ∀ x, LocallyFine x → p x = true)
    (vs : List EnumEntry) : ({ SchemaType.zero with enum := vs }).allNodes p = true :=
  allNodes_intro (hp _ (Or.inl rfl)) rfl rfl rfl rfl rfl

theorem BaseNode.locallyFine {c : Converter} {js0 : SchemaType} (hb : BaseNode c js0) :
    LocallyFine js0 := by
  by_cases ho : js0.oneOf = []
  · exact Or.inl ho
  · refine Or.inr ⟨hb.typeUnset ho, ?_⟩
    intro a ha
    obtain ⟨s, f, rfl⟩ := hb.alternatives a ha
    rfl

theorem BaseNode.oneOf_allNodes {p : SchemaType → Bool} (hp : ∀ x, LocallyFine x → p x = true)
    {c : Converter} {js0 : SchemaType} (hb : BaseNode c js0) : allNodesList p js0.oneOf = true := by
  apply allNodesList_of_forall
  intro a ha
  obtain ⟨s, f, rfl⟩ := hb.alternatives a ha
  exact allNodes_leaf hp s f

theorem BaseNode.not_allNodes {p : SchemaType → Bool} (hp : ∀ x, LocallyFine x → p x = true)
    {c : Converter} {js0 : SchemaType} (hb : BaseNode c js0) : allNodesOption p js0.not_ = true := by
  rcases hb.not_ with h | ⟨vs, h⟩
  · rw [h]; rfl
  · rw [h]; exact allNodes_enumOnly hp vs

theorem BaseNode.raw_allNodes {p : SchemaType → Bool} {c : Converter} {js0 : SchemaType}
    (hb : BaseNode c js0) : allNodesRaw p js0.additionalProperties = true := by
  cases h : js0.additionalProperties with
  | empty => rfl
  | literal s => rfl
  | marshal t => exact absurd h (hb.additionalProperties t)

theorem BaseNode.allNodes {p : SchemaType → Bool} (hp : ∀ x, LocallyFine x → p x = true)
    {c : Converter} {js0 : SchemaType} (hb : BaseNode c js0) : js0.allNodes p = true :=
  allNodes_intro (hp _ hb.locallyFine) (by rw [hb.items]; rfl) (by rw [hb.properties]; rfl)
    (hb.oneOf_allNodes hp) (hb.not_allNodes hp) hb.raw_allNodes

theorem nullPair_allNodes {p : SchemaType → Bool} (hp : ∀ x, LocallyFine x → p x = true)
    (s : String) : allNodesList p [SchemaType.ofType "null", SchemaType.ofType s] = true :=
  allNodesList_of_forall _ (fun a ha => by
    rcases List.mem_cons.mp ha with rfl | ha
    · exact allNodes_leaf hp "null" ""
    · rcases List.mem_cons.mp ha with rfl | ha
      · exact allNodes_leaf hp s ""
      · cases ha)

theorem nullPair_locallyFine (x : SchemaType) (s : String) (ht : x.type = "")
    (ho : x.oneOf = [SchemaType.ofType "null", SchemaType.ofType s]) : LocallyFine x := by
  refine Or.inr ⟨ht, ?_⟩
  intro a ha
  rw [ho] at ha
  rcases List.mem_cons.mp ha with rfl | ha
  · rfl
  · rcases List.mem_cons.mp ha with rfl | ha
    · rfl
    · cases ha

/-- The array node of a repeated primitive field, spelled out. -/
theorem repeatedPrimitive_eq (c : Converter) (js : SchemaType) :
    repeatedPrimitive c js =
      { js with
        enum := if js.enum.length > 0 then [] else js.enum,
        items := some (if js.enum.length > 0 then { SchemaType.zero with enum := js.enum }
                       else { SchemaType.zero with type := js.type, oneOf := js.oneOf }),
        type := if c.AllowNullValues then js.type else "array",
        oneOf := if c.AllowNullValues then [SchemaType.ofType "null", SchemaType.ofType "array"]
                 else [] } := by
  unfold repeatedPrimitive
  by_cases he : js.enum.length > 0 <;> cases hN : c.AllowNullValues <;> simp [he, SchemaType.zero]

theorem repeatedPrimitive_allNodes {p : SchemaType → Bool} (hp : ∀ x, LocallyFine x → p x = true)
    {c : Converter} {js0 : SchemaType} (hb : BaseNode c js0) (hne : js0.type ≠ "object") :
    (repeatedPrimitive c js0).allNodes p = true := by
  rw [repeatedPrimitive_eq]
  have hitems : allNodesOption p (some (if js0.enum.length > 0 then { SchemaType.zero with enum := js0.enum }
      else { SchemaType.zero with type := js0.type, oneOf := js0.oneOf })) = true := by
    by_cases he : js0.enum.length > 0
    · rw [if_pos he]; exact allNodes_enumOnly hp _
    · rw [if_neg he]
      refine allNodes_intro (hp _ ?_) rfl rfl (hb.oneOf_allNodes hp) rfl rfl
      exact hb.locallyFine
  cases hN : c.AllowNullValues with
  | false =>
    simp only [Bool.false_eq_true, if_false]
    exact allNodes_intro (hp _ (Or.inl rfl)) hitems (by rw [hb.properties]; rfl) rfl
      (hb.not_allNodes hp) hb.raw_allNodes
  | true =>
    simp only [if_true]
    have hty : js0.type = "" := by
      rcases hb.nullable hN with ⟨h, _⟩ | ⟨h, _⟩
      · exact absurd h hne
      · exact h
    exact allNodes_intro (hp _ (nullPair_locallyFine _ "array" hty rfl)) hitems
      (by rw [hb.properties]; rfl) (nullPair_allNodes hp "array") (hb.not_allNodes hp) hb.raw_allNodes

theorem wrapNull_allNodes {p : SchemaType → Bool} (hp : ∀ x, LocallyFine x → p x = true)
    (c : Converter) {js : SchemaType} (ho : js.oneOf = [])
    (h2 : allNodesOption p js.items = true) (h3 : allNodesProperties p js.properties = true)
    (h5 : allNodesOption p js.not_ = true) (h6 : allNodesRaw p js.additionalProperties = true) :
    (wrapNull c js).allNodes p = true := by
  unfold wrapNull
  cases c.AllowNullValues with
  | false =>
    simp only [Bool.false_eq_true, if_false]
    exact allNodes_intro (hp _ (Or.inl ho)) h2 h3 (by rw [ho]; rfl) h5 h6
  | true =>
    simp only [if_true]
    exact allNodes_intro (hp _ (nullPair_locallyFine _ js.type rfl rfl)) h2 h3
      (nullPair_allNodes hp js.type) h5 h6

theorem BaseNode.oneOf_nil_of_object {c : Converter} {js0 : SchemaType} (hb : BaseNode c js0)
    (hty : js0.type = "object") : js0.oneOf = [] := by
  by_contra ho
  have := hb.typeUnset ho
  rw [hty] at this
  exact absurd this (by decide)

/-- The invariant through `convertField`, given it for the messages it recurses into. -/
theorem convertFieldBody_allNodes {p : SchemaType → Bool} (hp : ∀ x, LocallyFine x → p x = true)
    {c : Converter} {cm : DescriptorProto → Outcome MessageResult}
    (hcm : ∀ B r, cm B = .returned (r, none) → r.allNodes p = true)
    {desc : FieldDescriptorProto} {msg : DescriptorProto} {t : SchemaType} {req : Bool}
    (h : convertFieldBody c cm desc msg = .returned (some t, req, none)) : t.allNodes p = true := by
  obtain ⟨_, vr, js0, _, _, hs, hcase⟩ := convertFieldBody_ok h
  have hb := switchType_base hs
  rcases hcase with ⟨_, hne, rfl⟩ | ⟨hty, hobj⟩ | ⟨_, _, rfl⟩
  · exact repeatedPrimitive_allNodes hp hb hne
  · obtain ⟨_, _, recordType, recursed, _, hrec, hshape⟩ := convertObject_ok hobj
    have hrecursed := hcm recordType recursed hrec
    have ho := hb.oneOf_nil_of_object hty
    rcases hshape with ⟨_, _, value, hval, rfl⟩ | ⟨_, _, rfl⟩ | ⟨_, _, rfl⟩
    · exact wrapNull_allNodes hp c ho (by rw [hb.items]; rfl) (by rw [hb.properties]; rfl)
        (hb.not_allNodes hp)
        (allNodesProperties_getProperty _ (allNodes_properties hrecursed) hval)
    · exact wrapNull_allNodes hp c ho hrecursed (by rw [hb.properties]; rfl)
        (hb.not_allNodes hp) hb.raw_allNodes
    · exact wrapNull_allNodes hp c ho (by rw [hb.items]; rfl)
        (allNodes_properties (t := recursed) hrecursed)
        (hb.not_allNodes hp) hb.raw_allNodes
  · exact hb.allNodes hp

theorem messageNode_allNodes {p : SchemaType → Bool} (hp : ∀ x, LocallyFine x → p x = true)
    (c : Converter) (msg : DescriptorProto) : (messageNode c msg).allNodes p = true := by
  unfold messageNode
  cases c.sourceInfoGetMessage msg <;> cases c.AllowNullValues <;>
    cases c.DisallowAdditionalProperties <;>
    first
    | exact allNodes_intro (hp _ (Or.inl rfl)) rfl rfl rfl rfl rfl
    | exact allNodes_intro (hp _ (nullPair_locallyFine _ "object" rfl rfl)) rfl rfl
        (nullPair_allNodes hp "object") rfl rfl

theorem convertFields_allNodes {p : SchemaType → Bool}
    {convert : FieldDescriptorProto → Outcome FieldResult}
    (hconv : ∀ f r req, convert f = .returned (some r, req, none) → r.allNodes p = true) :
    ∀ (fs : List FieldDescriptorProto) (js t : SchemaType), js.allNodes p = true →
      (∀ x : SchemaType, x.type = js.type → x.oneOf = js.oneOf → p x = true) →
      convertFields convert fs js = .returned (t, none) → t.allNodes p = true := by
  intro fs
  induction fs with
  | nil =>
    intro js t hjs _ h
    simp only [convertFields, Outcome.returned.injEq, Prod.mk.injEq, and_true] at h
    rw [← h]; exact hjs
  | cons f rest ih =>
    intro js t hjs hloc h
    cases hf : convert f with
    | crashed => simp [convertFields, hf] at h
    | outOfFuel => simp [convertFields, hf] at h
    | returned a =>
      obtain ⟨n, req, e⟩ := a
      cases n with
      | none => simp [convertFields, hf] at h
      | some r =>
        cases e with
        | some err => simp [convertFields, hf] at h
        | none =>
          simp only [convertFields, hf] at h
          have hr := hconv f r req hf
          rw [allNodes_unfold] at hjs
          simp only [Bool.and_eq_true] at hjs
          obtain ⟨⟨⟨⟨⟨_, h2⟩, h3⟩, h4⟩, h5⟩, h6⟩ := hjs
          refine ih _ _ ?_ ?_ h
          · cases req
            · exact allNodes_intro (hloc _ rfl rfl) h2
                (allNodesProperties_setProperty hr _ h3) h4 h5 h6
            · exact allNodes_intro (hloc _ rfl rfl) h2
                (allNodesProperties_setProperty hr _ h3) h4 h5 h6
          · cases req <;> exact hloc

/-- The invariant on every converted message, by induction on the budget. -/
theorem convertMessageType_allNodes {p : SchemaType → Bool} (hp : ∀ x, LocallyFine x → p x = true)
    (c : Converter) : ∀ (fuel : Nat) (msg : DescriptorProto) (t : SchemaType),
      convertMessageType c fuel msg = .returned (t, none) → t.allNodes p = true := by
  intro fuel
  induction fuel with
  | zero => intro msg t h; simp [convertMessageType] at h
  | succ n ih =>
    intro msg t h
    simp only [convertMessageType] at h
    refine convertFields_allNodes
      (fun f r req hf => convertFieldBody_allNodes hp (fun B r hB => ih B r hB) hf)
      _ _ _ (messageNode_allNodes hp c msg) ?_ h
    intro x hty ho
    apply hp
    unfold messageNode at hty ho
    cases hN : c.AllowNullValues <;> cases hsrc : c.sourceInfoGetMessage msg <;>
      cases hD : c.DisallowAdditionalProperties <;>
      simp only [hN, hsrc, hD, Bool.false_eq_true, if_false, if_true] at hty ho
    all_goals first
      | exact Or.inl ho
      | exact nullPair_locallyFine x "object" hty ho

/-- The invariant on every produced node. -/
theorem produced_allNodes {p : SchemaType → Bool} (hp : ∀ x, LocallyFine x → p x = true)
    {c : Converter} {t : SchemaType} (h : Produced c t) : t.allNodes p = true := by
  rcases h with ⟨fuel, desc, msg, req, h⟩ | ⟨fuel, msg, h⟩
  · exact convertFieldBody_allNodes hp (fun B r hB => convertMessageType_allNodes hp c fuel B r hB) h
  · exact convertMessageType_allNodes hp c fuel msg t h

/-- C8: in every schema node produced by a successful `convertField` or
`convertMessageType`, the node itself and every node below it (items, properties,
`oneOf` alternatives, and also the `not` schema and a schema marshalled into
`additionalProperties`), the primitive type is unset whenever the `oneOf` list is
non-empty. -/
theorem C8_type_unset_when_alternatives (c : Converter) (t : SchemaType) (h : Produced c t) :
    t.allNodes typeUnsetWhenOneOf = true :=
  produced_allNodes typeUnsetWhenOneOf_of_locallyFine h

/-- C8 at `orderMessage`, converted without null values: a nested message, an array,
a map and an array of messages, with the `oneOf` of the 64-bit field `qty` inside. -/
theorem C8_type_unset_when_alternatives_witness :
    ∃ t, convertMessageType (shopConverter false false) 2 orderMessage = .returned (t, none) ∧
      t.allNodes typeUnsetWhenOneOf = true :=
  ⟨_, rfl, C8_type_unset_when_alternatives (shopConverter false false) _
    (Or.inr ⟨2, orderMessage, rfl⟩)⟩

/-- C9: with `AllowNullValues` enabled, in every schema produced by a successful
`convertField` or `convertMessageType` no member of any `oneOf` list, at any depth,
carries a `oneOf` list itself.  (The proof does not use the flag: the same holds with
null values disabled.) -/
theorem C9_no_nested_alternatives (c : Converter) (t : SchemaType)
    (_hnull : c.AllowNullValues = true) (h : Produced c t) :
    t.allNodes oneOfNotNested = true :=
  produced_allNodes oneOfNotNested_of_locallyFine h

/-- C9 at `orderMessage`, converted with null values enabled. -/
theorem C9_no_nested_alternatives_witness :
    ∃ t, convertMessageType (shopConverter true false) 2 orderMessage = .returned (t, none) ∧
      t.allNodes oneOfNotNested = true :=
  ⟨_, rfl, C9_no_nested_alternatives (shopConverter true false) _ rfl
    (Or.inr ⟨2, orderMessage, rfl⟩)⟩

/-! ## Null alternatives and 64-bit integers -/

theorem wrapNull_nullable (c : Converter) (js : SchemaType) (hN : c.AllowNullValues = true)
    (hty : js.type = "object" ∨ js.type = "array") :
    (wrapNull c js).type = "" ∧ nullAlternatives (wrapNull c js) = 1 := by
  unfold wrapNull
  rw [hN]
  rcases hty with hty | hty <;> simp [nullAlternatives, hty, SchemaType.ofType, SchemaType.zero]

/-- C10: with `AllowNullValues` enabled, every node that `convertField` returns,
whatever the kind and the label of the field, has its primitive type unset and
exactly one alternative of type `null` in its `oneOf` list. -/
theorem C10_one_null_alternative (c : Converter) (fuel : Nat) (desc : FieldDescriptorProto)
    (msg : DescriptorProto) (t : SchemaType) (req : Bool) (hnull : c.AllowNullValues = true)
    (h : convertField c fuel desc msg = .returned (some t, req, none)) :
    t.type = "" ∧ nullAlternatives t = 1 := by
  obtain ⟨_, vr, js0, _, _, hs, hcase⟩ := convertFieldBody_ok h
  have hb := switchType_base hs
  rcases hcase with ⟨_, hne, rfl⟩ | ⟨hty, hobj⟩ | ⟨_, hne, rfl⟩
  · rw [repeatedPrimitive_eq]
    simp only [hnull, if_true]
    rcases hb.nullable hnull with ⟨h', _⟩ | ⟨h', _⟩
    · exact absurd h' hne
    · exact ⟨h', rfl⟩
  · obtain ⟨_, _, recordType, recursed, _, _, hshape⟩ := convertObject_ok hobj
    rcases hshape with ⟨_, _, value, _, rfl⟩ | ⟨_, _, rfl⟩ | ⟨_, _, rfl⟩
    · exact wrapNull_nullable c _ hnull (Or.inl hty)
    · exact wrapNull_nullable c _ hnull (Or.inr rfl)
    · exact wrapNull_nullable c _ hnull (Or.inl hty)
  · rcases hb.nullable hnull with ⟨h', _⟩ | h'
    · exact absurd h' hne
    · exact h'

/-- C10 at the repeated message field `extras` of `orderMessage`. -/
theorem C10_one_null_alternative_witness :
    ∃ t, convertField (shopConverter true false) 1 extrasField orderMessage
        = .returned (some t, false, none) ∧ t.type = "" ∧ nullAlternatives t = 1 :=
  ⟨_, rfl, C10_one_null_alternative (shopConverter true false) 1 extrasField orderMessage _ false
    rfl rfl⟩

theorem fieldNode_type (c : Converter) (desc : FieldDescriptorProto) :
    (fieldNode c desc).type = "" := by
  obtain ⟨d, hd⟩ := fieldNode_eq c desc
  rw [hd]
  rfl

theorem fieldNode_oneOf (c : Converter) (desc : FieldDescriptorProto) :
    (fieldNode c desc).oneOf = [] := by
  obtain ⟨d, hd⟩ := fieldNode_eq c desc
  rw [hd]
  rfl

theorem getValidationRules_of_optionsParse {desc : FieldDescriptorProto} (h : optionsParse desc) :
    ∃ vr, getValidationRules desc = .ok vr := by
  unfold getValidationRules
  cases ho : desc.options with
  | none => exact ⟨_, rfl⟩
  | some ext =>
    cases ext with
    | missing => exact ⟨_, rfl⟩
    | failed err => exact absurd ho (h err)
    | rules r => exact ⟨_, rfl⟩
    | otherValue => exact ⟨_, rfl⟩

/-- The switch on a field of a 64-bit integer kind. -/
theorem switchType_int64 (c : Converter) (desc : FieldDescriptorProto) (msg : DescriptorProto)
    (vr : Option FieldRules) (js : SchemaType) (hk : is64BitKind desc) :
    switchType c desc msg vr js = .returned (.ok { js with oneOf :=
      js.oneOf ++ [SchemaType.ofType "integer"]
        ++ (if c.DisallowBigIntsAsStrings then [] else [SchemaType.ofType "string"])
        ++ (if c.AllowNullValues then [SchemaType.ofType "null"] else []) }) := by
  have h1 : ¬ (desc.type = TYPE_DOUBLE ∨ desc.type = TYPE_FLOAT) := by
    rcases hk with h | h | h | h | h <;> rw [h] <;> decide
  have h2 : ¬ (desc.type = TYPE_INT32 ∨ desc.type = TYPE_UINT32 ∨ desc.type = TYPE_FIXED32
      ∨ desc.type = TYPE_SFIXED32 ∨ desc.type = TYPE_SINT32) := by
    rcases hk with h | h | h | h | h <;> rw [h] <;> decide
  have h3 : desc.type = TYPE_INT64 ∨ desc.type = TYPE_UINT64 ∨ desc.type = TYPE_FIXED64
      ∨ desc.type = TYPE_SFIXED64 ∨ desc.type = TYPE_SINT64 := hk
  unfold switchType
  rw [if_neg h1, if_neg h2, if_pos h3]
  cases c.DisallowBigIntsAsStrings <;> cases c.AllowNullValues <;> simp

/-- C7, as amended: for every non-repeated field of a 64-bit integer kind whose options
parse, `convertField` returns a node with the primitive type unset and `oneOf` equal
to `[integer]`, followed by a string alternative exactly when
`DisallowBigIntsAsStrings` is false, followed by a null alternative exactly when
`AllowNullValues` is true. -/
theorem C7_int64_alternatives (c : Converter) (fuel : Nat) (desc : FieldDescriptorProto)
    (msg : DescriptorProto) (hk : is64BitKind desc) (hlab : desc.label ≠ LABEL_REPEATED)
    (hopt : optionsParse desc) :
    ∃ t req, convertField c fuel desc msg = .returned (some t, req, none) ∧ t.type = "" ∧
      t.oneOf = [SchemaType.ofType "integer"]
        ++ (if c.DisallowBigIntsAsStrings then [] else [SchemaType.ofType "string"])
        ++ (if c.AllowNullValues then [SchemaType.ofType "null"] else []) := by
  obtain ⟨vr, hv⟩ := getValidationRules_of_optionsParse hopt
  have hsw := switchType_int64 c desc msg vr (fieldNode c desc) hk
  refine ⟨{ fieldNode c desc with oneOf :=
      (fieldNode c desc).oneOf ++ [SchemaType.ofType "integer"]
        ++ (if c.DisallowBigIntsAsStrings then [] else [SchemaType.ofType "string"])
        ++ (if c.AllowNullValues then [SchemaType.ofType "null"] else []) },
    requiredFlag vr, ?_, ?_, ?_⟩
  · have hty : (fieldNode c desc).type ≠ "object" := by rw [fieldNode_type]; decide
    unfold convertField convertFieldBody
    simp only [hv, hsw]
    rw [if_neg (fun h => hlab h.1), if_neg hty]
  · exact fieldNode_type c desc
  · show (fieldNode c desc).oneOf ++ _ ++ _ ++ _ = _
    rw [fieldNode_oneOf]
    rfl

/-- C7 at `totalField` in the default configuration: `oneOf` is `[integer, string]`. -/
theorem C7_int64_alternatives_witness :
    ∃ t req, convertField defaultConverter 0 totalField invoiceMessage = .returned (some t, req, none) ∧
      t.type = "" ∧ t.oneOf = [SchemaType.ofType "integer", SchemaType.ofType "string"] :=
  C7_int64_alternatives defaultConverter 0 totalField invoiceMessage (Or.inl rfl) (by decide)
    (fun _ h => by cases h)

/-- C7 fails as stated: on a non-repeated `int64` field whose rules extension does not
decode, `convertField` returns the error of `proto.GetExtension` and no node. -/
theorem C7_undecodable_options_fail :
    is64BitKind brokenOptionsField ∧ brokenOptionsField.label ≠ LABEL_REPEATED ∧
    convertField defaultConverter 0 brokenOptionsField invoiceMessage
      = .returned (none, false, some (Error.extension "proto: bad wiretype for extension")) :=
  ⟨Or.inl rfl, by decide, rfl⟩

/-! ## Repeated strings with an allow-list -/

theorem onlyIf_enum {cond : Prop} [Decidable cond] {f : SchemaType → SchemaType} {js : SchemaType}
    (hf : ∀ x, (f x).enum = x.enum) : (onlyIf cond f js).enum = js.enum := by
  unfold onlyIf
  split
  · exact hf js
  · rfl

/-- An allow-list is the last rule that writes `enum`. -/
theorem applyStringRules_enum_of_in {sr : StringRules} (js : SchemaType) {values : List String}
    (hin : sr.in_ = some values) : (applyStringRules sr js).enum = values.map EnumEntry.str := by
  unfold applyStringRules
  cases hn : sr.notIn <;> simp [hin, onlyIfNotNil, onlyIf_enum]

/-- The switch on a string field with string rules, null values disabled. -/
theorem switchType_string_rules (c : Converter) (desc : FieldDescriptorProto) (msg : DescriptorProto)
    {r : FieldRules} {sr : StringRules} (js : SchemaType) (hN : c.AllowNullValues = false)
    (hty : desc.type = TYPE_STRING ∨ desc.type = TYPE_BYTES) (hsr : r.string_ = some sr) :
    switchType c desc msg (some r) js
      = .returned (.ok (applyStringRules sr { js with type := "string" })) := by
  have h1 : ¬ (desc.type = TYPE_DOUBLE ∨ desc.type = TYPE_FLOAT) := by
    rcases hty with h | h <;> rw [h] <;> decide
  have h2 : ¬ (desc.type = TYPE_INT32 ∨ desc.type = TYPE_UINT32 ∨ desc.type = TYPE_FIXED32
      ∨ desc.type = TYPE_SFIXED32 ∨ desc.type = TYPE_SINT32) := by
    rcases hty with h | h <;> rw [h] <;> decide
  have h3 : ¬ (desc.type = TYPE_INT64 ∨ desc.type = TYPE_UINT64 ∨ desc.type = TYPE_FIXED64
      ∨ desc.type = TYPE_SFIXED64 ∨ desc.type = TYPE_SINT64) := by
    rcases hty with h | h <;> rw [h] <;> decide
  unfold switchType
  rw [if_neg h1, if_neg h2, if_neg h3, if_pos hty]
  simp [hN, hsr]

theorem repeatedPrimitive_type (c : Converter) (js : SchemaType)
    (hN : c.AllowNullValues = false) : (repeatedPrimitive c js).type = "array" := by
  rw [repeatedPrimitive_eq]
  simp [hN]

theorem repeatedPrimitive_items_of_enum (c : Converter) (js : SchemaType)
    (hlen : js.enum.length > 0) :
    (repeatedPrimitive c js).items = some { SchemaType.zero with enum := js.enum } := by
  rw [repeatedPrimitive_eq]
  simp only [hlen, if_true]

/-- C4, as amended: for every repeated string field with a non-empty allow-list
constraint, converted with null values disabled, `convertField` returns a node of type
array whose items schema has an enum equal to the allow-list in its given order and
no type of its own: the items node has its primitive type unset and no `oneOf`. -/
theorem C4_repeated_string_allow_list (c : Converter) (fuel : Nat) (desc : FieldDescriptorProto)
    (msg : DescriptorProto) (r : FieldRules) (sr : StringRules) (values : List String)
    (hnull : c.AllowNullValues = false) (hty : desc.type = TYPE_STRING)
    (hlab : desc.label = LABEL_REPEATED) (hopt : desc.options = some (RulesExtension.rules r))
    (hsr : r.string_ = some sr) (hin : sr.in_ = some values) (hne : values ≠ []) :
    ∃ t req items, convertField c fuel desc msg = .returned (some t, req, none) ∧
      t.type = "array" ∧ t.items = some items ∧
      items.enum = values.map EnumEntry.str ∧ items.type = "" ∧ items.oneOf = [] := by
  have hv : getValidationRules desc = .ok (some r) := by
    unfold getValidationRules; rw [hopt]
  have hsw := switchType_string_rules c desc msg (fieldNode c desc) hnull
    (Or.inl hty) hsr
  have hframe := applyStringRules_frame sr { fieldNode c desc with type := "string" }
  have henum := applyStringRules_enum_of_in { fieldNode c desc with type := "string" } hin
  have hobj : (applyStringRules sr { fieldNode c desc with type := "string" }).type ≠ "object" := by
    rcases hframe.typeOneOf with ⟨h, _⟩ | ⟨h, _⟩
    · rw [h]; show ("string" : String) ≠ "object"; decide
    · rw [h]; decide
  have hlen : (applyStringRules sr { fieldNode c desc with type := "string" }).enum.length > 0 := by
    rw [henum, List.length_map]
    exact List.length_pos.mpr hne
  refine ⟨repeatedPrimitive c (applyStringRules sr { fieldNode c desc with type := "string" }),
    requiredFlag (some r), { SchemaType.zero with enum := values.map EnumEntry.str }, ?_, ?_, ?_,
    rfl, rfl, rfl⟩
  · unfold convertField convertFieldBody
    simp only [hv, hsw]
    rw [if_pos ⟨hlab, hobj⟩]
  · exact repeatedPrimitive_type c _ hnull
  · rw [repeatedPrimitive_items_of_enum c _ hlen, henum]

/-- C4 at `colorsField`, the allow-list `["RED", "GREEN"]`: the items hold the enum and
no type. -/
theorem C4_repeated_string_allow_list_witness :
    ∃ t req items, convertField defaultConverter 0 colorsField paletteMessage
        = .returned (some t, req, none) ∧
      t.type = "array" ∧ t.items = some items ∧
      items.enum = [EnumEntry.str "RED", EnumEntry.str "GREEN"] ∧ items.type = "" ∧
      items.oneOf = [] :=
  C4_repeated_string_allow_list defaultConverter 0 colorsField paletteMessage _ _
    ["RED", "GREEN"] rfl rfl rfl rfl rfl rfl (by decide)

/-- C4 fails as stated: for the allow-list `["RED", "GREEN"]` the items schema of the
returned array does not have type string. -/
theorem C4_items_have_no_type :
    ¬ ∃ t req items, convertField defaultConverter 0 colorsField paletteMessage
        = .returned (some t, req, none) ∧
      t.type = "array" ∧ t.items = some items ∧ items.type = "string" ∧
      items.enum = [EnumEntry.str "RED", EnumEntry.str "GREEN"] := by
  rintro ⟨t, req, items, h, _, hi, hty, _⟩
  have h0 : convertField defaultConverter 0 colorsField paletteMessage
      = .returned (some { SchemaType.zero with
          type := "array",
          items := some { SchemaType.zero with
            enum := [EnumEntry.str "RED", EnumEntry.str "GREEN"] } }, false, none) := rfl
  rw [h0] at h
  simp only [Outcome.returned.injEq, Prod.mk.injEq, Option.some.injEq] at h
  rw [← h.1] at hi
  simp only [Option.some.injEq] at hi
  rw [← hi] at hty
  exact absurd hty (by decide)

/-! ## Message-typed fields: maps and nested objects -/

/-- Inversion of a successful `convertField` on a field of kind message or group. -/
theorem convertField_message_ok {c : Converter} {fuel : Nat} {desc : FieldDescriptorProto}
    {msg : DescriptorProto} {t : SchemaType} {req : Bool} (hk : isMessageKind desc)
    (h : convertField c fuel desc msg = .returned (some t, req, none)) :
    ∃ ap recordType recursed,
      (desc.label = LABEL_OPTIONAL → ap = RawMessage.literal "true") ∧
      (desc.label = LABEL_REQUIRED → ap = RawMessage.literal "false") ∧
      c.lookupType desc.typeName = some recordType ∧
      convertMessageType c fuel recordType = .returned (recursed, none) ∧
      ((recordType.getMapEntry = true ∧ msg.name ≠ none ∧
          ∃ value, getProperty recursed.properties "value" = some value ∧
            t = wrapNull c { fieldNode c desc with
              type := "object", additionalProperties := RawMessage.marshal value }) ∨
       (recordType.getMapEntry = false ∧ desc.label = LABEL_REPEATED ∧
          t = wrapNull c { fieldNode c desc with
            type := "array", additionalProperties := ap, items := some recursed }) ∨
       (recordType.getMapEntry = false ∧ desc.label ≠ LABEL_REPEATED ∧
          t = wrapNull c { fieldNode c desc with
            type := "object", additionalProperties := ap, properties := recursed.properties })) := by
  obtain ⟨_, vr, js0, _, _, hs, hcase⟩ := convertFieldBody_ok h
  obtain ⟨ap, hsw, hopt, hreq, _⟩ :=
    switchType_message c desc msg vr (fieldNode c desc) hk
  rw [hsw] at hs
  simp only [Outcome.returned.injEq, Except.ok.injEq] at hs
  subst hs
  rcases hcase with ⟨_, hne, _⟩ | ⟨_, hobj⟩ | ⟨_, hne, _⟩
  · exact absurd rfl hne
  · obtain ⟨_, _, recordType, recursed, hl, hcm, hshape⟩ := convertObject_ok hobj
    refine ⟨ap, recordType, recursed, hopt, hreq, hl, hcm, ?_⟩
    rcases hshape with ⟨h1, h2, value, h3, h4⟩ | ⟨h1, h2, h3⟩ | ⟨h1, h2, h3⟩
    · exact Or.inl ⟨h1, h2, value, h3, h4⟩
    · exact Or.inr (Or.inl ⟨h1, h2, h3⟩)
    · exact Or.inr (Or.inr ⟨h1, h2, h3⟩)
  · exact absurd rfl hne

theorem wrapNull_additionalProperties (c : Converter) (js : SchemaType) :
    (wrapNull c js).additionalProperties = js.additionalProperties := by
  unfold wrapNull; cases c.AllowNullValues <;> rfl

theorem wrapNull_properties (c : Converter) (js : SchemaType) :
    (wrapNull c js).properties = js.properties := by
  unfold wrapNull; cases c.AllowNullValues <;> rfl

theorem wrapNull_of_not_null (c : Converter) (js : SchemaType) (hN : c.AllowNullValues = false) :
    wrapNull c js = js := by
  unfold wrapNull; rw [hN]; rfl

theorem fieldNode_properties (c : Converter) (desc : FieldDescriptorProto) :
    (fieldNode c desc).properties = [] := by
  obtain ⟨d, hd⟩ := fieldNode_eq c desc
  rw [hd]
  rfl

theorem getProperty_setProperty_same (key : String) (v : SchemaType) :
    ∀ (props : List (String × SchemaType)), getProperty (setProperty props key v) key = some v
  | [] => by simp [setProperty, getProperty]
  | (k, w) :: rest => by
    unfold setProperty
    by_cases hk : k = key
    · simp [hk, getProperty]
    · simp only [hk, if_false, getProperty]
      exact getProperty_setProperty_same key v rest

/-- One round of the field loop that ends without error. -/
theorem convertFields_cons_ok {convert : FieldDescriptorProto → Outcome FieldResult}
    {f : FieldDescriptorProto} {rest : List FieldDescriptorProto} {js t : SchemaType}
    (h : convertFields convert (f :: rest) js = .returned (t, none)) :
    ∃ r req js', convert f = .returned (some r, req, none) ∧
      js'.properties = setProperty js.properties f.jsonName r ∧
      convertFields convert rest js' = .returned (t, none) := by
  cases hf : convert f with
  | crashed => simp [convertFields, hf] at h
  | outOfFuel => simp [convertFields, hf] at h
  | returned a =>
    obtain ⟨n, req, e⟩ := a
    cases n with
    | none => simp [convertFields, hf] at h
    | some r =>
      cases e with
      | some err => simp [convertFields, hf] at h
      | none =>
        simp only [convertFields, hf] at h
        refine ⟨r, req, _, rfl, ?_, h⟩
        cases req <;> rfl

/-- The switch on an `int32` field, null values disabled. -/
theorem switchType_int32 {c : Converter} {desc : FieldDescriptorProto} {msg : DescriptorProto}
    {vr : Option FieldRules} {js : SchemaType} (hN : c.AllowNullValues = false)
    (hty : desc.type = TYPE_INT32) :
    switchType c desc msg vr js = .returned (.ok { js with type := "integer" }) := by
  unfold switchType
  rw [if_neg (by rw [hty]; decide), if_pos (Or.inl hty), hN]
  rfl

/-- C5: for every field whose resolved message type carries the map-entry marker and
whose conversion succeeds, the `additionalProperties` of the field's node is the
marshalled schema of the `value` property of the converted entry message and the
node's own properties map is empty (it holds neither `key` nor `value`); with null
values disabled the node has type object, and when the entry message is the pair of a
key field and an `int32` field `value` the marshalled schema is that of the `int32`
field: type integer, besides the description of the field if it has a comment. -/
theorem C5_map_entry_additional_properties (c : Converter) (fuel : Nat)
    (desc : FieldDescriptorProto) (msg recordType : DescriptorProto) (t : SchemaType) (req : Bool)
    (hk : isMessageKind desc) (hl : c.lookupType desc.typeName = some recordType)
    (hme : recordType.getMapEntry = true)
    (h : convertField c fuel desc msg = .returned (some t, req, none)) :
    (∃ entry value, convertMessageType c fuel recordType = .returned (entry, none) ∧
        getProperty entry.properties "value" = some value ∧
        t.additionalProperties = RawMessage.marshal value) ∧
    t.properties = [] ∧
    (c.AllowNullValues = false →
      t.type = "object" ∧
      ∀ keyField valueField, recordType.field = [keyField, valueField] →
        valueField.jsonName = "value" → valueField.type = TYPE_INT32 →
        valueField.label ≠ LABEL_REPEATED →
        t.additionalProperties
          = RawMessage.marshal { fieldNode c valueField with type := "integer" }) := by
  obtain ⟨ap, recordType', recursed, _, _, hl', hcm, hshape⟩ := convertField_message_ok hk h
  rw [hl] at hl'
  cases hl'
  rcases hshape with ⟨_, _, value, hval, rfl⟩ | ⟨hme', _⟩ | ⟨hme', _⟩
  · refine ⟨⟨recursed, value, hcm, hval, ?_⟩, ?_, ?_⟩
    · rw [wrapNull_additionalProperties]
    · rw [wrapNull_properties]; exact fieldNode_properties c desc
    · intro hN
      rw [wrapNull_of_not_null c _ hN]
      refine ⟨rfl, ?_⟩
      intro keyField valueField hfields hname hty hlab
      show RawMessage.marshal value = _
      congr 1
      cases fuel with
      | zero => simp [convertMessageType] at hcm
      | succ n =>
        simp only [convertMessageType, hfields] at hcm
        obtain ⟨kn, kreq, js1, _, _, hrest⟩ := convertFields_cons_ok hcm
        obtain ⟨vn, vreq, js2, hvconv, hprops, hnil⟩ := convertFields_cons_ok hrest
        simp only [convertFields, Outcome.returned.injEq, Prod.mk.injEq, and_true] at hnil
        subst hnil
        rw [hprops, hname, getProperty_setProperty_same] at hval
        cases hval
        obtain ⟨_, vr, js0, _, _, hs, hcase⟩ := convertFieldBody_ok hvconv
        rw [switchType_int32 hN hty] at hs
        simp only [Outcome.returned.injEq, Except.ok.injEq] at hs
        subst hs
        rcases hcase with ⟨hrep, _⟩ | ⟨hobj, _⟩ | ⟨_, _, rfl⟩
        · exact absurd hrep hlab
        · exact absurd hobj (show ("integer" : String) ≠ "object" by decide)
        · rfl
  · rw [hme] at hme'; cases hme'
  · rw [hme] at hme'; cases hme'

/-- C5 at the field `map<string, int32> counts` of `orderMessage`, null values
disabled: type object, no properties, `additionalProperties` the schema
`{type: integer}`. -/
theorem C5_map_entry_additional_properties_witness :
    ∃ t, convertField (shopConverter false false) 1 countsField orderMessage
        = .returned (some t, false, none) ∧
      t.type = "object" ∧ t.properties = [] ∧
      t.additionalProperties = RawMessage.marshal (SchemaType.ofType "integer") :=
  have h := C5_map_entry_additional_properties (shopConverter false false) 1 countsField
    orderMessage countsEntry _ false (Or.inr rfl) rfl rfl rfl
  ⟨_, rfl, (h.2.2 rfl).1, h.2.1, (h.2.2 rfl).2 _ _ rfl rfl rfl (by decide)⟩

/-- C6, as amended: for every singular (non-repeated, non-map) message-typed field
whose constraints mark it required, converted with null values disabled (with
`DisallowAdditionalProperties` enabled or not), the node `convertField` returns has
type object and its `additionalProperties` follows the label of the field, `false`
for a proto2 `required` field and `true` for an `optional` one; the field is
reported required and its JSON name is in the required list of every successfully
converted message that declares it. -/
theorem C6_required_message_field (c : Converter) (fuel : Nat) (desc : FieldDescriptorProto)
    (msg recordType : DescriptorProto) (t : SchemaType) (req : Bool)
    (hk : isMessageKind desc) (hlab : desc.label ≠ LABEL_REPEATED)
    (hl : c.lookupType desc.typeName = some recordType) (hme : recordType.getMapEntry = false)
    (hreq : markedRequired desc = true) (hnull : c.AllowNullValues = false)
    (h : convertField c fuel desc msg = .returned (some t, req, none)) :
    t.type = "object" ∧
    (desc.label = LABEL_REQUIRED → t.additionalProperties = RawMessage.literal "false") ∧
    (desc.label = LABEL_OPTIONAL → t.additionalProperties = RawMessage.literal "true") ∧
    req = true ∧
    ∀ (fuel' : Nat) (parent : DescriptorProto) (pt : SchemaType), desc ∈ parent.field →
      convertMessageType c fuel' parent = .returned (pt, none) → desc.jsonName ∈ pt.required := by
  have hreq' : req = true := by rw [convertFieldBody_required h, hreq]
  obtain ⟨ap, recordType', recursed, hopt, hrq, hl', _, hshape⟩ := convertField_message_ok hk h
  rw [hl] at hl'
  cases hl'
  have hparent : ∀ (fuel' : Nat) (parent : DescriptorProto) (pt : SchemaType),
      desc ∈ parent.field → convertMessageType c fuel' parent = .returned (pt, none) →
      desc.jsonName ∈ pt.required := by
    intro fuel' parent pt hmem hp
    rw [convertMessageType_required hp, List.mem_map]
    exact ⟨desc, List.mem_filter.mpr ⟨hmem, hreq⟩, rfl⟩
  rcases hshape with ⟨hme', _⟩ | ⟨_, hrep, _⟩ | ⟨_, _, rfl⟩
  · rw [hme] at hme'; cases hme'
  · exact absurd hrep hlab
  · rw [wrapNull_of_not_null c _ hnull]
    exact ⟨rfl, fun h => hrq h, fun h => hopt h, hreq', hparent⟩

/-- C6 at the proto2 `required` field `item` of `cartMessage`, with
`DisallowAdditionalProperties` enabled. -/
theorem C6_required_message_field_witness :
    ∃ t pt, convertField (shopConverter false true) 1 requiredItemField cartMessage
        = .returned (some t, true, none) ∧
      t.type = "object" ∧ t.additionalProperties = RawMessage.literal "false" ∧
      convertMessageType (shopConverter false true) 2 cartMessage = .returned (pt, none) ∧
      "item" ∈ pt.required :=
  have h := C6_required_message_field (shopConverter false true) 1 requiredItemField cartMessage
    itemMessage _ true (Or.inr rfl) (by decide) rfl rfl rfl rfl rfl
  ⟨_, _, rfl, h.1, h.2.1 rfl, rfl,
    h.2.2.2.2 2 cartMessage _ (List.mem_singleton.mpr rfl) rfl⟩

/-- C6 fails as stated: the field `item` of `orderMessage` is singular, message-typed
and marked required by its constraints, and with `DisallowAdditionalProperties`
enabled and null values disabled its node has `additionalProperties` true, not
false, because its label is `optional`. -/
theorem C6_optional_label_allows_additional :
    markedRequired itemField = true ∧
    ∃ t, convertField (shopConverter false true) 1 itemField orderMessage
        = .returned (some t, true, none) ∧
      t.type = "object" ∧ t.additionalProperties = RawMessage.literal "true" :=
  ⟨rfl, _, rfl, rfl, rfl⟩

/-! ## Nested objects keep no required list -/

theorem wrapNull_required (c : Converter) (js : SchemaType) :
    (wrapNull c js).required = js.required := by
  unfold wrapNull; cases c.AllowNullValues <;> rfl

theorem fieldNode_required (c : Converter) (desc : FieldDescriptorProto) :
    (fieldNode c desc).required = [] := by
  obtain ⟨d, hd⟩ := fieldNode_eq c desc
  rw [hd]
  rfl

/-- C20: for every singular (non-repeated, non-map) message-typed field on which
`convertField` succeeds, the properties map of the returned node is the properties map
of the converted referenced message and the required list of the returned node is
empty, whatever the required list of the converted referenced message holds. -/
theorem C20_nested_required_not_carried (c : Converter) (fuel : Nat) (desc : FieldDescriptorProto)
    (msg recordType : DescriptorProto) (t : SchemaType) (req : Bool)
    (hk : isMessageKind desc) (hlab : desc.label ≠ LABEL_REPEATED)
    (hl : c.lookupType desc.typeName = some recordType) (hme : recordType.getMapEntry = false)
    (h : convertField c fuel desc msg = .returned (some t, req, none)) :
    ∃ recursed, convertMessageType c fuel recordType = .returned (recursed, none) ∧
      t.properties = recursed.properties ∧ t.required = [] := by
  obtain ⟨ap, recordType', recursed, _, _, hl', hcm, hshape⟩ := convertField_message_ok hk h
  rw [hl] at hl'
  cases hl'
  rcases hshape with ⟨hme', _⟩ | ⟨_, hrep, _⟩ | ⟨_, _, rfl⟩
  · rw [hme] at hme'; cases hme'
  · exact absurd hrep hlab
  · refine ⟨recursed, hcm, ?_, ?_⟩
    · rw [wrapNull_properties]
    · rw [wrapNull_required]
      exact fieldNode_required c desc

/-- C20 at the field `home` of `personMessage`: the converted `Address` lists `street`
as required, the node of the field lists nothing. -/
theorem C20_nested_required_not_carried_witness :
    ∃ t recursed, convertField (geoConverter false) 1 homeField personMessage
        = .returned (some t, false, none) ∧
      convertMessageType (geoConverter false) 1 addressMessage = .returned (recursed, none) ∧
      recursed.required = ["street"] ∧ t.properties = recursed.properties ∧ t.required = [] :=
  have h := C20_nested_required_not_carried (geoConverter false) 1 homeField personMessage
    addressMessage _ false (Or.inr rfl) (by decide) rfl rfl rfl
  match h with
  | ⟨_, _, _, hreq⟩ => ⟨_, _, rfl, rfl, rfl, rfl, hreq⟩

/-! ## String rules: lengths and the pattern slot -/

/-- A step that does not write the attribute `π` leaves it as it was. -/
theorem onlyIf_keep {α : Type} (π : SchemaType → α) {cond : Prop} [Decidable cond]
    {f : SchemaType → SchemaType} {js : SchemaType} (hf : ∀ x, π (f x) = π x) :
    π (onlyIf cond f js) = π js := by
  unfold onlyIf
  split
  · exact hf js
  · rfl

/-- A step that writes the value `v` to the attribute `π`. -/
theorem onlyIf_set {α : Type} (π : SchemaType → α) (v : α) {cond : Prop} [Decidable cond]
    {f : SchemaType → SchemaType} {js : SchemaType} (hf : ∀ x, π (f x) = v) :
    π (onlyIf cond f js) = if cond then v else π js := by
  unfold onlyIf
  split
  · exact hf js
  · rfl

theorem onlyIfNotNil_keep {α : Type} (π : SchemaType → α) {values : Option (List String)}
    {f : List String → SchemaType → SchemaType} {js : SchemaType}
    (hf : ∀ vs x, π (f vs x) = π x) : π (onlyIfNotNil values f js) = π js := by
  unfold onlyIfNotNil
  cases values with
  | none => rfl
  | some vs => exact hf vs js

/-- The pattern slot after the string rules: the suffix wins over the prefix, the
prefix over the pattern. -/
theorem applyStringRules_pattern (sr : StringRules) (js : SchemaType) :
    (applyStringRules sr js).pattern =
      if sr.suffix ≠ "" then ".*" ++ sr.suffix ++ "$"
      else if sr.prefix_ ≠ "" then "^" ++ sr.prefix_ ++ ".*"
      else if sr.pattern ≠ "" then sr.pattern
      else js.pattern := by
  unfold applyStringRules
  simp only [onlyIf_keep SchemaType.pattern, onlyIfNotNil_keep SchemaType.pattern,
    onlyIf_set SchemaType.pattern (".*" ++ sr.suffix ++ "$"),
    onlyIf_set SchemaType.pattern ("^" ++ sr.prefix_ ++ ".*"),
    onlyIf_set SchemaType.pattern sr.pattern, implies_true]

theorem applyStringRules_minLength (sr : StringRules) (js : SchemaType) :
    (applyStringRules sr js).minLength =
      if sr.len > 0 then intOfUint64 sr.len
      else if sr.minLen ≠ 0 then intOfUint64 sr.minLen
      else js.minLength := by
  unfold applyStringRules
  simp only [onlyIf_keep SchemaType.minLength, onlyIfNotNil_keep SchemaType.minLength,
    onlyIf_set SchemaType.minLength (intOfUint64 sr.len),
    onlyIf_set SchemaType.minLength (intOfUint64 sr.minLen), implies_true]

theorem applyStringRules_maxLength (sr : StringRules) (js : SchemaType) :
    (applyStringRules sr js).maxLength =
      if sr.len > 0 then intOfUint64 sr.len
      else if sr.maxLen ≠ 0 then intOfUint64 sr.maxLen
      else js.maxLength := by
  unfold applyStringRules
  simp only [onlyIf_keep SchemaType.maxLength, onlyIfNotNil_keep SchemaType.maxLength,
    onlyIf_set SchemaType.maxLength (intOfUint64 sr.len),
    onlyIf_set SchemaType.maxLength (intOfUint64 sr.maxLen), implies_true]

theorem applyStringRules_none (js : SchemaType) : applyStringRules {} js = js := rfl

/-- The string rules the switch reads are the string constraint bundle of the field. -/
theorem stringConstraints_eq {desc : FieldDescriptorProto} {vr : Option FieldRules}
    (hv : getValidationRules desc = .ok vr) :
    stringConstraints desc = (vr.bind (fun r => r.string_)).getD {} := by
  unfold getValidationRules at hv
  unfold stringConstraints
  cases ho : desc.options with
  | none => rw [ho] at hv; cases hv; rfl
  | some ext =>
    rw [ho] at hv
    cases ext with
    | missing => cases hv; rfl
    | failed err => cases hv
    | otherValue => cases hv; rfl
    | rules r => cases hv; rfl

/-- The switch on a string or bytes field. -/
theorem switchType_string (c : Converter) (desc : FieldDescriptorProto) (msg : DescriptorProto)
    (vr : Option FieldRules) (js : SchemaType)
    (hty : desc.type = TYPE_STRING ∨ desc.type = TYPE_BYTES) :
    switchType c desc msg vr js = .returned (.ok
      (if c.AllowNullValues then
        { js with oneOf := [SchemaType.ofType "null", SchemaType.ofType "string"] }
      else applyStringRules ((vr.bind (fun r => r.string_)).getD {}) { js with type := "string" })) := by
  have h1 : ¬ (desc.type = TYPE_DOUBLE ∨ desc.type = TYPE_FLOAT) := by
    rcases hty with h | h <;> rw [h] <;> decide
  have h2 : ¬ (desc.type = TYPE_INT32 ∨ desc.type = TYPE_UINT32 ∨ desc.type = TYPE_FIXED32
      ∨ desc.type = TYPE_SFIXED32 ∨ desc.type = TYPE_SINT32) := by
    rcases hty with h | h <;> rw [h] <;> decide
  have h3 : ¬ (desc.type = TYPE_INT64 ∨ desc.type = TYPE_UINT64 ∨ desc.type = TYPE_FIXED64
      ∨ desc.type = TYPE_SFIXED64 ∨ desc.type = TYPE_SINT64) := by
    rcases hty with h | h <;> rw [h] <;> decide
  unfold switchType
  rw [if_neg h1, if_neg h2, if_neg h3, if_pos hty]
  cases hN : c.AllowNullValues
  · cases hsr : vr.bind (fun r => r.string_) with
    | none => simp [applyStringRules_none]
    | some sr => simp
  · simp

/-- Inversion of a successful `convertField` on a string or bytes field: the node is
the base node of the switch, or the array around it when the field is repeated. -/
theorem convertField_string_ok {c : Converter} {fuel : Nat} {desc : FieldDescriptorProto}
    {msg : DescriptorProto} {t : SchemaType} {req : Bool}
    (hty : desc.type = TYPE_STRING ∨ desc.type = TYPE_BYTES)
    (h : convertField c fuel desc msg = .returned (some t, req, none)) :
    ∃ js0, js0 = (if c.AllowNullValues then
          { fieldNode c desc with oneOf := [SchemaType.ofType "null", SchemaType.ofType "string"] }
        else applyStringRules (stringConstraints desc) { fieldNode c desc with type := "string" }) ∧
      ((desc.label ≠ LABEL_REPEATED ∧ t = js0) ∨
       (desc.label = LABEL_REPEATED ∧ t = repeatedPrimitive c js0)) := by
  obtain ⟨_, vr, js0, hv, _, hs, hcase⟩ := convertFieldBody_ok h
  rw [switchType_string c desc msg vr _ hty, ← stringConstraints_eq hv] at hs
  simp only [Outcome.returned.injEq, Except.ok.injEq] at hs
  refine ⟨js0, hs.symm, ?_⟩
  have hb := switchType_base (by rw [switchType_string c desc msg vr _ hty, ← stringConstraints_eq hv, hs] :
    switchType c desc msg vr (fieldNode c desc) = .returned (.ok js0))
  rcases hcase with ⟨hrep, _, ht⟩ | ⟨hobj, _⟩ | ⟨hlab, _, ht⟩
  · exact Or.inr ⟨hrep, ht⟩
  · exfalso
    cases hN : c.AllowNullValues with
    | true =>
      rcases hb.nullable hN with ⟨_, ho⟩ | ⟨hty', _⟩
      · rw [hN] at hs
        simp only [if_true] at hs
        rw [← hs] at ho
        cases ho
      · rw [hty'] at hobj; exact absurd hobj (by decide)
    | false =>
      rw [hN] at hs
      simp only [Bool.false_eq_true, if_false] at hs
      have hf := applyStringRules_frame (stringConstraints desc)
        { fieldNode c desc with type := "string" }
      rw [hs] at hf
      rcases hf.typeOneOf with ⟨h', _⟩ | ⟨h', _⟩
      · rw [hobj] at h'; exact absurd h' (show ("object" : String) ≠ "string" by decide)
      · rw [hobj] at h'; exact absurd h' (by decide)
  · exact Or.inl ⟨hlab, ht⟩

/-- The array around a base node keeps the string keywords of the base node. -/
theorem repeatedPrimitive_keywords (c : Converter) (js : SchemaType) :
    (repeatedPrimitive c js).pattern = js.pattern ∧
    (repeatedPrimitive c js).minLength = js.minLength ∧
    (repeatedPrimitive c js).maxLength = js.maxLength ∧
    (repeatedPrimitive c js).format = js.format ∧
    (repeatedPrimitive c js).not_ = js.not_ := by
  rw [repeatedPrimitive_eq]
  exact ⟨rfl, rfl, rfl, rfl, rfl⟩

theorem fieldNode_pattern (c : Converter) (desc : FieldDescriptorProto) :
    (fieldNode c desc).pattern = "" := by
  obtain ⟨d, hd⟩ := fieldNode_eq c desc
  rw [hd]
  rfl

/-- C17: for every string or bytes field converted with null values disabled, the
pattern slot of the result is `".*" + suffix + "$"` when the suffix constraint is
non-empty, otherwise `"^" + prefix + ".*"` when the prefix constraint is non-empty,
otherwise the pattern constraint (empty when none is set); in particular a prefix set
together with a pattern, and no suffix, gives the prefix-derived pattern. -/
theorem C17_pattern_slot (c : Converter) (fuel : Nat) (desc : FieldDescriptorProto)
    (msg : DescriptorProto) (t : SchemaType) (req : Bool) (hnull : c.AllowNullValues = false)
    (hty : desc.type = TYPE_STRING ∨ desc.type = TYPE_BYTES)
    (h : convertField c fuel desc msg = .returned (some t, req, none)) :
    t.pattern =
      (if (stringConstraints desc).suffix ≠ "" then ".*" ++ (stringConstraints desc).suffix ++ "$"
       else if (stringConstraints desc).prefix_ ≠ "" then
         "^" ++ (stringConstraints desc).prefix_ ++ ".*"
       else (stringConstraints desc).pattern) ∧
    ((stringConstraints desc).suffix = "" → (stringConstraints desc).prefix_ ≠ "" →
      t.pattern = "^" ++ (stringConstraints desc).prefix_ ++ ".*") := by
  obtain ⟨js0, hjs, hcase⟩ := convertField_string_ok hty h
  rw [hnull] at hjs
  simp only [Bool.false_eq_true, if_false] at hjs
  have hp : t.pattern = js0.pattern := by
    rcases hcase with ⟨_, rfl⟩ | ⟨_, rfl⟩
    · rfl
    · exact (repeatedPrimitive_keywords c js0).1
  have hmain : t.pattern =
      (if (stringConstraints desc).suffix ≠ "" then ".*" ++ (stringConstraints desc).suffix ++ "$"
       else if (stringConstraints desc).prefix_ ≠ "" then
         "^" ++ (stringConstraints desc).prefix_ ++ ".*"
       else (stringConstraints desc).pattern) := by
    rw [hp, hjs, applyStringRules_pattern]
    show _ = _
    by_cases h1 : (stringConstraints desc).suffix = ""
    · by_cases h2 : (stringConstraints desc).prefix_ = ""
      · by_cases h3 : (stringConstraints desc).pattern = ""
        · simp only [h1, h2, h3, ne_eq, not_true_eq_false, if_false]
          exact fieldNode_pattern c desc
        · simp only [h1, h2, h3, ne_eq, not_true_eq_false, not_false_eq_true, if_false, if_true]
      · simp only [h1, h2, ne_eq, not_true_eq_false, not_false_eq_true, if_false, if_true]
    · simp only [h1, ne_eq, not_false_eq_true, if_true]
  refine ⟨hmain, ?_⟩
  intro h1 h2
  rw [hmain]
  simp only [h1, h2, ne_eq, not_true_eq_false, not_false_eq_true, if_false, if_true]

/-- C17 at `codeField`, pattern `[a-z]+` with prefix `ab`: the prefix-derived pattern
is in the slot. -/
theorem C17_pattern_slot_witness :
    ∃ t, convertField defaultConverter 0 codeField loginMessage = .returned (some t, false, none) ∧
      t.pattern = "^ab.*" :=
  ⟨_, rfl, (C17_pattern_slot defaultConverter 0 codeField loginMessage _ false rfl
    (Or.inl rfl) rfl).1⟩

/-- Go `int(u)` is `u` itself for a `uint64` below `2 ^ 63`. -/
theorem intOfUint64_of_lt {u : Nat} (h : u < 2 ^ 63) : intOfUint64 u = (u : Int) := by
  have hmod : u % 2 ^ 64 = u := Nat.mod_eq_of_lt (by omega)
  unfold intOfUint64
  rw [hmod, if_pos h]

/-- C12, as amended: for every string or bytes field converted with null values
disabled whose string constraints carry a non-zero exact length `L`, the result has
`minLength = maxLength = int(L)`, the Go conversion of the `uint64` `L` to `int`,
whatever separate minimum and maximum length constraints are also present; `int(L)`
is `L` itself when `L < 2 ^ 63`. -/
theorem C12_exact_length (c : Converter) (fuel : Nat) (desc : FieldDescriptorProto)
    (msg : DescriptorProto) (t : SchemaType) (req : Bool) (hnull : c.AllowNullValues = false)
    (hty : desc.type = TYPE_STRING ∨ desc.type = TYPE_BYTES)
    (hlen : 0 < (stringConstraints desc).len)
    (h : convertField c fuel desc msg = .returned (some t, req, none)) :
    t.minLength = intOfUint64 (stringConstraints desc).len ∧
    t.maxLength = intOfUint64 (stringConstraints desc).len ∧
    ((stringConstraints desc).len < 2 ^ 63 →
      t.minLength = ((stringConstraints desc).len : Int) ∧
      t.maxLength = ((stringConstraints desc).len : Int)) := by
  obtain ⟨js0, hjs, hcase⟩ := convertField_string_ok hty h
  rw [hnull] at hjs
  simp only [Bool.false_eq_true, if_false] at hjs
  have hmin : t.minLength = js0.minLength := by
    rcases hcase with ⟨_, rfl⟩ | ⟨_, rfl⟩
    · rfl
    · exact (repeatedPrimitive_keywords c js0).2.1
  have hmax : t.maxLength = js0.maxLength := by
    rcases hcase with ⟨_, rfl⟩ | ⟨_, rfl⟩
    · rfl
    · exact (repeatedPrimitive_keywords c js0).2.2.1
  have h1 : t.minLength = intOfUint64 (stringConstraints desc).len := by
    rw [hmin, hjs, applyStringRules_minLength, if_pos hlen]
  have h2 : t.maxLength = intOfUint64 (stringConstraints desc).len := by
    rw [hmax, hjs, applyStringRules_maxLength, if_pos hlen]
  refine ⟨h1, h2, fun hlt => ?_⟩
  rw [h1, h2, intOfUint64_of_lt hlt]
  exact ⟨rfl, rfl⟩

/-- C12 at `pinField`, exact length 4 beside a minimum of 1 and a maximum of 9. -/
theorem C12_exact_length_witness :
    ∃ t, convertField defaultConverter 0 pinField loginMessage = .returned (some t, false, none) ∧
      t.minLength = 4 ∧ t.maxLength = 4 :=
  ⟨_, rfl, (C12_exact_length defaultConverter 0 pinField loginMessage _ false rfl (Or.inl rfl)
    (by decide) rfl).2.2 (by decide)⟩

/-- C12 fails as stated: for the exact length `L = 2 ^ 63` the result has
`minLength = maxLength = -2 ^ 63`, not `L`. -/
theorem C12_huge_length_wraps :
    (stringConstraints hugeLenField).len = 9223372036854775808 ∧
    ∃ t, convertField defaultConverter 0 hugeLenField loginMessage
        = .returned (some t, false, none) ∧
      t.minLength = -9223372036854775808 ∧ t.maxLength = -9223372036854775808 :=
  ⟨rfl, _, rfl, by decide, by decide⟩

/-! ## Strings and arrays under `AllowNullValues` -/

/-- What `convertField` returns for a string or bytes field with `AllowNullValues`
enabled: the string rules are not read. -/
theorem convertField_string_null (c : Converter) (fuel : Nat) (desc : FieldDescriptorProto)
    (msg : DescriptorProto) (vr : Option FieldRules) (hN : c.AllowNullValues = true)
    (hty : desc.type = TYPE_STRING ∨ desc.type = TYPE_BYTES)
    (hv : getValidationRules desc = .ok vr) :
    convertField c fuel desc msg = .returned
      (some (if desc.label = LABEL_REPEATED then
          repeatedPrimitive c { fieldNode c desc with
            oneOf := [SchemaType.ofType "null", SchemaType.ofType "string"] }
        else { fieldNode c desc with
            oneOf := [SchemaType.ofType "null", SchemaType.ofType "string"] }),
        requiredFlag vr, none) := by
  have hne : (fieldNode c desc).type ≠ "object" := by rw [fieldNode_type]; decide
  unfold convertField convertFieldBody
  simp only [hv, switchType_string c desc msg vr _ hty, hN, if_true]
  by_cases hlab : desc.label = LABEL_REPEATED
  · rw [if_pos ⟨hlab, hne⟩, if_pos hlab]
  · rw [if_neg (fun h => hlab h.1), if_neg hne, if_neg hlab]

/-- C18, as amended: with `AllowNullValues` enabled, the node `convertField` returns
for a string or bytes field does not depend on the field's string constraints: two
fields with the same source comments that differ only in their string constraint
bundle yield the same result, a node with no length, pattern, format, enum or not
keywords, which is `oneOf[null, string]` for a non-repeated field and
`oneOf[null, array]` with items `oneOf[null, string]` for a repeated one. -/
theorem C18_null_string_ignores_constraints (c : Converter) (fuel : Nat)
    (d1 d2 : FieldDescriptorProto) (msg : DescriptorProto) (r : FieldRules)
    (s2 : Option StringRules) (hnull : c.AllowNullValues = true)
    (hty : d1.type = TYPE_STRING ∨ d1.type = TYPE_BYTES)
    (hopt : d1.options = some (RulesExtension.rules r))
    (hd2 : d2 = { d1 with options := some (RulesExtension.rules { r with string_ := s2 }) })
    (hsrc : c.sourceInfoGetField d2 = c.sourceInfoGetField d1) :
    convertField c fuel d2 msg = convertField c fuel d1 msg ∧
    ∃ t req, convertField c fuel d1 msg = .returned (some t, req, none) ∧
      t.minLength = 0 ∧ t.maxLength = 0 ∧ t.pattern = "" ∧ t.format = "" ∧ t.enum = [] ∧
      t.not_ = none ∧ t.type = "" ∧
      (d1.label ≠ LABEL_REPEATED →
        t.oneOf = [SchemaType.ofType "null", SchemaType.ofType "string"] ∧ t.items = none) ∧
      (d1.label = LABEL_REPEATED →
        t.oneOf = [SchemaType.ofType "null", SchemaType.ofType "array"] ∧
        t.items = some { SchemaType.zero with
          oneOf := [SchemaType.ofType "null", SchemaType.ofType "string"] }) := by
  have hv1 : getValidationRules d1 = .ok (some r) := by
    unfold getValidationRules; rw [hopt]
  have hv2 : getValidationRules d2 = .ok (some { r with string_ := s2 }) := by
    unfold getValidationRules; rw [hd2]
  have hty2 : d2.type = TYPE_STRING ∨ d2.type = TYPE_BYTES := by rw [hd2]; exact hty
  have hnode : fieldNode c d2 = fieldNode c d1 := by
    unfold fieldNode; rw [hsrc]
  have hlab : d2.label = d1.label := by rw [hd2]
  have h1 := convertField_string_null c fuel d1 msg _ hnull hty hv1
  have h2 := convertField_string_null c fuel d2 msg _ hnull hty2 hv2
  rw [hnode, hlab] at h2
  obtain ⟨d, hd⟩ := fieldNode_eq c d1
  refine ⟨h2.trans h1.symm, _, _, h1, ?_⟩
  by_cases hrep : d1.label = LABEL_REPEATED
  · rw [if_pos hrep, repeatedPrimitive_eq, hd, hnull]
    exact ⟨rfl, rfl, rfl, rfl, rfl, rfl, rfl, fun h => absurd hrep h, fun _ => ⟨rfl, rfl⟩⟩
  · rw [if_neg hrep, hd]
    exact ⟨rfl, rfl, rfl, rfl, rfl, rfl, rfl, fun _ => ⟨rfl, rfl⟩, fun h => absurd h hrep⟩

/-- C18 at `codeField` and the same field without its string rules. -/
theorem C18_null_string_ignores_constraints_witness :
    convertField nullConverter 0
        { codeField with options := some (RulesExtension.rules { string_ := none }) } loginMessage
      = convertField nullConverter 0 codeField loginMessage ∧
    ∃ t, convertField nullConverter 0 codeField loginMessage = .returned (some t, false, none) ∧
      t.pattern = "" ∧ t.oneOf = [SchemaType.ofType "null", SchemaType.ofType "string"] :=
  have h := C18_null_string_ignores_constraints nullConverter 0 codeField
    { codeField with options := some (RulesExtension.rules { string_ := none }) } loginMessage
    { string_ := some { pattern := "[a-z]+", prefix_ := "ab" } } none rfl (Or.inl rfl) rfl rfl rfl
  ⟨h.1, _, rfl, rfl, rfl⟩

/-- C18 fails as stated: for the repeated string field `aliases` the node returned with
`AllowNullValues` enabled is `oneOf[null, array]`, not `oneOf[null, string]`. -/
theorem C18_repeated_string_is_array :
    ∃ t, convertField nullConverter 0 aliasesField loginMessage = .returned (some t, false, none) ∧
      t.oneOf = [SchemaType.ofType "null", SchemaType.ofType "array"] ∧
      t.items = some { SchemaType.zero with
        oneOf := [SchemaType.ofType "null", SchemaType.ofType "string"] } :=
  ⟨_, rfl, rfl, rfl⟩

/-! ## The closed switch on scalar and enum kinds -/

theorem enumValueLoop_named (typeName m e : String) :
    ∀ (values : List EnumValueDescriptorProto) (acc : List EnumEntry),
      ∃ acc', enumValueLoop typeName (some m) (some e) values acc = .returned acc' := by
  intro values
  induction values with
  | nil => intro acc; exact ⟨acc, rfl⟩
  | cons v rest ih =>
    intro acc
    simp only [enumValueLoop]
    exact ih _

/-- The loop over the enums of a message returns when the message and its enums are
named. -/
theorem enumLoop_named (typeName m : String) :
    ∀ (enums : List EnumDescriptorProto) (acc : List EnumEntry),
      (∀ e ∈ enums, e.name ≠ none) →
      ∃ acc', enumLoop typeName (some m) enums acc = .returned acc' := by
  intro enums
  induction enums with
  | nil => intro acc _; exact ⟨acc, rfl⟩
  | cons e rest ih =>
    intro acc hn
    cases hname : e.name with
    | none => exact absurd hname (hn e (List.mem_cons_self _ _))
    | some en =>
      obtain ⟨acc1, h1⟩ := enumValueLoop_named typeName m en e.value acc
      obtain ⟨acc2, h2⟩ := ih acc1 (fun x hx => hn x (List.mem_cons_of_mem _ hx))
      refine ⟨acc2, ?_⟩
      simp only [enumLoop, hname, h1, h2]

theorem enumValueLoop_not_outOfFuel (typeName : String) (m e : Option String) :
    ∀ (values : List EnumValueDescriptorProto) (acc : List EnumEntry),
      enumValueLoop typeName m e values acc ≠ .outOfFuel := by
  intro values
  induction values with
  | nil => intro acc h; cases h
  | cons v rest ih =>
    intro acc h
    cases m with
    | none => simp [enumValueLoop] at h
    | some mn =>
      cases e with
      | none => simp [enumValueLoop] at h
      | some en =>
        simp only [enumValueLoop] at h
        exact ih _ h

theorem enumLoop_not_outOfFuel (typeName : String) (m : Option String) :
    ∀ (enums : List EnumDescriptorProto) (acc : List EnumEntry),
      enumLoop typeName m enums acc ≠ .outOfFuel := by
  intro enums
  induction enums with
  | nil => intro acc h; cases h
  | cons e rest ih =>
    intro acc h
    cases hv : enumValueLoop typeName m e.name e.value acc with
    | returned acc1 =>
      simp only [enumLoop, hv] at h
      exact ih _ h
    | crashed => simp [enumLoop, hv] at h
    | outOfFuel => exact enumValueLoop_not_outOfFuel _ _ _ _ _ hv

/-- The switch on an enum field. -/
theorem switchType_enum (c : Converter) (desc : FieldDescriptorProto) (msg : DescriptorProto)
    (vr : Option FieldRules) (d : String) (hty : desc.type = TYPE_ENUM) :
    switchType c desc msg vr { SchemaType.zero with description := d } =
      match enumLoop desc.typeName msg.name msg.enumType [] with
      | .returned values => .returned (.ok { SchemaType.zero with
          description := d,
          oneOf := [SchemaType.ofType "string", SchemaType.ofType "integer"]
            ++ (if c.AllowNullValues then [SchemaType.ofType "null"] else []),
          enum := values })
      | .crashed => .crashed
      | .outOfFuel => .outOfFuel := by
  unfold switchType
  rw [if_neg (by rw [hty]; decide), if_neg (by rw [hty]; decide), if_neg (by rw [hty]; decide),
    if_neg (by rw [hty]; decide), if_pos hty]
  cases c.AllowNullValues <;> rfl

/-- The switch on a field that is not of kind message or group: a node whose type is
not `object` for a kind of the closed set, the crash of the enum loop, or the error
that names the raw kind. -/
theorem switchType_scalar (c : Converter) (desc : FieldDescriptorProto) (msg : DescriptorProto)
    (vr : Option FieldRules) (hk : ¬ isMessageKind desc) :
    (desc.type ∈ scalarKinds ∧
      ∃ js0, switchType c desc msg vr (fieldNode c desc) = .returned (.ok js0) ∧
        js0.type ≠ "object" ∧
        (c.AllowNullValues = true → desc.type ≠ TYPE_ENUM → js0.enum = [])) ∨
    (desc.type = TYPE_ENUM ∧ switchType c desc msg vr (fieldNode c desc) = .crashed ∧
      ∀ acc, enumLoop desc.typeName msg.name msg.enumType [] ≠ .returned acc) ∨
    (desc.type ∉ scalarKinds ∧
      switchType c desc msg vr (fieldNode c desc)
        = .returned (.error (Error.errorf ("unrecognized field type: " ++ toString desc.type)))) := by
  have hnode : (fieldNode c desc).type ≠ "object" := by rw [fieldNode_type]; decide
  have henum : (fieldNode c desc).enum = [] := by
    obtain ⟨d, hd⟩ := fieldNode_eq c desc
    rw [hd]
    rfl
  by_cases h1 : desc.type = TYPE_DOUBLE ∨ desc.type = TYPE_FLOAT
  · refine Or.inl ⟨by rcases h1 with h | h <;> rw [h] <;> decide, ?_⟩
    unfold switchType
    rw [if_pos h1]
    cases c.AllowNullValues
    · exact ⟨_, rfl, show ("number" : String) ≠ "object" by decide, fun _ _ => henum⟩
    · exact ⟨_, rfl, hnode, fun _ _ => henum⟩
  by_cases h2 : desc.type = TYPE_INT32 ∨ desc.type = TYPE_UINT32 ∨ desc.type = TYPE_FIXED32
      ∨ desc.type = TYPE_SFIXED32 ∨ desc.type = TYPE_SINT32
  · refine Or.inl ⟨by rcases h2 with h | h | h | h | h <;> rw [h] <;> decide, ?_⟩
    unfold switchType
    rw [if_neg h1, if_pos h2]
    cases c.AllowNullValues
    · exact ⟨_, rfl, show ("integer" : String) ≠ "object" by decide, fun _ _ => henum⟩
    · exact ⟨_, rfl, hnode, fun _ _ => henum⟩
  by_cases h3 : desc.type = TYPE_INT64 ∨ desc.type = TYPE_UINT64 ∨ desc.type = TYPE_FIXED64
      ∨ desc.type = TYPE_SFIXED64 ∨ desc.type = TYPE_SINT64
  · refine Or.inl ⟨by rcases h3 with h | h | h | h | h <;> rw [h] <;> decide, ?_⟩
    exact ⟨_, switchType_int64 c desc msg vr (fieldNode c desc) h3, hnode, fun _ _ => henum⟩
  by_cases h4 : desc.type = TYPE_STRING ∨ desc.type = TYPE_BYTES
  · refine Or.inl ⟨by rcases h4 with h | h <;> rw [h] <;> decide, ?_⟩
    refine ⟨_, switchType_string c desc msg vr (fieldNode c desc) h4, ?_⟩
    cases c.AllowNullValues
    · simp only [Bool.false_eq_true, if_false]
      refine ⟨?_, fun h => by cases h⟩
      have hf := applyStringRules_frame ((vr.bind (fun r => r.string_)).getD {})
        { fieldNode c desc with type := "string" }
      rcases hf.typeOneOf with ⟨h', _⟩ | ⟨h', _⟩
      · rw [h']; show ("string" : String) ≠ "object"; decide
      · rw [h']; decide
    · simp only [if_true]
      exact ⟨hnode, fun _ _ => henum⟩
  by_cases h5 : desc.type = TYPE_ENUM
  · obtain ⟨d, hd⟩ := fieldNode_eq c desc
    have hsw := switchType_enum c desc msg vr d h5
    rw [← hd] at hsw
    cases he : enumLoop desc.typeName msg.name msg.enumType [] with
    | returned values =>
      rw [he] at hsw
      exact Or.inl ⟨by rw [h5]; decide, _, hsw, show ("" : String) ≠ "object" by decide,
        fun _ h => absurd h5 h⟩
    | crashed =>
      rw [he] at hsw
      exact Or.inr (Or.inl ⟨h5, hsw, fun acc h => by cases h⟩)
    | outOfFuel => exact absurd he (enumLoop_not_outOfFuel _ _ _ _)
  by_cases h6 : desc.type = TYPE_BOOL
  · refine Or.inl ⟨by rw [h6]; decide, ?_⟩
    unfold switchType
    rw [if_neg h1, if_neg h2, if_neg h3, if_neg h4, if_neg h5, if_pos h6]
    cases c.AllowNullValues
    · exact ⟨_, rfl, show ("boolean" : String) ≠ "object" by decide, fun _ _ => henum⟩
    · exact ⟨_, rfl, hnode, fun _ _ => henum⟩
  have h7 : ¬ (desc.type = TYPE_GROUP ∨ desc.type = TYPE_MESSAGE) := hk
  have hout : desc.type ∉ scalarKinds := by
    intro hm
    simp only [scalarKinds, List.mem_cons, List.mem_singleton, List.not_mem_nil, or_false] at hm
    tauto
  refine Or.inr (Or.inr ⟨hout, ?_⟩)
  have hname : FieldType.name desc.type = toString desc.type := by
    unfold FieldType.name
    rw [if_neg (fun h => h1 (Or.inl h)), if_neg (fun h => h1 (Or.inr h)),
      if_neg (fun h => h3 (Or.inl h)), if_neg (fun h => h3 (Or.inr (Or.inl h))),
      if_neg (fun h => h2 (Or.inl h)), if_neg (fun h => h3 (Or.inr (Or.inr (Or.inl h)))),
      if_neg (fun h => h2 (Or.inr (Or.inr (Or.inl h)))), if_neg h6,
      if_neg (fun h => h4 (Or.inl h)), if_neg (fun h => h7 (Or.inl h)),
      if_neg (fun h => h7 (Or.inr h)), if_neg (fun h => h4 (Or.inr h)),
      if_neg (fun h => h2 (Or.inr (Or.inl h))), if_neg h5,
      if_neg (fun h => h2 (Or.inr (Or.inr (Or.inr (Or.inl h))))),
      if_neg (fun h => h3 (Or.inr (Or.inr (Or.inr (Or.inl h))))),
      if_neg (fun h => h2 (Or.inr (Or.inr (Or.inr (Or.inr h))))),
      if_neg (fun h => h3 (Or.inr (Or.inr (Or.inr (Or.inr h)))))]
  unfold switchType
  rw [if_neg h1, if_neg h2, if_neg h3, if_neg h4, if_neg h5, if_neg h6, if_neg h7, hname]

/-- What `convertField` does on a field that is not of kind message or group and whose
options parse: a node for a kind of the closed set (unless the enum loop crashes),
the error naming the raw kind and no node otherwise. -/
theorem convertField_scalar (c : Converter) (fuel : Nat) (desc : FieldDescriptorProto)
    (msg : DescriptorProto) (vr : Option FieldRules) (hk : ¬ isMessageKind desc)
    (hv : getValidationRules desc = .ok vr) :
    (desc.type ∈ scalarKinds ∧
      ∃ js0, switchType c desc msg vr (fieldNode c desc) = .returned (.ok js0) ∧
        js0.type ≠ "object" ∧
        (c.AllowNullValues = true → desc.type ≠ TYPE_ENUM → js0.enum = []) ∧
        convertField c fuel desc msg = .returned
          (some (if desc.label = LABEL_REPEATED then repeatedPrimitive c js0 else js0),
            requiredFlag vr, none)) ∨
    (desc.type = TYPE_ENUM ∧ convertField c fuel desc msg = .crashed ∧
      ∀ acc, enumLoop desc.typeName msg.name msg.enumType [] ≠ .returned acc) ∨
    (desc.type ∉ scalarKinds ∧
      convertField c fuel desc msg = .returned (none, requiredFlag vr,
        some (Error.errorf ("unrecognized field type: " ++ toString desc.type)))) := by
  rcases switchType_scalar c desc msg vr hk with
    ⟨hm, js0, hs, hne, hen⟩ | ⟨hty, hs, hloop⟩ | ⟨hm, hs⟩
  · refine Or.inl ⟨hm, js0, hs, hne, hen, ?_⟩
    unfold convertField convertFieldBody
    simp only [hv, hs]
    by_cases hlab : desc.label = LABEL_REPEATED
    · rw [if_pos ⟨hlab, hne⟩, if_pos hlab]
    · rw [if_neg (fun h => hlab h.1), if_neg hne, if_neg hlab]
  · refine Or.inr (Or.inl ⟨hty, ?_, hloop⟩)
    unfold convertField convertFieldBody
    simp only [hv, hs]
  · refine Or.inr (Or.inr ⟨hm, ?_⟩)
    unfold convertField convertFieldBody
    simp only [hv, hs]

/-- The closed switch, for a message that is named and whose enums are named: on a
field that is not of kind message or group and whose options parse, `convertField`
returns a node exactly for the kinds of the closed set, and otherwise no node and the
error that names the raw kind. -/
theorem convertField_scalar_named (c : Converter) (fuel : Nat) (desc : FieldDescriptorProto)
    (msg : DescriptorProto) (hk : ¬ isMessageKind desc) (hopt : optionsParse desc)
    (hnames : namesPresent msg) :
    (desc.type ∈ scalarKinds → ∃ t req, convertField c fuel desc msg = .returned (some t, req, none)) ∧
    (desc.type ∉ scalarKinds → ∃ req, convertField c fuel desc msg = .returned (none, req,
        some (Error.errorf ("unrecognized field type: " ++ toString desc.type)))) := by
  obtain ⟨vr, hv⟩ := getValidationRules_of_optionsParse hopt
  rcases convertField_scalar c fuel desc msg vr hk hv with
    ⟨hm, js0, _, _, _, h⟩ | ⟨_, _, hloop⟩ | ⟨hm, h⟩
  · exact ⟨fun _ => ⟨_, _, h⟩, fun hn => absurd hm hn⟩
  · exfalso
    obtain ⟨hmsg, henums⟩ := hnames
    cases hname : msg.name with
    | none => exact hmsg hname
    | some m =>
      obtain ⟨acc, hacc⟩ := enumLoop_named desc.typeName m msg.enumType [] henums
      rw [hname] at hloop
      exact hloop acc hacc
  · exact ⟨fun hin => absurd hin hm, fun _ => ⟨_, h⟩⟩

/-- A descriptor without its name: for `statusField` in `namelessJobMessage`, whose
`Name` pointer is nil, line 235 dereferences the nil pointer; in the named `jobMessage`
the same field is converted, and a field of the raw kind 42 gives no node and the
error that names 42. -/
theorem convertField_enum_nameless :
    convertField defaultConverter 0 statusField namelessJobMessage = .crashed ∧
    (∃ t, convertField defaultConverter 0 statusField jobMessage = .returned (some t, false, none) ∧
      t.enum = [EnumEntry.namePtr (some "ACTIVE"), EnumEntry.numberPtr (some 0)]) ∧
    convertField defaultConverter 0 unknownKindField jobMessage
      = .returned (none, false, some (Error.errorf "unrecognized field type: 42")) :=
  ⟨rfl, ⟨_, rfl, rfl⟩, rfl⟩

/-- C11: for every field whose kind is not message or group and whose options parse,
in a message that carries its name and whose enums carry theirs when the field is of
the enum kind, `convertField` fails if and only if the kind lies outside the closed
set of scalar and enum kinds of the switch; when it fails no node is returned and the
error names the raw kind, and for every kind inside the set a node is returned with
no error, whatever the label, the constraints and the configuration flags are. -/
theorem C11_closed_switch (c : Converter) (fuel : Nat) (desc : FieldDescriptorProto)
    (msg : DescriptorProto) (hk : ¬ isMessageKind desc) (hopt : optionsParse desc)
    (hnames : desc.type = TYPE_ENUM → namesPresent msg) :
    ((∃ t req e, convertField c fuel desc msg = .returned (t, req, some e)) ↔
      desc.type ∉ scalarKinds) ∧
    (desc.type ∉ scalarKinds →
      ∃ req, convertField c fuel desc msg = .returned (none, req,
        some (Error.errorf ("unrecognized field type: " ++ toString desc.type)))) ∧
    (desc.type ∈ scalarKinds →
      ∃ t req, convertField c fuel desc msg = .returned (some t, req, none)) := by
  obtain ⟨vr, hv⟩ := getValidationRules_of_optionsParse hopt
  have hin : desc.type ∈ scalarKinds →
      ∃ t req, convertField c fuel desc msg = .returned (some t, req, none) := by
    intro hin
    rcases convertField_scalar c fuel desc msg vr hk hv with
      ⟨_, js0, _, _, _, h⟩ | ⟨hty, _, hloop⟩ | ⟨hm, _⟩
    · exact ⟨_, _, h⟩
    · exfalso
      obtain ⟨hmsg, henums⟩ := hnames hty
      cases hname : msg.name with
      | none => exact hmsg hname
      | some m =>
        obtain ⟨acc, hacc⟩ := enumLoop_named desc.typeName m msg.enumType [] henums
        rw [hname] at hloop
        exact hloop acc hacc
    · exact absurd hin hm
  have hout : desc.type ∉ scalarKinds →
      ∃ req, convertField c fuel desc msg = .returned (none, req,
        some (Error.errorf ("unrecognized field type: " ++ toString desc.type))) := by
    intro hn
    rcases convertField_scalar c fuel desc msg vr hk hv with
      ⟨hm, _⟩ | ⟨hty, _, _⟩ | ⟨_, h⟩
    · exact absurd hm hn
    · exact absurd (by rw [hty]; decide) hn
    · exact ⟨_, h⟩
  refine ⟨⟨?_, ?_⟩, hout, hin⟩
  · rintro ⟨t, req, e, he⟩ hmem
    obtain ⟨t2, req2, h2⟩ := hin hmem
    rw [h2] at he
    cases he
  · intro hn
    obtain ⟨req, h⟩ := hout hn
    exact ⟨_, _, _, h⟩

/-- C11 at the enum field `status` of `jobMessage`, a kind of the closed set. -/
theorem C11_closed_switch_witness :
    statusField.type ∈ scalarKinds ∧ ¬ isMessageKind statusField ∧ optionsParse statusField ∧
    namesPresent jobMessage ∧
    (∃ t req, convertField defaultConverter 0 statusField jobMessage
      = .returned (some t, req, none)) ∧
    unknownKindField.type ∉ scalarKinds ∧
    ∃ req, convertField defaultConverter 0 unknownKindField jobMessage
      = .returned (none, req, some (Error.errorf "unrecognized field type: 42")) :=
  have hk : ¬ isMessageKind statusField := by unfold isMessageKind; decide
  have hopt : optionsParse statusField := fun _ h => by cases h
  have hnames : namesPresent jobMessage := by
    refine ⟨by decide, ?_⟩
    intro e he
    simp only [jobMessage, List.mem_singleton] at he
    rw [he]
    decide
  ⟨(by decide), hk, hopt, hnames,
    (C11_closed_switch defaultConverter 0 statusField jobMessage hk hopt (fun _ => hnames)).2.2
      (by decide),
    (by decide),
    (C11_closed_switch defaultConverter 0 unknownKindField jobMessage
      (by unfold isMessageKind; decide) (fun _ h => by cases h) (fun _ => hnames)).2.1 (by decide)⟩

/-- The alternatives of the node the switch builds when null values are allowed. -/
theorem switchType_oneOf_null (c : Converter) (desc : FieldDescriptorProto)
    (msg : DescriptorProto) (vr : Option FieldRules) (js0 : SchemaType)
    (hnull : c.AllowNullValues = true) (hk : ¬ isMessageKind desc)
    (hs : switchType c desc msg vr (fieldNode c desc) = .returned (.ok js0)) :
    js0.oneOf = nullableAlternatives c desc.type ∧ js0.type = "" := by
  obtain ⟨d, hd⟩ := fieldNode_eq c desc
  have hk2 : ¬ (desc.type = TYPE_GROUP ∨ desc.type = TYPE_MESSAGE) := hk
  unfold switchType at hs
  unfold nullableAlternatives
  rw [hd, hnull] at hs
  by_cases h1 : desc.type = TYPE_DOUBLE ∨ desc.type = TYPE_FLOAT
  · rw [if_pos h1] at hs ⊢
    simp only [if_true, Outcome.returned.injEq, Except.ok.injEq] at hs
    subst hs
    exact ⟨rfl, rfl⟩
  rw [if_neg h1] at hs ⊢
  by_cases h2 : desc.type = TYPE_INT32 ∨ desc.type = TYPE_UINT32 ∨ desc.type = TYPE_FIXED32
      ∨ desc.type = TYPE_SFIXED32 ∨ desc.type = TYPE_SINT32
  · rw [if_pos h2] at hs ⊢
    simp only [if_true, Outcome.returned.injEq, Except.ok.injEq] at hs
    subst hs
    exact ⟨rfl, rfl⟩
  rw [if_neg h2] at hs ⊢
  by_cases h3 : desc.type = TYPE_INT64 ∨ desc.type = TYPE_UINT64 ∨ desc.type = TYPE_FIXED64
      ∨ desc.type = TYPE_SFIXED64 ∨ desc.type = TYPE_SINT64
  · rw [if_pos h3] at hs ⊢
    cases hD : c.DisallowBigIntsAsStrings <;>
      · rw [hD] at hs
        simp only [if_true, Outcome.returned.injEq, Except.ok.injEq] at hs
        subst hs
        exact ⟨rfl, rfl⟩
  rw [if_neg h3] at hs ⊢
  by_cases h4 : desc.type = TYPE_STRING ∨ desc.type = TYPE_BYTES
  · rw [if_pos h4] at hs ⊢
    simp only [if_true, Outcome.returned.injEq, Except.ok.injEq] at hs
    subst hs
    exact ⟨rfl, rfl⟩
  rw [if_neg h4] at hs ⊢
  by_cases h5 : desc.type = TYPE_ENUM
  · rw [if_pos h5] at hs ⊢
    simp only [if_true] at hs
    cases he : enumLoop desc.typeName msg.name msg.enumType
        ({ SchemaType.zero with description := d } : SchemaType).enum with
    | returned values =>
      rw [he] at hs
      simp only [Outcome.returned.injEq, Except.ok.injEq] at hs
      subst hs
      exact ⟨rfl, rfl⟩
    | crashed => rw [he] at hs; cases hs
    | outOfFuel => rw [he] at hs; cases hs
  rw [if_neg h5] at hs ⊢
  by_cases h6 : desc.type = TYPE_BOOL
  · rw [if_pos h6] at hs ⊢
    simp only [if_true, Outcome.returned.injEq, Except.ok.injEq] at hs
    subst hs
    exact ⟨rfl, rfl⟩
  rw [if_neg h6, if_neg hk2] at hs
  cases hs

/-- C16, as amended: for every repeated field of a non-message kind converted with
`AllowNullValues` enabled, the items schema of the resulting array is the base type
with its null wrapping kept: when the node the type switch builds for the field holds
no enum values, the items are that node's type (unset) and that node's `oneOf`, which
is the list of alternatives of the kind with its one alternative of type null; when
enum values were collected for an enum field, the items carry those values only. -/
theorem C16_items_keep_null_alternative (c : Converter) (fuel : Nat) (desc : FieldDescriptorProto)
    (msg : DescriptorProto) (t : SchemaType) (req : Bool) (hnull : c.AllowNullValues = true)
    (hlab : desc.label = LABEL_REPEATED) (hk : ¬ isMessageKind desc)
    (h : convertField c fuel desc msg = .returned (some t, req, none)) :
    ∃ vr js0 items,
      getValidationRules desc = .ok vr ∧
      switchType c desc msg vr (fieldNode c desc) = .returned (.ok js0) ∧
      js0.oneOf = nullableAlternatives c desc.type ∧
      t.items = some items ∧ items.type = "" ∧
      ((js0.enum = [] ∧
          items = { SchemaType.zero with type := js0.type, oneOf := js0.oneOf } ∧
          items.enum = [] ∧ items.oneOf = nullableAlternatives c desc.type ∧
          nullAlternatives items = 1) ∨
       (js0.enum ≠ [] ∧ items = { SchemaType.zero with enum := js0.enum } ∧
          items.oneOf = [] ∧ desc.type = TYPE_ENUM)) := by
  obtain ⟨_, vr, js0, hv, _, hs, _⟩ := convertFieldBody_ok h
  have hb := switchType_base hs
  obtain ⟨hone, hty0⟩ := switchType_oneOf_null c desc msg vr js0 hnull hk hs
  rcases convertField_scalar c fuel desc msg vr hk hv with
    ⟨_, js1, hs1, hne, hen, hconv⟩ | ⟨_, hcr, _⟩ | ⟨_, herr⟩
  · rw [hs] at hs1
    simp only [Outcome.returned.injEq, Except.ok.injEq] at hs1
    subst hs1
    rw [h, if_pos hlab] at hconv
    simp only [Outcome.returned.injEq, Prod.mk.injEq, Option.some.injEq] at hconv
    obtain ⟨ht, _⟩ := hconv
    have hnl : js0.type = "" ∧ nullAlternatives js0 = 1 := by
      rcases hb.nullable hnull with ⟨h', _⟩ | h'
      · exact absurd h' hne
      · exact h'
    rw [ht, repeatedPrimitive_eq]
    by_cases he : js0.enum.length > 0
    · refine ⟨vr, js0, { SchemaType.zero with enum := js0.enum }, hv, hs, hone, ?_, rfl, ?_⟩
      · rw [if_pos he]
      have hne0 : js0.enum ≠ [] :=
        fun h0 => by rw [show js0.enum = [] from h0] at he; exact absurd he (by decide)
      refine Or.inr ⟨hne0, rfl, rfl, ?_⟩
      by_contra hty
      rw [hen hnull hty] at he
      exact absurd he (by decide)
    · refine ⟨vr, js0, { SchemaType.zero with type := js0.type, oneOf := js0.oneOf }, hv, hs,
        hone, ?_, hnl.1, ?_⟩
      · rw [if_neg he]
      have he0 : js0.enum = [] := by
        cases hl : js0.enum with
        | nil => rfl
        | cons a l => rw [hl] at he; exact absurd (by simp) he
      exact Or.inl ⟨he0, rfl, rfl, hone, hnl.2⟩
  · rw [h] at hcr; cases hcr
  · rw [h] at herr; cases herr

/-- C16 at the repeated string field `tags` of `orderMessage`. -/
theorem C16_items_keep_null_alternative_witness :
    ∃ t items, convertField (shopConverter true false) 0 tagsField orderMessage
        = .returned (some t, false, none) ∧
      t.items = some items ∧ items.type = "" ∧
      items.oneOf = [SchemaType.ofType "null", SchemaType.ofType "string"] ∧
      nullAlternatives items = 1 :=
  match C16_items_keep_null_alternative (shopConverter true false) 0 tagsField orderMessage _
    false rfl rfl (by unfold isMessageKind; decide) rfl with
  | ⟨_, _, items, _, _, _, hi, hty, _⟩ => ⟨_, items, rfl, hi, hty, by cases hi; rfl, by cases hi; rfl⟩

/-- C16 fails as stated: with `AllowNullValues` enabled the items schema of the repeated
double field `prices` is `oneOf[null, number]`: the null alternative is not stripped. -/
theorem C16_items_contain_null :
    ∃ t items, convertField nullConverter 0 pricesField loginMessage
        = .returned (some t, false, none) ∧
      t.items = some items ∧
      items.oneOf = [SchemaType.ofType "null", SchemaType.ofType "number"] ∧
      nullAlternatives items = 1 :=
  ⟨_, _, rfl, rfl, rfl, rfl⟩

/-! ## `formatDescription` -/

theorem dropWhile_eq_nil_of_all {p : Char → Bool} :
    ∀ (l : List Char), (l.dropWhile p).all p = true → l.dropWhile p = []
  | [], _ => rfl
  | a :: l, h => by
    by_cases hp : p a = true
    · simp only [List.dropWhile_cons_of_pos hp] at h ⊢
      exact dropWhile_eq_nil_of_all l h
    · simp only [List.dropWhile_cons_of_neg hp] at h ⊢
      simp only [List.all_cons, Bool.and_eq_true] at h
      exact absurd h.1 hp

/-- Trimming leaves nothing exactly when the string holds whitespace only. -/
theorem trimSpace_eq_empty_iff (s : String) : trimSpace s = "" ↔ whitespaceOnly s = true := by
  unfold trimSpace whitespaceOnly
  constructor
  · intro h
    have h1 : ((s.data.dropWhile isSpace).reverse.dropWhile isSpace).reverse = [] := by
      have := congrArg String.data h
      simpa using this
    have h2 : (s.data.dropWhile isSpace).reverse.dropWhile isSpace = [] := by
      simpa using h1
    have h3 : (s.data.dropWhile isSpace).reverse.all isSpace = true := by
      rw [List.dropWhile_eq_nil_iff] at h2
      simpa [List.all_eq_true] using h2
    have h4 : (s.data.dropWhile isSpace).all isSpace = true := by
      simpa [List.all_eq_true] using h3
    have h5 := dropWhile_eq_nil_of_all s.data h4
    rw [List.dropWhile_eq_nil_iff] at h5
    simpa [List.all_eq_true] using h5
  · intro h
    have h5 : s.data.dropWhile isSpace = [] := by
      rw [List.dropWhile_eq_nil_iff]
      simpa [List.all_eq_true] using h
    rw [h5]
    rfl

theorem intercalate_go_eq_empty (sep : String) :
    ∀ (l : List String) (acc : String), String.intercalate.go acc sep l = "" → acc = ""
  | [], acc, h => by simpa [String.intercalate.go] using h
  | a :: l, acc, h => by
    simp only [String.intercalate.go] at h
    have h1 := intercalate_go_eq_empty sep l _ h
    have h2 := congrArg String.data h1
    simp only [String.data_append, List.append_eq_nil] at h2
    exact String.ext h2.1.1

/-- Joining non-empty strings gives the empty string only for the empty list. -/
theorem intercalate_eq_empty_iff (sep : String) (l : List String) (hl : ∀ s ∈ l, s ≠ "") :
    String.intercalate sep l = "" ↔ l = [] := by
  constructor
  · intro h
    cases l with
    | nil => rfl
    | cons a rest =>
      simp only [String.intercalate] at h
      exact absurd (intercalate_go_eq_empty sep rest a h) (hl a (List.mem_cons_self _ _))
  · intro h
    rw [h]
    rfl

/-- The lines that `formatDescription` joins. -/
theorem formatDescription_eq_spec (sl : SourceCodeInfo_Location) :
    formatDescription sl = formatDescriptionSpec sl := by
  unfold formatDescription formatDescriptionSpec
  simp only [List.map_append, List.filter_append, List.map_cons, List.map_nil, List.filter_cons,
    List.filter_nil]
  by_cases h1 : trimSpace sl.leadingComments = "" <;>
    by_cases h2 : trimSpace sl.trailingComments = "" <;>
    simp [h1, h2]

theorem head?_dropWhile_isSpace (l : List Char) (ch : Char)
    (h : (l.dropWhile isSpace).head? = some ch) : isSpace ch = false := by
  induction l with
  | nil => simp at h
  | cons a l ih =>
    by_cases hp : isSpace a = true
    · rw [List.dropWhile_cons_of_pos hp] at h
      exact ih h
    · rw [List.dropWhile_cons_of_neg hp] at h
      simp only [List.head?_cons, Option.some.injEq] at h
      rw [← h]
      simpa using hp

/-- Trimming removes a run of whitespace at the start and one at the end, and what is
left neither starts nor ends with whitespace. -/
theorem trimSpace_surrounding (s : String) :
    ∃ pre post : List Char, s.data = pre ++ (trimSpace s).data ++ post ∧
      pre.all isSpace = true ∧ post.all isSpace = true ∧
      (∀ ch, (trimSpace s).data.head? = some ch → isSpace ch = false) ∧
      (∀ ch, (trimSpace s).data.getLast? = some ch → isSpace ch = false) := by
  have hm : ∀ m : List Char, (∀ ch, m.head? = some ch → isSpace ch = false) →
      ∃ post : List Char, m = ((m.reverse.dropWhile isSpace).reverse) ++ post ∧
        post.all isSpace = true ∧
        (∀ ch, ((m.reverse.dropWhile isSpace).reverse).head? = some ch → isSpace ch = false) ∧
        (∀ ch, ((m.reverse.dropWhile isSpace).reverse).getLast? = some ch → isSpace ch = false) := by
    intro m hhead
    have hsplit : m = (m.reverse.dropWhile isSpace).reverse ++ (m.reverse.takeWhile isSpace).reverse := by
      have h0 := congrArg List.reverse (List.takeWhile_append_dropWhile isSpace m.reverse)
      rw [List.reverse_append, List.reverse_reverse] at h0
      exact h0.symm
    refine ⟨(m.reverse.takeWhile isSpace).reverse, hsplit, ?_, ?_, ?_⟩
    · simp only [List.all_reverse, List.all_eq_true]
      intro x hx
      exact List.mem_takeWhile_imp hx
    · intro ch hch
      apply hhead
      rw [hsplit]
      cases hd : (m.reverse.dropWhile isSpace).reverse with
      | nil => rw [hd] at hch; simp at hch
      | cons a rest => rw [hd] at hch; simpa using hch
    · intro ch hch
      rw [List.getLast?_reverse] at hch
      exact head?_dropWhile_isSpace _ _ hch
  obtain ⟨post, h1, h2, h3, h4⟩ := hm (s.data.dropWhile isSpace)
    (fun ch h => head?_dropWhile_isSpace _ _ h)
  refine ⟨s.data.takeWhile isSpace, post, ?_, ?_, h2, h3, h4⟩
  · show s.data = _ ++ ((s.data.dropWhile isSpace).reverse.dropWhile isSpace).reverse ++ post
    rw [List.append_assoc, ← h1, List.takeWhile_append_dropWhile]
  · simp only [List.all_eq_true]
    intro x hx
    exact List.mem_takeWhile_imp hx

/-- C15: `formatDescription` returns the detached leading comments, then the leading
comment, then the trailing comment, each trimmed of surrounding whitespace, with the
entries that are empty after trimming dropped, joined by `"\n\n"`; the result is the
empty string exactly when every comment is empty or whitespace-only. -/
theorem C15_formatDescription (sl : SourceCodeInfo_Location) :
    formatDescription sl = formatDescriptionSpec sl ∧
    (formatDescription sl = "" ↔
      ∀ s ∈ sl.leadingDetachedComments ++ [sl.leadingComments, sl.trailingComments],
        whitespaceOnly s = true) ∧
    (∀ s : String, ∃ pre post : List Char, s.data = pre ++ (trimSpace s).data ++ post ∧
      pre.all isSpace = true ∧ post.all isSpace = true ∧
      (∀ ch, (trimSpace s).data.head? = some ch → isSpace ch = false) ∧
      (∀ ch, (trimSpace s).data.getLast? = some ch → isSpace ch = false)) := by
  refine ⟨formatDescription_eq_spec sl, ?_, trimSpace_surrounding⟩
  rw [formatDescription_eq_spec]
  unfold formatDescriptionSpec
  rw [intercalate_eq_empty_iff _ _ (fun s hs => by simpa using (List.mem_filter.mp hs).2)]
  rw [List.filter_eq_nil_iff]
  constructor
  · intro h s hs
    have := h (trimSpace s) (List.mem_map_of_mem _ hs)
    rw [← trimSpace_eq_empty_iff]
    simpa using this
  · intro h x hx
    obtain ⟨s, hs, rfl⟩ := List.mem_map.mp hx
    have := (trimSpace_eq_empty_iff s).mpr (h s hs)
    simp [this]

/-! ## Relative lookup of nested types -/

theorem findNested_iff (l : List DescriptorProto) (component : String) (n : DescriptorProto) :
    findNested l component = some n ↔ FirstNamed l component n := by
  induction l with
  | nil =>
    constructor
    · intro h; cases h
    · rintro ⟨before, after, h, _⟩
      cases before <;> cases h
  | cons a l ih =>
    unfold findNested
    by_cases ha : a.getName = component
    · rw [if_pos ha]
      constructor
      · intro h
        cases h
        exact ⟨[], l, rfl, ha, fun b hb => by cases hb⟩
      · rintro ⟨before, after, h, _, hb⟩
        cases before with
        | nil =>
          simp only [List.nil_append, List.cons.injEq] at h
          rw [h.1]
        | cons b before =>
          simp only [List.cons_append, List.cons.injEq] at h
          exact absurd (h.1 ▸ ha) (hb b (List.mem_cons_self _ _))
    · rw [if_neg ha, ih]
      constructor
      · rintro ⟨before, after, h, hn, hb⟩
        refine ⟨a :: before, after, by rw [h]; rfl, hn, ?_⟩
        intro b hmem
        rcases List.mem_cons.mp hmem with rfl | hmem
        · exact ha
        · exact hb b hmem
      · rintro ⟨before, after, h, hn, hb⟩
        cases before with
        | nil =>
          simp only [List.nil_append, List.cons.injEq] at h
          exact absurd (h.1 ▸ hn) ha
        | cons b before =>
          simp only [List.cons_append, List.cons.injEq] at h
          exact ⟨before, after, h.2, hn, fun x hx => hb x (List.mem_cons_of_mem _ hx)⟩

theorem componentLoop_iff (comps : List String) (d e : DescriptorProto) :
    componentLoop comps d = (some e, true) ↔ Walk d comps e := by
  induction comps generalizing d with
  | nil =>
    unfold componentLoop
    constructor
    · intro h
      have hd : d = e := by
        simp only [Prod.mk.injEq, Option.some.injEq, and_true] at h
        exact h
      rw [← hd]
      exact Walk.done d
    · intro h
      cases h
      rfl
  | cons component rest ih =>
    unfold componentLoop
    cases hf : findNested d.nestedType component with
    | none =>
      constructor
      · intro h; cases h
      · intro h
        cases h with
        | step _ n _ _ _ hfirst _ =>
          rw [(findNested_iff _ _ _).mpr hfirst] at hf
          cases hf
    | some nested =>
      simp only
      rw [ih]
      constructor
      · intro h
        exact Walk.step d nested e component rest ((findNested_iff _ _ _).mp hf) h
      · intro h
        cases h with
        | step _ n _ _ _ hfirst hw =>
          rw [(findNested_iff _ _ _).mpr hfirst] at hf
          cases hf
          exact hw

theorem componentLoop_cases (comps : List String) (d : DescriptorProto) :
    (∃ e, componentLoop comps d = (some e, true)) ∨ componentLoop comps d = (none, false) := by
  induction comps generalizing d with
  | nil => exact Or.inl ⟨d, rfl⟩
  | cons component rest ih =>
    unfold componentLoop
    cases hf : findNested d.nestedType component with
    | none => exact Or.inr rfl
    | some nested => exact ih nested

theorem walk_last (d e : DescriptorProto) (comps : List String) (h : Walk d comps e)
    (hne : comps ≠ []) : comps.getLast? = some e.getName := by
  induction h with
  | done d => exact absurd rfl hne
  | step d n e component rest hfirst hw ih =>
    cases rest with
    | nil =>
      cases hw
      obtain ⟨_, _, _, hn, _⟩ := hfirst
      simp [hn]
    | cons c rest =>
      rw [List.getLast?_cons_cons]
      exact ih (by simp)

theorem splitDot_no_dot (l : List Char) :
    '.' ∉ (splitDot l).1 ∧ ∀ c ∈ (splitDot l).2, '.' ∉ c := by
  induction l with
  | nil => simp [splitDot]
  | cons ch rest ih =>
    unfold splitDot
    by_cases hc : ch = '.'
    · rw [if_pos hc]
      refine ⟨by simp, ?_⟩
      intro c hmem
      rcases List.mem_cons.mp hmem with h | h
      · rw [h]; exact ih.1
      · exact ih.2 c h
    · rw [if_neg hc]
      refine ⟨?_, ih.2⟩
      intro hmem
      rcases List.mem_cons.mp hmem with h | h
      · exact hc h.symm
      · exact ih.1 h

theorem stringsSplit_no_dot (s : String) : ∀ c ∈ stringsSplit s, '.' ∉ c.data := by
  intro c hc
  unfold stringsSplit at hc
  rcases List.mem_cons.mp hc with h | h
  · rw [h]; exact (splitDot_no_dot s.data).1
  · obtain ⟨l, hl, rfl⟩ := List.mem_map.mp h
    exact (splitDot_no_dot s.data).2 l hl

theorem intercalate_one (sep a : List Char) : List.intercalate sep [a] = a := by
  simp [List.intercalate]

theorem intercalate_two (sep a b : List Char) (t : List (List Char)) :
    List.intercalate sep (a :: b :: t) = a ++ sep ++ List.intercalate sep (b :: t) := by
  simp [List.intercalate]

theorem intercalate_push (sep : List Char) (ch : Char) (a : List Char) (t : List (List Char)) :
    List.intercalate sep ((ch :: a) :: t) = ch :: List.intercalate sep (a :: t) := by
  cases t with
  | nil => rw [intercalate_one, intercalate_one]
  | cons b t => rw [intercalate_two, intercalate_two]; rfl

/-- Joining the pieces of `splitDot` with dots gives the list back. -/
theorem splitDot_join (l : List Char) :
    List.intercalate ['.'] ((splitDot l).1 :: (splitDot l).2) = l := by
  induction l with
  | nil => rfl
  | cons ch rest ih =>
    unfold splitDot
    by_cases hc : ch = '.'
    · rw [if_pos hc, intercalate_two, ih, hc]
      rfl
    · rw [if_neg hc, intercalate_push, ih]

/-- The pieces of `splitDot` are the only pieces without a dot whose join is the list. -/
theorem splitDot_unique (t : List (List Char)) : ∀ (h : List Char),
    (∀ c ∈ h :: t, '.' ∉ c) → splitDot (List.intercalate ['.'] (h :: t)) = (h, t) := by
  induction t with
  | nil =>
    intro h hdot
    rw [intercalate_one]
    have hh : '.' ∉ h := hdot h (List.mem_cons_self _ _)
    clear hdot
    induction h with
    | nil => rfl
    | cons ch h ih =>
      unfold splitDot
      rw [if_neg (fun hc => hh (by rw [hc]; exact List.mem_cons_self _ _)),
        ih (fun hm => hh (List.mem_cons_of_mem _ hm))]
  | cons b t iht =>
    intro h hdot
    have hbt : ∀ c ∈ b :: t, '.' ∉ c := fun c hc => hdot c (List.mem_cons_of_mem _ hc)
    have hh : '.' ∉ h := hdot h (List.mem_cons_self _ _)
    clear hdot
    induction h with
    | nil =>
      rw [intercalate_two]
      show splitDot ('.' :: List.intercalate ['.'] (b :: t)) = ([], b :: t)
      unfold splitDot
      rw [if_pos rfl, iht b hbt]
    | cons ch h ih =>
      rw [intercalate_push]
      unfold splitDot
      rw [if_neg (fun hc => hh (by rw [hc]; exact List.mem_cons_self _ _)),
        ih (fun hm => hh (List.mem_cons_of_mem _ hm))]

theorem stringsSplit_data (s : String) :
    (stringsSplit s).map String.data = (splitDot s.data).1 :: (splitDot s.data).2 := by
  unfold stringsSplit
  simp [Function.comp_def]

/-- The components of `stringsSplit` hold no dot, joined with dots they give the
string back, and they are the only non-empty list of components that does. -/
theorem stringsSplit_spec (s : String) :
    (∀ c ∈ stringsSplit s, '.' ∉ c.data) ∧
    List.intercalate ['.'] ((stringsSplit s).map String.data) = s.data ∧
    (∀ comps : List String, comps ≠ [] → (∀ c ∈ comps, '.' ∉ c.data) →
      List.intercalate ['.'] (comps.map String.data) = s.data → comps = stringsSplit s) := by
  refine ⟨stringsSplit_no_dot s, ?_, ?_⟩
  · rw [stringsSplit_data, splitDot_join]
  · intro comps hne hdot hjoin
    cases comps with
    | nil => exact absurd rfl hne
    | cons h t =>
      have hu := splitDot_unique (t.map String.data) h.data (by
        intro c hc
        rcases List.mem_cons.mp hc with hc | hc
        · rw [hc]; exact hdot h (List.mem_cons_self _ _)
        · obtain ⟨x, hx, rfl⟩ := List.mem_map.mp hc
          exact hdot x (List.mem_cons_of_mem _ hx))
      rw [List.map_cons] at hjoin
      rw [hjoin] at hu
      unfold stringsSplit
      rw [hu]
      simp [Function.comp_def]

/-- C19: `relativelyLookupNestedType d name` reports found exactly when the
dot-separated components of `name` can be followed one after another through
nested-type lists starting at `d`, taking at each step the first nested type in
declaration order whose name equals the component; the returned definition is then the
one the walk reaches and its name is the last component; when a component is missing
the result is no definition with found false.  The components are those of
`stringsSplit name`: they hold no dot, joined with dots they give `name` back, and no
other non-empty list of components does. -/
theorem C19_relative_lookup (d : DescriptorProto) (name : String) :
    ((relativelyLookupNestedType d name).2 = true ↔ ∃ e, Walk d (stringsSplit name) e) ∧
    (∀ e, Walk d (stringsSplit name) e →
      relativelyLookupNestedType d name = (some e, true) ∧
      (stringsSplit name).getLast? = some e.getName) ∧
    ((¬ ∃ e, Walk d (stringsSplit name) e) →
      relativelyLookupNestedType d name = (none, false)) ∧
    (∀ c ∈ stringsSplit name, '.' ∉ c.data) ∧
    List.intercalate ['.'] ((stringsSplit name).map String.data) = name.data ∧
    (∀ comps : List String, comps ≠ [] → (∀ c ∈ comps, '.' ∉ c.data) →
      List.intercalate ['.'] (comps.map String.data) = name.data →
      comps = stringsSplit name) := by
  unfold relativelyLookupNestedType
  refine ⟨?_, ?_, ?_, stringsSplit_spec name⟩
  · constructor
    · intro h
      rcases componentLoop_cases (stringsSplit name) d with ⟨e, he⟩ | hnone
      · exact ⟨e, (componentLoop_iff _ _ _).mp he⟩
      · rw [hnone] at h
        cases h
    · rintro ⟨e, he⟩
      rw [(componentLoop_iff _ _ _).mpr he]
  · intro e he
    exact ⟨(componentLoop_iff _ _ _).mpr he, walk_last d e _ he (by unfold stringsSplit; simp)⟩
  · intro h
    rcases componentLoop_cases (stringsSplit name) d with ⟨e, he⟩ | hnone
    · exact absurd ⟨e, (componentLoop_iff _ _ _).mp he⟩ h
    · exact hnone

/-- C19 at `Letter`: the path `Body.Line` has the components `Body` and `Line`, the
walk takes `Body` and then the first of the two nested types named `Line`, and the
lookup returns that definition; the path `Body.Page` is not found. -/
theorem C19_relative_lookup_witness :
    stringsSplit "Body.Line" = ["Body", "Line"] ∧
    Walk letterMessage ["Body", "Line"] lineMessage ∧
    relativelyLookupNestedType letterMessage "Body.Line" = (some lineMessage, true) ∧
    (stringsSplit "Body.Line").getLast? = some lineMessage.getName ∧
    (¬ ∃ e, Walk letterMessage (stringsSplit "Body.Page") e) ∧
    relativelyLookupNestedType letterMessage "Body.Page" = (none, false) :=
  have hw : Walk letterMessage (stringsSplit "Body.Line") lineMessage :=
    Walk.step letterMessage bodyMessage lineMessage "Body" ["Line"]
      ⟨[], [], rfl, rfl, fun _ h => by cases h⟩
      (Walk.step bodyMessage lineMessage lineMessage "Line" []
        ⟨[], [shadowLineMessage], rfl, rfl, fun _ h => by cases h⟩ (Walk.done lineMessage))
  have h := (C19_relative_lookup letterMessage "Body.Line").2.1 lineMessage hw
  have hno : ¬ ∃ e, Walk letterMessage (stringsSplit "Body.Page") e :=
    fun hex => absurd ((C19_relative_lookup letterMessage "Body.Page").1.mpr hex)
      (show ¬ (relativelyLookupNestedType letterMessage "Body.Page").2 = true by decide)
  ⟨by decide, hw, h.1, h.2, hno, (C19_relative_lookup letterMessage "Body.Page").2.2.1 hno⟩

/-- In `Letter`, the path `Body.Line` reaches the first `Line` of `Body`; the path
`Body.Page` is not found. -/
theorem relativelyLookupNestedType_letter :
    stringsSplit "Body.Line" = ["Body", "Line"] ∧
    stringsSplit "" = [""] ∧
    stringsSplit ".a..b." = ["", "a", "", "b", ""] ∧
    relativelyLookupNestedType letterMessage "Body.Line" = (some lineMessage, true) ∧
    relativelyLookupNestedType letterMessage "Body.Line.Line" = (none, false) ∧
    relativelyLookupNestedType letterMessage "Body.Page" = (none, false) ∧
    relativelyLookupNestedType letterMessage "" = (none, false) := by
  refine ⟨by decide, by decide, by decide, by rfl, by rfl, by rfl, by rfl⟩

/-! ## The package registry -/

theorem mapGet_mem {α : Type} (l : List (String × α)) (key : String) (v : α)
    (h : mapGet l key = some v) : (key, v) ∈ l := by
  induction l with
  | nil => cases h
  | cons a l ih =>
    obtain ⟨k, w⟩ := a
    unfold mapGet at h
    by_cases hk : k = key
    · rw [if_pos hk] at h
      cases h
      rw [hk]
      exact List.mem_cons_self _ _
    · rw [if_neg hk] at h
      exact List.mem_cons_of_mem _ (ih h)

theorem mapGet_mapSet_same {α : Type} (l : List (String × α)) (key : String) (v : α) :
    mapGet (mapSet l key v) key = some v := by
  induction l with
  | nil => simp [mapSet, mapGet]
  | cons a l ih =>
    obtain ⟨k, w⟩ := a
    unfold mapSet
    by_cases hk : k = key
    · rw [if_pos hk]
      unfold mapGet
      rw [if_pos hk]
    · rw [if_neg hk]
      unfold mapGet
      rw [if_neg hk]
      exact ih

theorem mapGet_mapSet_other {α : Type} (l : List (String × α)) (key k2 : String) (v : α)
    (h : key ≠ k2) : mapGet (mapSet l key v) k2 = mapGet l k2 := by
  induction l with
  | nil =>
    simp [mapSet, mapGet, h]
  | cons a l ih =>
    obtain ⟨k, w⟩ := a
    unfold mapSet
    by_cases hk : k = key
    · rw [if_pos hk]
      unfold mapGet
      rw [if_neg (by rw [hk]; exact h), if_neg (by rw [hk]; exact h)]
    · rw [if_neg hk]
      unfold mapGet
      by_cases hk2 : k = k2
      · rw [if_pos hk2, if_pos hk2]
      · rw [if_neg hk2, if_neg hk2]
        exact ih

theorem mem_mapSet {α : Type} (l : List (String × α)) (key : String) (v : α)
    (x : String × α) (h : x ∈ mapSet l key v) : x ∈ l ∨ x = (key, v) := by
  induction l with
  | nil =>
    simp only [mapSet, List.mem_singleton] at h
    exact Or.inr h
  | cons a l ih =>
    obtain ⟨k, w⟩ := a
    unfold mapSet at h
    by_cases hk : k = key
    · rw [if_pos hk] at h
      rcases List.mem_cons.mp h with h | h
      · right; rw [h, hk]
      · left; exact List.mem_cons_of_mem _ h
    · rw [if_neg hk] at h
      rcases List.mem_cons.mp h with h | h
      · left; rw [h]; exact List.mem_cons_self _ _
      · rcases ih h with h | h
        · left; exact List.mem_cons_of_mem _ h
        · right; exact h

theorem addChild_length (reg : Registry) (pkg : Nat) (p : ProtoPackage) (node : String) :
    (addChild reg pkg p node).length = reg.length + 1 := by
  simp [addChild]

theorem addChild_get_pkg (reg : Registry) (pkg : Nat) (p : ProtoPackage) (node : String)
    (h : pkg < reg.length) :
    (addChild reg pkg p node)[pkg]? =
      some { p with children := mapSet p.children node reg.length } := by
  unfold addChild
  rw [List.getElem?_set_self (by simp; omega)]

theorem addChild_get_new (reg : Registry) (pkg : Nat) (p : ProtoPackage) (node : String)
    (h : pkg < reg.length) :
    (addChild reg pkg p node)[reg.length]? =
      some { name := p.name ++ "." ++ node, parent := some pkg, children := [], types := [] } := by
  unfold addChild
  rw [List.getElem?_set_ne (by omega)]
  simp

theorem addChild_get_other (reg : Registry) (pkg : Nat) (p : ProtoPackage) (node : String)
    (a : Nat) (ha : a ≠ pkg) (hlt : a < reg.length) :
    (addChild reg pkg p node)[a]? = reg[a]? := by
  unfold addChild
  rw [List.getElem?_set_ne (fun h => ha h.symm)]
  rw [List.getElem?_append_left hlt]

theorem lt_length_of_getElem? (reg : Registry) (a : Nat) (p : ProtoPackage)
    (h : reg[a]? = some p) : a < reg.length := by
  by_contra hlt
  rw [List.getElem?_eq_none (by omega)] at h
  cases h

theorem addChild_cases (reg : Registry) (pkg : Nat) (p : ProtoPackage) (node : String)
    (hp : pkg < reg.length) (a : Nat) (x : ProtoPackage)
    (h : (addChild reg pkg p node)[a]? = some x) :
    (a = pkg ∧ x = { p with children := mapSet p.children node reg.length }) ∨
    (a = reg.length ∧
      x = { name := p.name ++ "." ++ node, parent := some pkg, children := [], types := [] }) ∨
    (a ≠ pkg ∧ a < reg.length ∧ reg[a]? = some x) := by
  have hlen := lt_length_of_getElem? _ _ _ h
  rw [addChild_length] at hlen
  by_cases h1 : a = pkg
  · left
    rw [h1, addChild_get_pkg reg pkg p node hp] at h
    exact ⟨h1, (Option.some.inj h).symm⟩
  · by_cases h2 : a = reg.length
    · right; left
      rw [h2, addChild_get_new reg pkg p node hp] at h
      exact ⟨h2, (Option.some.inj h).symm⟩
    · right; right
      have hlt : a < reg.length := by omega
      rw [addChild_get_other reg pkg p node a h1 hlt] at h
      exact ⟨h1, hlt, h⟩

theorem addChild_keeps (reg : Registry) (pkg : Nat) (p : ProtoPackage) (node : String)
    (hp : reg[pkg]? = some p) (c : Nat) (q : ProtoPackage) (hq : reg[c]? = some q) :
    ∃ q2 : ProtoPackage, (addChild reg pkg p node)[c]? = some q2 ∧ q2.name = q.name ∧
      q2.parent = q.parent := by
  have hlt := lt_length_of_getElem? _ _ _ hp
  by_cases h1 : c = pkg
  · rw [h1] at hq ⊢
    rw [hp] at hq
    cases hq
    exact ⟨_, addChild_get_pkg reg pkg p node hlt, rfl, rfl⟩
  · refine ⟨q, ?_, rfl, rfl⟩
    rw [addChild_get_other reg pkg p node c h1 (lt_length_of_getElem? _ _ _ hq)]
    exact hq

theorem invariant_addChild (reg : Registry) (pkg : Nat) (p : ProtoPackage) (node : String)
    (hinv : RegistryInvariant reg) (hp : reg[pkg]? = some p) (hnode : '.' ∉ node.data) :
    RegistryInvariant (addChild reg pkg p node) := by
  obtain ⟨⟨root, hroot, hname, hparent⟩, hkeys, hchildren⟩ := hinv
  have hlt := lt_length_of_getElem? _ _ _ hp
  refine ⟨?_, ?_, ?_⟩
  · obtain ⟨q2, h1, h2, h3⟩ := addChild_keeps reg pkg p node hp globalPkg root hroot
    exact ⟨q2, h1, h2.trans hname, h3.trans hparent⟩
  · intro a x key child hx hmem
    rcases addChild_cases reg pkg p node hlt a x hx with ⟨_, rfl⟩ | ⟨_, rfl⟩ | ⟨_, _, hold⟩
    · rcases mem_mapSet _ _ _ _ hmem with h | h
      · exact hkeys pkg p key child hp h
      · cases h
        exact hnode
    · cases hmem
    · exact hkeys a x key child hold hmem
  · intro a x key child hx hmem
    rcases addChild_cases reg pkg p node hlt a x hx with ⟨ha, rfl⟩ | ⟨_, rfl⟩ | ⟨_, _, hold⟩
    · rcases mem_mapSet _ _ _ _ hmem with h | h
      · obtain ⟨q, hq, hqn, hqp⟩ := hchildren pkg p key child hp h
        obtain ⟨q2, h1, h2, h3⟩ := addChild_keeps reg pkg p node hp child q hq
        exact ⟨q2, h1, h2.trans hqn, by rw [h3, hqp, ha]⟩
      · cases h
        exact ⟨_, addChild_get_new reg pkg p node hlt, rfl, by rw [ha]⟩
    · cases hmem
    · obtain ⟨q, hq, hqn, hqp⟩ := hchildren a x key child hold hmem
      obtain ⟨q2, h1, h2, h3⟩ := addChild_keeps reg pkg p node hp child q hq
      exact ⟨q2, h1, h2.trans hqn, h3.trans hqp⟩

theorem extends_addChild (reg : Registry) (pkg : Nat) (p : ProtoPackage) (node : String)
    (hp : reg[pkg]? = some p) (hnone : mapGet p.children node = none) :
    Extends reg (addChild reg pkg p node) := by
  intro a x key c hx hget
  have hlt := lt_length_of_getElem? _ _ _ hp
  by_cases h1 : a = pkg
  · rw [h1] at hx ⊢
    rw [hp] at hx
    cases hx
    refine ⟨_, addChild_get_pkg reg pkg p node hlt, ?_⟩
    show mapGet (mapSet p.children node reg.length) key = some c
    rw [mapGet_mapSet_other _ _ _ _ (fun h => by rw [h, hget] at hnone; cases hnone)]
    exact hget
  · refine ⟨x, ?_, hget⟩
    rw [addChild_get_other reg pkg p node a h1 (lt_length_of_getElem? _ _ _ hx)]
    exact hx

theorem extends_refl (reg : Registry) : Extends reg reg :=
  fun _ p _ _ hp hget => ⟨p, hp, hget⟩

theorem extends_trans (r1 r2 r3 : Registry) (h12 : Extends r1 r2) (h23 : Extends r2 r3) :
    Extends r1 r3 := by
  intro a p key c hp hget
  obtain ⟨p2, hp2, hget2⟩ := h12 a p key c hp hget
  exact h23 a p2 key c hp2 hget2

theorem invariant_child (reg : Registry) (hinv : RegistryInvariant reg) (a : Nat)
    (p : ProtoPackage) (key : String) (c : Nat) (hp : reg[a]? = some p)
    (hget : mapGet p.children key = some c) :
    c ≠ globalPkg ∧ ∃ q : ProtoPackage, reg[c]? = some q := by
  obtain ⟨⟨root, hroot, _, hparent⟩, _, hchildren⟩ := hinv
  obtain ⟨q, hq, _, hqp⟩ := hchildren a p key c hp (mapGet_mem _ _ _ hget)
  refine ⟨?_, q, hq⟩
  intro hc
  rw [hc, hroot] at hq
  cases hq
  rw [hparent] at hqp
  cases hqp

theorem followSegments_step (reg : Registry) (pkg : Nat) (p : ProtoPackage) (node : String)
    (c : Nat) (rest : List String) (hp : reg[pkg]? = some p)
    (hget : mapGet p.children node = some c) :
    followSegments reg (node :: rest) pkg = followSegments reg rest c := by
  show (match reg[pkg]? with
    | none => none
    | some p =>
      match mapGet p.children node with
      | none => none
      | some child => followSegments reg rest child) = _
  rw [hp]
  simp only
  rw [hget]

/-- The loop of `registerType` returns, keeps the invariant and the edges, and the
node it reaches is the one found by following the segments. -/
theorem registerLoop_spec (comps : List String) :
    ∀ (reg : Registry) (pkg : Nat), RegistryInvariant reg →
      (∃ p : ProtoPackage, reg[pkg]? = some p) → (∀ c ∈ comps, '.' ∉ c.data) →
      ∃ (reg2 : Registry) (pkg2 : Nat),
        registerLoop comps reg pkg = .returned (reg2, pkg2) ∧ RegistryInvariant reg2 ∧
        Extends reg reg2 ∧ (∃ p2 : ProtoPackage, reg2[pkg2]? = some p2) ∧
        followSegments reg2
          (if pkg = globalPkg then comps.dropWhile (fun seg => seg = "") else comps) pkg =
          some pkg2 := by
  induction comps with
  | nil =>
    intro reg pkg hinv hp _
    refine ⟨reg, pkg, rfl, hinv, extends_refl reg, hp, ?_⟩
    by_cases h0 : pkg = globalPkg
    · rw [if_pos h0]; rfl
    · rw [if_neg h0]; rfl
  | cons node rest ih =>
    intro reg pkg hinv hp hdots
    have hrest : ∀ c ∈ rest, '.' ∉ c.data := fun c hc => hdots c (List.mem_cons_of_mem _ hc)
    have hnode : '.' ∉ node.data := hdots node (List.mem_cons_self _ _)
    unfold registerLoop
    by_cases hskip : pkg = globalPkg ∧ node = ""
    · rw [if_pos hskip]
      obtain ⟨reg2, pkg2, h1, h2, h3, h4, h5⟩ := ih reg pkg hinv hp hrest
      refine ⟨reg2, pkg2, h1, h2, h3, h4, ?_⟩
      rw [if_pos hskip.1] at h5 ⊢
      rw [List.dropWhile_cons_of_pos (by simp [hskip.2])]
      exact h5
    · rw [if_neg hskip]
      have hsegs : (if pkg = globalPkg then (node :: rest).dropWhile (fun seg => seg = "")
          else node :: rest) = node :: rest := by
        by_cases h0 : pkg = globalPkg
        · rw [if_pos h0, List.dropWhile_cons_of_neg]
          simpa using fun h => hskip ⟨h0, h⟩
        · rw [if_neg h0]
      rw [hsegs]
      obtain ⟨p, hpp⟩ := hp
      rw [hpp]
      simp only
      cases hget : mapGet p.children node with
      | some child =>
        simp only
        obtain ⟨hc0, hq⟩ := invariant_child reg hinv pkg p node child hpp hget
        obtain ⟨reg2, pkg2, h1, h2, h3, h4, h5⟩ := ih reg child hinv hq hrest
        refine ⟨reg2, pkg2, h1, h2, h3, h4, ?_⟩
        rw [if_neg hc0] at h5
        obtain ⟨p2, hp2, hget2⟩ := h3 pkg p node child hpp hget
        rw [followSegments_step reg2 pkg p2 node child rest hp2 hget2]
        exact h5
      | none =>
        simp only
        have hlt := lt_length_of_getElem? _ _ _ hpp
        have hinv1 := invariant_addChild reg pkg p node hinv hpp hnode
        have hext1 := extends_addChild reg pkg p node hpp hget
        have hnew := addChild_get_new reg pkg p node hlt
        obtain ⟨reg2, pkg2, h1, h2, h3, h4, h5⟩ :=
          ih (addChild reg pkg p node) reg.length hinv1 ⟨_, hnew⟩ hrest
        refine ⟨reg2, pkg2, h1, h2, extends_trans _ _ _ hext1 h3, h4, ?_⟩
        have hc0 : reg.length ≠ globalPkg := by
          unfold globalPkg
          omega
        rw [if_neg hc0] at h5
        obtain ⟨p2, hp2, hget2⟩ := h3 pkg _ node reg.length
          (addChild_get_pkg reg pkg p node hlt) (mapGet_mapSet_same p.children node reg.length)
        rw [followSegments_step reg2 pkg p2 node reg.length rest hp2 hget2]
        exact h5

theorem setTypes_get (reg : Registry) (pkg : Nat) (p : ProtoPackage)
    (t : List (String × DescriptorProto)) (hp : reg[pkg]? = some p) (a : Nat)
    (x : ProtoPackage) (hx : reg[a]? = some x) :
    ∃ x2 : ProtoPackage, (reg.set pkg { p with types := t })[a]? = some x2 ∧
      x2.name = x.name ∧ x2.parent = x.parent ∧ x2.children = x.children := by
  by_cases h1 : a = pkg
  · rw [h1] at hx ⊢
    rw [hp] at hx
    cases hx
    exact ⟨_, List.getElem?_set_self (lt_length_of_getElem? _ _ _ hp), rfl, rfl, rfl⟩
  · refine ⟨x, ?_, rfl, rfl, rfl⟩
    rw [List.getElem?_set_ne (fun h => h1 h.symm)]
    exact hx

theorem setTypes_get_inv (reg : Registry) (pkg : Nat) (p : ProtoPackage)
    (t : List (String × DescriptorProto)) (hp : reg[pkg]? = some p) (a : Nat)
    (x2 : ProtoPackage) (hx : (reg.set pkg { p with types := t })[a]? = some x2) :
    ∃ x : ProtoPackage, reg[a]? = some x ∧
      x2.name = x.name ∧ x2.parent = x.parent ∧ x2.children = x.children := by
  by_cases h1 : a = pkg
  · rw [h1] at hx ⊢
    rw [List.getElem?_set_self (lt_length_of_getElem? _ _ _ hp)] at hx
    cases hx
    exact ⟨p, hp, rfl, rfl, rfl⟩
  · rw [List.getElem?_set_ne (fun h => h1 h.symm)] at hx
    exact ⟨x2, hx, rfl, rfl, rfl⟩

theorem invariant_setTypes (reg : Registry) (pkg : Nat) (p : ProtoPackage)
    (t : List (String × DescriptorProto)) (hinv : RegistryInvariant reg)
    (hp : reg[pkg]? = some p) : RegistryInvariant (reg.set pkg { p with types := t }) := by
  obtain ⟨⟨root, hroot, hname, hparent⟩, hkeys, hchildren⟩ := hinv
  refine ⟨?_, ?_, ?_⟩
  · obtain ⟨x2, h1, h2, h3, _⟩ := setTypes_get reg pkg p t hp globalPkg root hroot
    exact ⟨x2, h1, h2.trans hname, h3.trans hparent⟩
  · intro a x2 key child hx hmem
    obtain ⟨x, h1, _, _, h4⟩ := setTypes_get_inv reg pkg p t hp a x2 hx
    rw [h4] at hmem
    exact hkeys a x key child h1 hmem
  · intro a x2 key child hx hmem
    obtain ⟨x, h1, h2, _, h4⟩ := setTypes_get_inv reg pkg p t hp a x2 hx
    rw [h4] at hmem
    obtain ⟨q, hq, hqn, hqp⟩ := hchildren a x key child h1 hmem
    obtain ⟨q2, g1, g2, g3, _⟩ := setTypes_get reg pkg p t hp child q hq
    exact ⟨q2, g1, by rw [g2, hqn, h2], g3.trans hqp⟩

theorem extends_setTypes (reg : Registry) (pkg : Nat) (p : ProtoPackage)
    (t : List (String × DescriptorProto)) (hp : reg[pkg]? = some p) :
    Extends reg (reg.set pkg { p with types := t }) := by
  intro a x key c hx hget
  obtain ⟨x2, h1, _, _, h4⟩ := setTypes_get reg pkg p t hp a x hx
  exact ⟨x2, h1, by rw [h4]; exact hget⟩

theorem followSegments_mono (reg reg2 : Registry) (hext : Extends reg reg2)
    (segs : List String) : ∀ (a b : Nat), followSegments reg segs a = some b →
      followSegments reg2 segs a = some b := by
  induction segs with
  | nil => intro a b h; exact h
  | cons seg rest ih =>
    intro a b h
    unfold followSegments at h
    cases hp : reg[a]? with
    | none => rw [hp] at h; cases h
    | some p =>
      rw [hp] at h
      simp only at h
      cases hget : mapGet p.children seg with
      | none => rw [hget] at h; cases h
      | some child =>
        rw [hget] at h
        simp only at h
        obtain ⟨p2, hp2, hget2⟩ := hext a p seg child hp hget
        rw [followSegments_step reg2 a p2 seg child rest hp2 hget2]
        exact ih child b h

/-- The call `registerType` on a registry with the invariant returns a registry with
the invariant in which following the segments from the root reaches a node holding the
message under its name. -/
theorem registerType_spec (reg : Registry) (pkgName : Option String) (msg : DescriptorProto)
    (hinv : RegistryInvariant reg) :
    ∃ reg2 : Registry, registerType reg pkgName msg = .returned reg2 ∧
      RegistryInvariant reg2 ∧
      ∃ (a : Nat) (node : ProtoPackage),
        followSegments reg2 (packageSegments pkgName) globalPkg = some a ∧
        reg2[a]? = some node ∧ mapGet node.types msg.getName = some msg := by
  have hroot : ∃ p : ProtoPackage, reg[globalPkg]? = some p := by
    obtain ⟨⟨root, hroot, _⟩, _⟩ := hinv
    exact ⟨root, hroot⟩
  have hstore : ∀ (reg1 : Registry) (pkg : Nat) (segs : List String),
      RegistryInvariant reg1 → (∃ p : ProtoPackage, reg1[pkg]? = some p) →
      followSegments reg1 segs globalPkg = some pkg →
      ∃ reg2 : Registry, storeType reg1 pkg msg = .returned reg2 ∧ RegistryInvariant reg2 ∧
        ∃ (a : Nat) (node : ProtoPackage), followSegments reg2 segs globalPkg = some a ∧
          reg2[a]? = some node ∧ mapGet node.types msg.getName = some msg := by
    intro reg1 pkg segs hinv1 hp hfollow
    obtain ⟨p, hp⟩ := hp
    unfold storeType
    rw [hp]
    refine ⟨_, rfl, invariant_setTypes reg1 pkg p _ hinv1 hp, pkg, _, ?_,
      List.getElem?_set_self (lt_length_of_getElem? _ _ _ hp), ?_⟩
    · exact followSegments_mono _ _ (extends_setTypes reg1 pkg p _ hp) segs _ _ hfollow
    · exact mapGet_mapSet_same p.types msg.getName msg
  cases pkgName with
  | none => exact hstore reg globalPkg [] hinv hroot rfl
  | some n =>
    obtain ⟨reg1, pkg, h1, h2, _, h4, h5⟩ :=
      registerLoop_spec (stringsSplit n) reg globalPkg hinv hroot (stringsSplit_no_dot n)
    rw [if_pos rfl] at h5
    unfold registerType
    simp only
    rw [h1]
    exact hstore reg1 pkg _ h2 h4 h5

theorem invariant_initial : RegistryInvariant initialRegistry := by
  refine ⟨⟨_, rfl, rfl, rfl⟩, ?_, ?_⟩
  · intro a p key child hp hmem
    cases a with
    | zero =>
      cases hp
      cases hmem
    | succ a => cases hp
  · intro a p key child hp hmem
    cases a with
    | zero =>
      cases hp
      cases hmem
    | succ a => cases hp

theorem invariant_of_reachable (reg : Registry) (h : Reachable reg) : RegistryInvariant reg := by
  induction h with
  | initial => exact invariant_initial
  | register reg pkgName msg reg1 _ hreg ih =>
    obtain ⟨reg2, h1, h2, _⟩ := registerType_spec reg pkgName msg ih
    rw [h1] at hreg
    cases hreg
    exact h2

theorem stringsSplit_leading_dot (s : String) :
    stringsSplit ("." ++ s) = "" :: stringsSplit s := by
  unfold stringsSplit
  have h : ("." ++ s).data = '.' :: s.data := by
    rw [String.data_append]
    rfl
  rw [h]
  rfl

theorem registerType_mail :
    registerType initialRegistry (some "mail.v1") letterMessage = .returned mailRegistry := by
  rfl

theorem mailRegistry_reachable : Reachable mailRegistry :=
  Reachable.register initialRegistry (some "mail.v1") letterMessage mailRegistry
    Reachable.initial registerType_mail

/-- A second registration in the same package, written with a leading dot, reuses the
two package nodes and adds the message to the last one. -/
theorem registerType_mail_again :
    registerType mailRegistry (some ".mail.v1") lineMessage =
      .returned
        [{ name := "", parent := none, children := [("mail", 1)], types := [] },
         { name := ".mail", parent := some 0, children := [("v1", 2)], types := [] },
         { name := ".mail.v1", parent := some 1, children := [],
           types := [("Letter", letterMessage), ("Line", lineMessage)] }] := by
  rfl

/-- C13: on a registry reached from the initial one, `registerType p m` returns, and
in the registry it returns, following the dot-separated segments of `p` without the
empty leading ones from the root through the children maps arrives at a node whose
type map sends the name of `m` to `m`; an absent or empty package name has no segment
to follow, and a leading dot does not change the segments. -/
theorem C13_register_then_follow (reg : Registry) (pkgName : Option String)
    (msg : DescriptorProto) (h : Reachable reg) :
    (∃ reg2 : Registry, registerType reg pkgName msg = .returned reg2 ∧
      ∃ (a : Nat) (node : ProtoPackage),
        followSegments reg2 (packageSegments pkgName) globalPkg = some a ∧
        reg2[a]? = some node ∧ mapGet node.types msg.getName = some msg) ∧
    packageSegments none = [] ∧ packageSegments (some "") = [] ∧
    (∀ s : String, packageSegments (some ("." ++ s)) = packageSegments (some s)) ∧
    (∀ r : Registry, followSegments r [] globalPkg = some globalPkg) := by
  refine ⟨?_, rfl, by decide, ?_, fun _ => rfl⟩
  · obtain ⟨reg2, h1, _, h3⟩ := registerType_spec reg pkgName msg (invariant_of_reachable reg h)
    exact ⟨reg2, h1, h3⟩
  · intro s
    unfold packageSegments
    simp only
    rw [stringsSplit_leading_dot, List.dropWhile_cons_of_pos (by decide)]

/-- C13 at the registry holding `Letter` in `mail.v1`, for `Line` registered in
`.mail.v1`. -/
theorem C13_register_then_follow_witness :
    Reachable mailRegistry ∧
    ((∃ reg2 : Registry, registerType mailRegistry (some ".mail.v1") lineMessage = .returned reg2 ∧
      ∃ (a : Nat) (node : ProtoPackage),
        followSegments reg2 (packageSegments (some ".mail.v1")) globalPkg = some a ∧
        reg2[a]? = some node ∧ mapGet node.types lineMessage.getName = some lineMessage) ∧
    packageSegments none = [] ∧ packageSegments (some "") = [] ∧
    (∀ s : String, packageSegments (some ("." ++ s)) = packageSegments (some s)) ∧
    (∀ r : Registry, followSegments r [] globalPkg = some globalPkg)) :=
  ⟨mailRegistry_reachable,
    C13_register_then_follow mailRegistry (some ".mail.v1") lineMessage mailRegistry_reachable⟩

/-- C14: every registry reached from the initial one by calls of `registerType` has
the invariant: the root has an empty name and no parent; no key of a children map
contains a dot; every child is named by the name of its parent, a dot and its key, and
its parent link is the node that holds it. -/
theorem C14_registry_invariant (reg : Registry) (h : Reachable reg) :
    RegistryInvariant reg :=
  invariant_of_reachable reg h

/-- C14 at the registry holding `Letter` in `mail.v1`. -/
theorem C14_registry_invariant_witness :
    Reachable mailRegistry ∧ RegistryInvariant mailRegistry :=
  ⟨mailRegistry_reachable, C14_registry_invariant mailRegistry mailRegistry_reachable⟩

end ProtocGenJsonschema
